import Mathlib

/-
Verification of the block-management engine of a 64-bit segregated free list
memory allocator (src/mm.c) against its natural-language specification.

Embedding notes.  The heap is modelled as a list of blocks in address order;
the final entry is the epilogue sentinel (size 0, allocated).  The address of
the i-th block is 8 + the sum of the sizes of the blocks before it (the
prologue word occupies bytes [0, 8), so the first block header sits at
offset 8, exactly as in mm_init).  Free lists hold block *addresses*; cons is
the LIFO insertion of add_to_free_list and List.erase is the doubly- resp.
singly-linked unlink of rem_from_free_list / rem_from_mini_list (both remove
the first occurrence of the block).  Footer words of free regular blocks and
the in-payload next/prev link words are redundant images of the block record
and of the free-list state and are represented by them (write_block keeps the
footer equal to the header; the checker's header/footer comparison is
therefore structurally satisfied).  A block's `data` field holds its payload
bytes.  The sbrk primitive is modelled by a byte `budget`: mem_sbrk succeeds
exactly when the requested size fits in the remaining budget, which captures
an underlying grow primitive that can reject.  size_t arithmetic that can
wrap (malloc's size + 8, round_up's size + 15, calloc's product) is taken
modulo 2^64 as in the C source.
-/

set_option maxRecDepth 20000
set_option linter.unusedVariables false

namespace MM

/-- 64-bit machine word modulus: `size_t` arithmetic wraps modulo `2^64`. -/
def U64 : Nat := 2 ^ 64

/-- Word and header size in bytes (mm.c line 117). -/
def wsize : Nat := 8

/-- Double word size (mm.c line 120). -/
def dsize : Nat := 16

/-- Minimum regular block size (mm.c line 123). -/
def min_block_size : Nat := 32

/-- Heap extension chunk size, 4096 bytes (mm.c line 129). -/
def chunksize : Nat := 4096

/-- Mini block size (mm.c line 166). -/
def mb_block_size : Nat := 16

/-- Mini block payload size (mm.c line 167). -/
def mb_dsize : Nat := 8

/-- Number of segregated size classes (mm.c line 163). -/
def NUM_CLASSES : Nat := 15

/-- Bounded best-fit search cap per class (mm.c line 892). -/
def MAX_SEARCH : Nat := 10

/-- `SIZE_MAX`, the sentinel used by find_fit's best-fit scan. -/
def SIZE_MAX64 : Nat := U64 - 1

/-- `pack(size, alloc, prev_alloc, prev_mini)` (mm.c lines 359-371): the
header/footer word with the three flag bits or-ed into the low bits. -/
def pack (size : Nat) (alloc prev_alloc prev_mini : Bool) : Nat :=
  ((size ||| (if alloc then 1 else 0)) ||| (if prev_alloc then 2 else 0)) |||
    (if prev_mini then 4 else 0)

/-- `round_up(size, n)` (mm.c lines 206-208), computed in `size_t`: the
intermediate sum `size + (n - 1)` wraps modulo `2^64`. -/
def round_up (size n : Nat) : Nat :=
  (n * (((size + (n - 1)) % U64) / n)) % U64

/-- One heap block: header fields and payload bytes.  The header word is
`pack size alloc prev_alloc prev_mini`; `data` is the payload byte list. -/
structure Block where
  size : Nat
  alloc : Bool
  prev_alloc : Bool
  prev_mini : Bool
  data : List Nat
deriving DecidableEq, Repr

instance : Inhabited Block := ⟨⟨0, true, false, false, []⟩⟩

/-- `get_mini` (mm.c lines 299-301): a block is mini iff its size is 16. -/
def get_mini (b : Block) : Bool := b.size == mb_block_size

/-- The header word of a block, as stored in memory. -/
def header_word (b : Block) : Nat := pack b.size b.alloc b.prev_alloc b.prev_mini

/-- The eight little-endian bytes of a block's header word; after a merge the
absorbed block's header bytes become interior payload bytes of the result. -/
def header_bytes (b : Block) : List Nat :=
  (List.range 8).map (fun k => header_word b / 256 ^ k % 256)

/-- Allocator state: the heap (block list in address order, ending with the
epilogue sentinel), the 15 size-class free lists and the mini list (lists of
block addresses), the prologue word, and the remaining sbrk budget. -/
structure AState where
  heap : List Block
  classes : List (List Nat)
  mini_list : List Nat
  prologue : Nat
  budget : Nat
deriving DecidableEq, Repr

/-- Address of the i-th heap block: the prologue occupies bytes `[0, 8)`, so
block 0 starts at offset 8 and each later block follows its predecessor. -/
def addr_of (h : List Block) (i : Nat) : Nat :=
  wsize + ((h.take i).map Block.size).sum

/-- The i-th block of a heap (out-of-range reads yield the default block,
which is allocated with size 0 - the shape of the epilogue sentinel). -/
def blockD (h : List Block) (i : Nat) : Block := h.getD i default

def idx_at_aux : List Block → Nat → Nat → Option Nat
  | [], _, _ => none
  | b :: t, cur, a =>
    if cur = a then some 0 else (idx_at_aux t (cur + b.size) a).map (· + 1)

/-- Resolve a block address to its index in the heap list (the inverse of
`addr_of`); `none` when no block starts at that address. -/
def idx_at (h : List Block) (a : Nat) : Option Nat := idx_at_aux h wsize a

/-- `size_to_class` (mm.c lines 558-574): power-of-two size class index. -/
def size_to_class (size : Nat) : Nat :=
  if size ≤ 32 then 0
  else if size ≤ 64 then 1
  else if size ≤ 128 then 2
  else if size ≤ 256 then 3
  else if size ≤ 512 then 4
  else if size ≤ 1024 then 5
  else if size ≤ 2048 then 6
  else if size ≤ 4096 then 7
  else if size ≤ 8192 then 8
  else if size ≤ 16384 then 9
  else if size ≤ 32768 then 10
  else if size ≤ 65536 then 11
  else if size ≤ 131072 then 12
  else if size ≤ 262144 then 13
  else 14

/-- The free list of size class `c`. -/
def getClass (s : AState) (c : Nat) : List Nat := s.classes.getD c []

def setClass (s : AState) (c : Nat) (l : List Nat) : AState :=
  { s with classes := s.classes.set c l }

/-- `get_size` of the block at address `a` (0 when no block starts there,
matching a size-0 boundary tag). -/
def size_at (s : AState) (a : Nat) : Nat :=
  match idx_at s.heap a with
  | some i => (blockD s.heap i).size
  | none => 0

/-- `get_mini` of the block at address `a`. -/
def mini_at (s : AState) (a : Nat) : Bool := size_at s a == mb_block_size

/-- `add_to_free_list` (mm.c lines 581-595): LIFO push of the block's address
onto its size class (the in-block next/prev link writes are represented by
the list itself). -/
def add_to_free_list (s : AState) (a : Nat) : AState :=
  let c := size_to_class (size_at s a)
  setClass s c (a :: getClass s c)

/-- `rem_from_free_list` (mm.c lines 602-626): doubly-linked unlink, i.e.
removal of the (unique, under well-formedness) occurrence of the address
from its size class. -/
def rem_from_free_list (s : AState) (a : Nat) : AState :=
  let c := size_to_class (size_at s a)
  setClass s c ((getClass s c).erase a)

/-- `add_to_mini_list` (mm.c lines 670-677): LIFO push onto the mini list. -/
def add_to_mini_list (s : AState) (a : Nat) : AState :=
  { s with mini_list := a :: s.mini_list }

/-- `rem_from_mini_list` (mm.c lines 639-659): unlink of the first occurrence
of the block from the singly-linked mini list. -/
def rem_from_mini_list (s : AState) (a : Nat) : AState :=
  { s with mini_list := s.mini_list.erase a }

/-- Update the flag bits of the first block of a tail of the heap: the model
of `clear_prev_alloc` / `set_prev_alloc` and `clear_prev_mini` /
`set_prev_mini` applied to `find_next` of the block just written (these
helpers mirror the change into the footer of a free regular block, which the
embedding represents implicitly). -/
def set_head_flags (pa pm : Bool) : List Block → List Block
  | [] => []
  | b :: t => { b with prev_alloc := pa, prev_mini := pm } :: t

/-- `find_prev` (mm.c lines 513-542), as an index.  Both branches locate the
physically preceding block.  In the footer branch the word before the header
of the first real block is the prologue (size 0), so the C function returns
NULL there; the mini branch performs no such check (at the first block it
would read below the heap - unreachable because the prologue is allocated),
and is totalised to `none` in the model. -/
def find_prev_idx (h : List Block) (i : Nat) : Option Nat :=
  if (blockD h i).prev_mini then
    if i = 0 then none else some (i - 1)
  else
    if i = 0 then none else some (i - 1)

/-- `coalesce_block` (mm.c lines 685-750) on the block at index `i`, assumed
newly freed.  Returns the new state and the index of the coalesced block.
Each branch writes the merged block with `write_block(_, size, false,
get_prev_alloc(_), get_prev_mini(_))` - the record update keeps those flags -
and then clears `prev_alloc` / `prev_mini` on `find_next` of the result;
absorbed neighbours are first unlinked from the mini or regular list
according to `get_mini`.  The headers of absorbed blocks become interior
payload bytes of the merged block. -/
def coalesce_block (s : AState) (i : Nat) : AState × Nat :=
  let h := s.heap
  let B := blockD h i
  let next? := h.get? (i + 1)
  let prev? : Option Nat := if B.prev_alloc then none else find_prev_idx h i
  let prev_alloced : Bool := B.prev_alloc || prev?.isNone
  let next_alloced : Bool := next?.isNone || (next?.getD default).alloc
  if !prev_alloced && !next_alloced then
    -- free_free_free: absorb both neighbours into the previous block
    let P := blockD h (i - 1)
    let X := blockD h (i + 1)
    let sz := B.size + P.size + X.size
    let s1 := if get_mini P then rem_from_mini_list s (addr_of h (i - 1))
              else rem_from_free_list s (addr_of h (i - 1))
    let s2 := if get_mini X then rem_from_mini_list s1 (addr_of h (i + 1))
              else rem_from_free_list s1 (addr_of h (i + 1))
    let merged := { P with size := sz, alloc := false, data := P.data ++ header_bytes B ++ B.data ++ header_bytes X ++ X.data }
    let h' := h.take (i - 1) ++ merged :: set_head_flags false false (h.drop (i + 2))
    ({ s2 with heap := h' }, i - 1)
  else if !prev_alloced && next_alloced then
    -- free_free_alloced: absorb the block into the previous block
    let P := blockD h (i - 1)
    let sz := B.size + P.size
    let s1 := if get_mini P then rem_from_mini_list s (addr_of h (i - 1))
              else rem_from_free_list s (addr_of h (i - 1))
    let merged := { P with size := sz, alloc := false, data := P.data ++ header_bytes B ++ B.data }
    let h' := h.take (i - 1) ++ merged :: set_head_flags false false (h.drop (i + 1))
    ({ s1 with heap := h' }, i - 1)
  else if prev_alloced && !next_alloced then
    -- alloced_free_free: absorb the next block
    let X := blockD h (i + 1)
    let sz := B.size + X.size
    let s1 := if get_mini X then rem_from_mini_list s (addr_of h (i + 1))
              else rem_from_free_list s (addr_of h (i + 1))
    let merged := { B with size := sz, alloc := false, data := B.data ++ header_bytes X ++ X.data }
    let h' := h.take i ++ merged :: set_head_flags false false (h.drop (i + 2))
    ({ s1 with heap := h' }, i)
  else
    -- alloced_free_alloced: no merge; clear_prev_alloc on next and
    -- set/clear prev_mini there according to get_mini(block)
    let h' := h.take (i + 1) ++ set_head_flags false (get_mini B) (h.drop (i + 1))
    ({ s with heap := h' }, i)

/-- `split_block` (mm.c lines 789-860) on the free block at index `i` with
aligned request `asize` (callers guarantee `asize ≤ size`).  Carves an
allocated prefix and, when the remainder is large enough, a free remainder
block that is pushed onto its size class (or the mini list when the
remainder is exactly 16); the flag bits of the block after the written
region are updated exactly as the respective source branch does. -/
def split_block (s : AState) (i : Nat) (asize : Nat) : AState :=
  let h := s.heap
  let B := blockD h i
  let block_size := B.size
  let remainder := block_size - asize
  let a := addr_of h i
  if asize = mb_block_size then
    if remainder ≥ min_block_size then
      -- alloc mini | free regular
      let first := { B with size := mb_block_size, alloc := true, data := B.data.take (mb_block_size - wsize) }
      let rest : Block := { size := remainder, alloc := false, prev_alloc := true, prev_mini := true, data := B.data.drop mb_block_size }
      let h' := h.take i ++ first :: rest :: set_head_flags false false (h.drop (i + 1))
      add_to_free_list { s with heap := h' } (a + mb_block_size)
    else if remainder = mb_block_size then
      -- alloc mini | free mini
      let first := { B with size := mb_block_size, alloc := true, data := B.data.take (mb_block_size - wsize) }
      let rest : Block := { size := mb_block_size, alloc := false, prev_alloc := true, prev_mini := true, data := B.data.drop mb_block_size }
      let h' := h.take i ++ first :: rest :: set_head_flags false true (h.drop (i + 1))
      add_to_mini_list { s with heap := h' } (a + mb_block_size)
    else
      -- no split: allocate the whole block; set_prev_alloc and set_prev_mini on next
      let first := { B with alloc := true }
      { s with heap := h.take i ++ first :: set_head_flags true true (h.drop (i + 1)) }
  else
    if remainder ≥ min_block_size then
      -- alloc regular | free regular
      let first := { B with size := asize, alloc := true, data := B.data.take (asize - wsize) }
      let rest : Block := { size := remainder, alloc := false, prev_alloc := true, prev_mini := false, data := B.data.drop asize }
      let h' := h.take i ++ first :: rest :: set_head_flags false false (h.drop (i + 1))
      add_to_free_list { s with heap := h' } (a + asize)
    else if remainder = mb_block_size then
      -- alloc regular | free mini
      let first := { B with size := asize, alloc := true, data := B.data.take (asize - wsize) }
      let rest : Block := { size := mb_block_size, alloc := false, prev_alloc := true, prev_mini := false, data := B.data.drop asize }
      let h' := h.take i ++ first :: rest :: set_head_flags false true (h.drop (i + 1))
      add_to_mini_list { s with heap := h' } (a + asize)
    else
      -- no split: allocate the whole block; set_prev_alloc, clear_prev_mini on next
      let first := { B with alloc := true }
      { s with heap := h.take i ++ first :: set_head_flags true false (h.drop (i + 1)) }

/-- The inner bounded best-fit loop of `find_fit` (mm.c lines 888-905):
examine at most `MAX_SEARCH` blocks of one class list, remembering the first
block of smallest size among those that fit (`best_size` starts at
`SIZE_MAX` and is updated on strict decrease). -/
def best_loop (s : AState) (asize : Nat) :
    List Nat → Nat → Option Nat → Nat → Option Nat
  | [], _, best, _ => best
  | a :: rest, cnt, best, bestSize =>
    if cnt < MAX_SEARCH then
      if asize ≤ size_at s a then
        if size_at s a < bestSize then
          best_loop s asize rest (cnt + 1) (some a) (size_at s a)
        else
          best_loop s asize rest (cnt + 1) best bestSize
      else
        best_loop s asize rest (cnt + 1) best bestSize
    else best

/-- The outer loop of `find_fit` over the classes above `c` (mm.c line 888),
taken over the explicit list of remaining class indices: return the bounded
best fit of the first class that yields one. -/
def scan_classes (s : AState) (asize : Nat) : List Nat → Option Nat
  | [] => none
  | i :: rest =>
    match best_loop s asize (getClass s i) 0 none SIZE_MAX64 with
    | some b => some b
    | none => scan_classes s asize rest

/-- `find_fit` (mm.c lines 869-908): mini-list fast path for `asize ≤ 16`,
then first fit inside the exact class, then bounded best fit in each higher
class in turn. -/
def find_fit (s : AState) (asize : Nat) : Option Nat :=
  let fast : Option Nat :=
    if asize ≤ mb_block_size then
      match s.mini_list with
      | a :: _ => some a
      | [] => none
    else none
  match fast with
  | some a => some a
  | none =>
    let c := size_to_class asize
    match (getClass s c).find? (fun a => decide (asize ≤ size_at s a)) with
    | some a => some a
    | none => scan_classes s asize ((List.range NUM_CLASSES).drop (c + 1))

/-- The epilogue written by `write_epilogue` (mm.c lines 443-447):
`pack(0, true, false, false)`. -/
def epilogue_block : Block :=
  { size := 0, alloc := true, prev_alloc := false, prev_mini := false, data := [] }

/-- `extend_heap` (mm.c lines 758-780): round the request to a multiple of
16, obtain that many bytes from sbrk (modelled by the budget), overwrite the
old epilogue with the new free block (inheriting its prev flags), write a
fresh epilogue, coalesce with a possibly free tail block and insert the
result.  Returns the address of the resulting block. -/
def extend_heap (s : AState) (size : Nat) : AState × Option Nat :=
  let sz := round_up size dsize
  if s.budget < sz then (s, none)
  else
    let h := s.heap
    let L := h.length - 1
    let epi := blockD h L
    let nb : Block := { size := sz, alloc := false, prev_alloc := epi.prev_alloc, prev_mini := epi.prev_mini, data := List.replicate (sz - wsize) 0 }
    let s1 : AState := { s with heap := h.dropLast ++ [nb, epilogue_block], budget := s.budget - sz }
    let (s2, j) := coalesce_block s1 L
    let s3 := add_to_free_list s2 (addr_of s2.heap j)
    (s3, some (addr_of s2.heap j))

/-- The adjusted block size computed by `malloc` (mm.c lines 1076-1080):
16 for requests of at most 8 bytes, otherwise
`max(round_up(size + 8, 16), 32)` in wrapping `size_t` arithmetic. -/
def malloc_asize (size : Nat) : Nat :=
  if size ≤ mb_dsize then mb_block_size
  else Nat.max (round_up ((size + wsize) % U64) dsize) min_block_size

/-- `malloc` (mm.c lines 1053-1119) on an initialised heap: normalise the
size, find a fit (mini fast path claims a whole mini block and fixes the
next block's flags; otherwise unlink and split), extending the heap by
`max(asize, chunksize)` when no fit exists.  Returns the payload address. -/
def malloc (s : AState) (size : Nat) : AState × Option Nat :=
  if size = 0 then (s, none)
  else
    let asize := malloc_asize size
    match find_fit s asize with
    | some a =>
      if asize = mb_block_size ∧ mini_at s a then
        match idx_at s.heap a with
        | some i =>
          let s1 := rem_from_mini_list s a
          let B := blockD s1.heap i
          let h' := s1.heap.take i ++ { B with size := mb_block_size, alloc := true } ::
                      set_head_flags true true (s1.heap.drop (i + 1))
          ({ s1 with heap := h' }, some (a + wsize))
        | none => (s, none)
      else
        match idx_at s.heap a with
        | some i =>
          let s1 := rem_from_free_list s a
          let s2 := split_block s1 i asize
          (s2, some (a + wsize))
        | none => (s, none)
    | none =>
      let extendsize := Nat.max asize chunksize
      let (s1, r) := extend_heap s extendsize
      match r with
      | none => (s1, none)
      | some a =>
        match idx_at s1.heap a with
        | some i =>
          let s2 := rem_from_free_list s1 a
          let s3 := split_block s2 i asize
          (s3, some (a + wsize))
        | none => (s1, none)

/-- `free` (mm.c lines 1126-1148): clear the alloc bit keeping the other
flags, coalesce, and insert the result into the mini or regular list.  A
null pointer is a no-op; a pointer that is not a block payload is undefined
behaviour in C and modelled as a no-op. -/
def free (s : AState) (p : Nat) : AState :=
  if p = 0 then s
  else
    match idx_at s.heap (p - wsize) with
    | none => s
    | some i =>
      let B := blockD s.heap i
      let h1 := s.heap.set i { B with alloc := false }
      let (s2, j) := coalesce_block { s with heap := h1 } i
      if get_mini (blockD s2.heap j) then add_to_mini_list s2 (addr_of s2.heap j)
      else add_to_free_list s2 (addr_of s2.heap j)

/-- `get_payload_size` (mm.c lines 430-434): block size minus both boundary
tags for a free block, minus the header alone for an allocated block. -/
def get_payload_size (b : Block) : Nat :=
  if !b.alloc then b.size - dsize else b.size - wsize

/-- The payload bytes of the block whose payload starts at `p`. -/
def data_at (s : AState) (p : Nat) : List Nat :=
  match idx_at s.heap (p - wsize) with
  | some i => (blockD s.heap i).data
  | none => []

/-- `mem_memcpy(dst, src, n)` restricted to block payloads: the first `n`
bytes of the destination block become the first `n` bytes of the source
block.  Source bytes beyond the recorded payload are modelled as 0 (the C
routine would read adjacent memory; the verified call sites keep `n` within
the source payload). -/
def mem_memcpy (s : AState) (dst src n : Nat) : AState :=
  match idx_at s.heap (dst - wsize) with
  | none => s
  | some i =>
    let b := blockD s.heap i
    let srcBytes := (data_at s src).take n ++
      List.replicate (n - (data_at s src).length) 0
    { s with heap := s.heap.set i { b with data := srcBytes ++ b.data.drop n } }

/-- `mem_memset(dst, v, n)` restricted to the destination block's payload
(the C routine would write past the block when `n` exceeds it; the verified
call sites keep `n` within the payload). -/
def mem_memset (s : AState) (dst v n : Nat) : AState :=
  match idx_at s.heap (dst - wsize) with
  | none => s
  | some i =>
    let b := blockD s.heap i
    { s with heap := s.heap.set i { b with data := List.replicate (Nat.min n b.data.length) v ++ b.data.drop n } }

/-- `realloc` (mm.c lines 1157-1192): size 0 frees; null pointer mallocs;
otherwise malloc the new size, copy `min(size, get_payload_size(old))`
bytes, and free the old block.  When malloc fails the original block is
left untouched and null is returned. -/
def realloc (s : AState) (p n : Nat) : AState × Option Nat :=
  if n = 0 then (free s p, none)
  else if p = 0 then malloc s n
  else
    let (s1, r) := malloc s n
    match r with
    | none => (s1, none)
    | some np =>
      let copysize :=
        match idx_at s1.heap (p - wsize) with
        | some i => get_payload_size (blockD s1.heap i)
        | none => 0
      let k := Nat.min n copysize
      let s2 := mem_memcpy s1 np p k
      let s3 := free s2 p
      (s3, some np)

/-- `calloc` (mm.c lines 1201-1222): overflow-checked product (wrapping
multiplication followed by the division test), malloc, and zeroing of the
payload. -/
def calloc (s : AState) (elements size : Nat) : AState × Option Nat :=
  let asize := (elements * size) % U64
  if elements = 0 then (s, none)
  else if asize / elements ≠ size then (s, none)
  else
    let (s1, r) := malloc s asize
    match r with
    | none => (s1, none)
    | some bp => (mem_memset s1 bp 0 asize, some bp)

/-- Total heap bytes: prologue word, all blocks, epilogue word (the epilogue
is the size-0 last list entry, its header word accounted by `dsize`). -/
def heap_size_bytes (s : AState) : Nat := dsize + (s.heap.map Block.size).sum

/-- The block walk of `mm_checkheap` (mm.c lines 929-985): check alignment,
minimum size, bounds, `prev_alloc` coherence with the walked predecessor and
absence of adjacent free blocks, returning the number of free blocks seen
(`none` on failure).  The header/footer comparison for free regular blocks
cannot fail in the embedding (footers are represented by the block record),
and the lower bound check is vacuous (addresses are nonnegative offsets). -/
def check_walk (hi : Nat) : List Block → Option Block → Nat → Nat → Option Nat
  | [], _, _, freed => some freed
  | b :: t, prevB, addr, freed =>
    if b.size % 16 ≠ 0 then none
    else if b.size < mb_block_size then none
    else if addr > hi then none
    else if (match prevB with
             | some pb => (pb.alloc && !b.prev_alloc) || (!pb.alloc && b.prev_alloc)
             | none => false) then none
    else if !b.alloc && (match t.head? with
                         | some nb => !nb.alloc && nb.size != 0
                         | none => false) then none
    else check_walk hi t (some b) (addr + b.size)
           (if !b.alloc then freed + 1 else freed)

/-- `mm_checkheap` (mm.c lines 917-1012): prologue word check, the block
walk (stopping at the first size-0 header, i.e. the epilogue), then a count
of the nodes of every size-class list and of the mini list, failing when the
totals differ.  The walk over the free lists only counts nodes, and the
epilogue check of the source only prints (it does not return false), so
neither constrains the result. -/
def mm_checkheap (s : AState) : Bool :=
  if s.prologue != pack 0 true true false then false
  else
    match check_walk (heap_size_bytes s - 1)
        (s.heap.takeWhile (fun b => decide (0 < b.size))) none wsize 0 with
    | none => false
    | some totalFreed =>
      let trackedFreed := (s.classes.map List.length).sum + s.mini_list.length
      trackedFreed == totalFreed

/-- The empty initialised heap of `mm_init` (mm.c lines 1020-1045) before
the first extension: prologue and epilogue words `pack(0, true, true,
false)`, all free lists empty.  `heap_start` points at the epilogue, the
single list entry. -/
def init_state0 (budget : Nat) : AState :=
  { heap := [{ size := 0, alloc := true, prev_alloc := true, prev_mini := false, data := [] }],
    classes := List.replicate NUM_CLASSES [],
    mini_list := [],
    prologue := pack 0 true true false,
    budget := budget }

/-- `mm_init` (mm.c lines 1020-1045): build the empty heap and extend it by
`chunksize`; the boolean records whether the extension succeeded. -/
def mm_init (budget : Nat) : AState × Bool :=
  let s0 := init_state0 budget
  let (s1, r) := extend_heap s0 chunksize
  (s1, r.isSome)

/-- The initialised allocator state used for concrete runs: a fresh heap
with one free 4096-byte block and a megabyte of remaining sbrk budget. -/
def initState : AState := (mm_init (2 ^ 20)).1

/-- Specification invariant 5 for one adjacent pair `(A, B = next A)`:
`prev_alloc(B) = alloc(A)` and `prev_mini(B) ↔ (size(A) = 16)`. -/
def flag_ok (a b : Block) : Prop :=
  b.prev_alloc = a.alloc ∧ (b.prev_mini = true ↔ a.size = mb_block_size)

instance (a b : Block) : Decidable (flag_ok a b) :=
  inferInstanceAs
    (Decidable (b.prev_alloc = a.alloc ∧ (b.prev_mini = true ↔ a.size = mb_block_size)))

/-- Flag coherence of the whole heap: specification invariant 5 holds for
every adjacent pair of heap blocks (the final pair being the last real
block and the epilogue sentinel). -/
def Coherent (h : List Block) : Prop := List.Chain' flag_ok h

/-- The heap list is nonempty and ends with the epilogue sentinel:
a size-0 allocated boundary tag. -/
def EpilogueOk (h : List Block) : Prop :=
  h ≠ [] ∧ (blockD h (h.length - 1)).size = 0 ∧ (blockD h (h.length - 1)).alloc = true

instance (h : List Block) : Decidable (EpilogueOk h) :=
  inferInstanceAs (Decidable (h ≠ [] ∧ _ ∧ _))

/-- Every block other than the final epilogue has a 16-aligned size of at
least 16 (the weak form of spec invariants 1 and 2 used by the proofs). -/
def BlocksOk (h : List Block) : Prop :=
  ∀ b ∈ h.dropLast, mb_block_size ≤ b.size ∧ b.size % dsize = 0

/-- The first block's `prev_alloc` bit is set: its predecessor is the
allocated prologue. -/
def FirstOk (h : List Block) : Prop :=
  h ≠ [] → (blockD h 0).prev_alloc = true

instance (h : List Block) : Decidable (FirstOk h) :=
  inferInstanceAs (Decidable (h ≠ [] → (blockD h 0).prev_alloc = true))

/-- The `entry_idx` helper resolves an address totally (an out-of-range default
makes the validity conditions fail when the address does not resolve). -/
def entry_idx (s : AState) (a : Nat) : Nat :=
  (idx_at s.heap a).getD s.heap.length

/-- A regular free-list entry of class `c` is the address of a non-final,
free, non-mini heap block whose size belongs to class `c`. -/
def RegEntryOk (s : AState) (c : Nat) (a : Nat) : Prop :=
  entry_idx s a + 1 < s.heap.length ∧
  (blockD s.heap (entry_idx s a)).alloc = false ∧
  (blockD s.heap (entry_idx s a)).size ≠ mb_block_size ∧
  size_to_class (blockD s.heap (entry_idx s a)).size = c

instance (s : AState) (c a : Nat) : Decidable (RegEntryOk s c a) :=
  inferInstanceAs (Decidable (_ ∧ _ ∧ _ ∧ _))

/-- A mini-list entry is the address of a non-final free 16-byte block. -/
def MiniEntryOk (s : AState) (a : Nat) : Prop :=
  entry_idx s a + 1 < s.heap.length ∧
  (blockD s.heap (entry_idx s a)).alloc = false ∧
  (blockD s.heap (entry_idx s a)).size = mb_block_size

instance (s : AState) (a : Nat) : Decidable (MiniEntryOk s a) :=
  inferInstanceAs (Decidable (_ ∧ _ ∧ _))

/-- Well-formedness of the free-list index: fifteen classes, every entry
valid for the list that holds it, and no address listed twice anywhere. -/
def ListsWF (s : AState) : Prop :=
  s.classes.length = NUM_CLASSES ∧
  (∀ c < NUM_CLASSES, ∀ a ∈ getClass s c, RegEntryOk s c a) ∧
  (∀ a ∈ s.mini_list, MiniEntryOk s a) ∧
  (s.classes.flatten ++ s.mini_list).Nodup

/-- A kernel-reducible decision procedure for `List.Chain'`, used to
evaluate the well-formedness of concrete states. -/
def chainDec {α : Type} (R : α → α → Prop) [DecidableRel R] :
    (l : List α) → Decidable (List.Chain' R l)
  | [] => isTrue List.chain'_nil
  | [a] => isTrue (List.chain'_singleton a)
  | a :: b :: t =>
    match chainDec R (b :: t), inferInstanceAs (Decidable (R a b)) with
    | isTrue hc, isTrue hr => isTrue (List.chain'_cons.mpr ⟨hr, hc⟩)
    | isFalse hc, _ => isFalse (fun hcc => hc (List.chain'_cons.mp hcc).2)
    | _, isFalse hr => isFalse (fun hcc => hr (List.chain'_cons.mp hcc).1)

instance (h : List Block) : Decidable (Coherent h) := chainDec flag_ok h

instance (h : List Block) : Decidable (BlocksOk h) :=
  inferInstanceAs (Decidable (∀ b ∈ h.dropLast, _ ∧ _))

instance (s : AState) : Decidable (ListsWF s) :=
  inferInstanceAs (Decidable (_ ∧ _ ∧ _ ∧ _))

/-- The inductive well-formedness invariant of an initialised allocator
state; its first component is the flag-coherence invariant of the spec. -/
def WF (s : AState) : Prop :=
  Coherent s.heap ∧ EpilogueOk s.heap ∧ BlocksOk s.heap ∧ FirstOk s.heap ∧
    ListsWF s

instance (s : AState) : Decidable (WF s) :=
  inferInstanceAs (Decidable (_ ∧ _ ∧ _ ∧ _ ∧ _))

/-- One step of the claim-side best-fit selection: keep the incumbent unless
the candidate block is strictly smaller (so ties keep the earliest). -/
def pick_min (s : AState) (acc : Option Nat) (a : Nat) : Option Nat :=
  match acc with
  | none => some a
  | some b => if size_at s a < size_at s b then some a else some b

/-- Claim-side bounded best fit over one class list: among the (at most 10)
examined blocks, the first block of smallest size that fits the request. -/
def best_fit_spec (s : AState) (asize : Nat) (l : List Nat) : Option Nat :=
  ((l.take MAX_SEARCH).filter (fun a => decide (asize ≤ size_at s a))).foldl
    (pick_min s) none

/-- Claim-side scan of a list of higher classes: the bounded best fit of
the first class that produces one. -/
def scan_classes_spec (s : AState) (asize : Nat) : List Nat → Option Nat
  | [] => none
  | i :: rest =>
    match best_fit_spec s asize (getClass s i) with
    | some b => some b
    | none => scan_classes_spec s asize rest

/-- `find_fit` as the claim words it: the mini-list head when `asize ≤ 16`
and the mini list is non-empty; otherwise the first fitting block of the
request's own class, scanned front to back; otherwise the bounded best fit
of the first higher class that has one; otherwise null. -/
def find_fit_spec (s : AState) (asize : Nat) : Option Nat :=
  if asize ≤ mb_block_size ∧ s.mini_list ≠ [] then s.mini_list.head?
  else
    match (getClass s (size_to_class asize)).find?
        (fun a => decide (asize ≤ size_at s a)) with
    | some a => some a
    | none =>
      scan_classes_spec s asize
        ((List.range NUM_CLASSES).drop (size_to_class asize + 1))

/-- The range half of spec invariant 7: every listed address denotes a block
whose size belongs to the class that lists it. -/
def free_lists_in_range (s : AState) : Prop :=
  ∀ c < NUM_CLASSES, ∀ a ∈ getClass s c, size_to_class (size_at s a) = c

instance (s : AState) : Decidable (free_lists_in_range s) :=
  inferInstanceAs (Decidable (∀ c < NUM_CLASSES, ∀ a ∈ getClass s c, _ = _))

/-- The pairwise relation that the mm_checkheap walk enforces on adjacent
walked blocks: `prev_alloc` agrees with the predecessor's alloc bit, and the
two blocks are not both free. -/
def checkheap_rel (a b : Block) : Prop :=
  b.prev_alloc = a.alloc ∧ ¬(a.alloc = false ∧ b.alloc = false)

instance (a b : Block) : Decidable (checkheap_rel a b) :=
  inferInstanceAs (Decidable (_ ∧ _))

/-- The block sequence mm_checkheap walks: the heap up to the first size-0
header. -/
def walk_of (s : AState) : List Block :=
  s.heap.takeWhile (fun b => decide (0 < b.size))

/-- Everything mm_checkheap actually enforces: the prologue word, per-block
alignment and minimum size, `prev_alloc` coherence and no adjacent free
blocks along the walk, and equality of the walked free count with the total
length of the free lists. -/
def checked_invariants (s : AState) : Prop :=
  s.prologue = pack 0 true true false ∧
  (∀ b ∈ walk_of s, mb_block_size ≤ b.size ∧ b.size % dsize = 0) ∧
  List.Chain' checkheap_rel (walk_of s) ∧
  (walk_of s).countP (fun b => !b.alloc) =
    (s.classes.map List.length).sum + s.mini_list.length

instance (s : AState) : Decidable (checked_invariants s) :=
  have : Decidable (List.Chain' checkheap_rel (walk_of s)) :=
    chainDec checkheap_rel (walk_of s)
  inferInstanceAs (Decidable (_ ∧ _ ∧ _ ∧ _))

/-- A state violating spec invariant 7 - its one free regular block, size
64 and hence of class 1, is filed in class list 5 - while satisfying every
property mm_checkheap tests (the counts still match). -/
def misfiled_state : AState :=
  { heap := [ { size := 64, alloc := false, prev_alloc := true,
                prev_mini := false, data := List.replicate 56 0 },
              { size := 0, alloc := true, prev_alloc := false,
                prev_mini := false, data := [] } ],
    classes := (List.replicate NUM_CLASSES []).set 5 [8],
    mini_list := [],
    prologue := pack 0 true true false,
    budget := 0 }

/-- A two-block heap used to witness C10: a free first block with both
`prev_alloc` and `prev_mini` clear, followed by the epilogue. -/
def c10_state : AState :=
  { heap := [ { size := 32, alloc := false, prev_alloc := false,
                prev_mini := false, data := List.replicate 24 0 },
              { size := 0, alloc := true, prev_alloc := false,
                prev_mini := false, data := [] } ],
    classes := List.replicate NUM_CLASSES [],
    mini_list := [],
    prologue := pack 0 true true false,
    budget := 0 }

/-- The common shape of every heap write the allocator performs: the
blocks with indices in `[k, m)` are replaced by `mid`, and the flag bits of
the first surviving block after the written region (its `find_next`) are
rewritten to `pa` / `pm`. -/
def splice (h : List Block) (k : Nat) (mid : List Block) (m : Nat)
    (pa pm : Bool) : List Block :=
  h.take k ++ mid ++ set_head_flags pa pm (h.drop m)

/-- All free-list entries of a state: the regular class lists flattened,
followed by the mini list. -/
def all_entries (s : AState) : List Nat := s.classes.flatten ++ s.mini_list

/-- A concrete state with a newly freed block: allocate 24 bytes from the
fresh heap, then clear the allocated block's alloc bit (as `free` does just
before coalescing); its successor is the free remainder block. -/
def c5_state : AState :=
  { (malloc initState 24).1 with heap := (malloc initState 24).1.heap.set 0 { blockD (malloc initState 24).1.heap 0 with alloc := false } }

/-
Theorems.  First the supporting theory of addresses and resolution, then the
behavioural lemmas for each operation, finally the claim theorems.
-/

theorem addr_of_zero (h : List Block) : addr_of h 0 = wsize := by
  simp [addr_of]

theorem addr_of_succ (h : List Block) (i : Nat) (hi : i < h.length) :
    addr_of h (i + 1) = addr_of h i + (blockD h i).size := by
  have hi' : i < (h.map Block.size).length := by simpa using hi
  unfold addr_of blockD
  rw [List.map_take, List.map_take, List.sum_take_succ _ i hi',
    List.getD_eq_getElem h default hi]
  simp [Nat.add_assoc]

theorem idx_at_aux_some_lt {h : List Block} {c a i : Nat}
    (hs : idx_at_aux h c a = some i) : i < h.length := by
  induction h generalizing c i with
  | nil => simp [idx_at_aux] at hs
  | cons b t ih =>
    unfold idx_at_aux at hs
    by_cases hc : c = a
    · simp [hc] at hs
      simp [← hs]
    · simp [hc, Option.map_eq_some'] at hs
      obtain ⟨j, hj, rfl⟩ := hs
      simpa using Nat.succ_lt_succ (ih hj)

theorem idx_at_some_lt {h : List Block} {a i : Nat}
    (hs : idx_at h a = some i) : i < h.length :=
  idx_at_aux_some_lt hs

theorem idx_at_aux_some_addr {h : List Block} {c a i : Nat}
    (hs : idx_at_aux h c a = some i) :
    c + ((h.take i).map Block.size).sum = a := by
  induction h generalizing c i with
  | nil => simp [idx_at_aux] at hs
  | cons b t ih =>
    unfold idx_at_aux at hs
    by_cases hc : c = a
    · simp [hc] at hs
      simp [← hs, hc]
    · simp [hc, Option.map_eq_some'] at hs
      obtain ⟨j, hj, rfl⟩ := hs
      have := ih hj
      simp only [List.take_succ_cons, List.map_cons, List.sum_cons]
      omega

theorem idx_at_some_addr {h : List Block} {a i : Nat}
    (hs : idx_at h a = some i) : addr_of h i = a :=
  idx_at_aux_some_addr hs

theorem idx_at_aux_isSome (h : List Block) (c j : Nat) (hj : j < h.length) :
    (idx_at_aux h c (c + ((h.take j).map Block.size).sum)).isSome = true := by
  induction h generalizing c j with
  | nil => simp at hj
  | cons b t ih =>
    unfold idx_at_aux
    by_cases hc : c = c + (((b :: t).take j).map Block.size).sum
    · rw [if_pos hc]; rfl
    · have hj0 : j ≠ 0 := by
        rintro rfl; simp at hc
      obtain ⟨k, rfl⟩ := Nat.exists_eq_succ_of_ne_zero hj0
      have hk : k < t.length := by simpa using hj
      have hrec := ih (c + b.size) k hk
      have harw : c + (((b :: t).take (k + 1)).map Block.size).sum =
          (c + b.size) + ((t.take k).map Block.size).sum := by
        simp only [List.take_succ_cons, List.map_cons, List.sum_cons]
        omega
      rw [if_neg hc, harw]
      cases ho : idx_at_aux t (c + b.size)
          (c + b.size + ((t.take k).map Block.size).sum) with
      | none => rw [ho] at hrec; simp at hrec
      | some v => simp [ho]

/-- Every block address resolves to some (first) index. -/
theorem idx_at_addr_isSome (h : List Block) (j : Nat) (hj : j < h.length) :
    (idx_at h (addr_of h j)).isSome = true :=
  idx_at_aux_isSome h wsize j hj

/-- `malloc` never computes a zero adjusted size. -/
theorem malloc_asize_pos (n : Nat) : mb_block_size ≤ malloc_asize n := by
  unfold malloc_asize
  by_cases hn : n ≤ mb_dsize
  · simp [hn]
  · simp [hn, min_block_size, mb_block_size]

/-- C2: the claim says `allocate(SIZE_MAX)` returns null and leaves the
allocator unchanged.  The code disagrees: `size + wsize` wraps modulo
`2^64`, the adjusted size becomes 32, and on the freshly initialised heap
malloc returns the non-null payload address 16 after splitting the 4096-byte
free block - the heap gains a block and the allocation succeeds. -/
theorem C2_sizemax_allocates :
    malloc_asize (2 ^ 64 - 1) = 32 ∧
    (malloc initState (2 ^ 64 - 1)).2 = some 16 ∧
    (malloc initState (2 ^ 64 - 1)).1.heap.length = 3 ∧
    initState.heap.length = 2 :=
  ⟨by rfl, by rfl, by decide, by decide⟩

/-- C1 counterexample: for n = `SIZE_MAX` (which satisfies n ≥ 1), malloc on
the initialised heap returns the non-null, 16-aligned payload pointer 16,
but the allocated block holding it has size 32, whose payload of 32 - 8
bytes is far less than n - so the claim's unrestricted payload bound fails. -/
theorem C1_counterexample :
    1 ≤ 2 ^ 64 - 1 ∧
    (malloc initState (2 ^ 64 - 1)).2 = some 16 ∧
    idx_at (malloc initState (2 ^ 64 - 1)).1.heap (16 - wsize) = some 0 ∧
    (blockD (malloc initState (2 ^ 64 - 1)).1.heap 0).alloc = true ∧
    (blockD (malloc initState (2 ^ 64 - 1)).1.heap 0).size = 32 ∧
    32 - wsize < 2 ^ 64 - 1 :=
  ⟨by decide, by rfl, by rfl, by rfl, by rfl, by decide⟩

/-- C8 counterexample: `misfiled_state` violates spec invariant 7 - its
free 64-byte block is filed in class list 5 whose range (513-1024) does not
contain its size - yet mm_checkheap accepts the state, because the free-list
walk only counts nodes and never checks per-node class membership. -/
theorem C8_counterexample :
    mm_checkheap misfiled_state = true ∧ ¬ free_lists_in_range misfiled_state :=
  ⟨by rfl, by decide⟩

/-- C9 counterexample: `extend_heap` itself takes no maximum with the chunk
size - called with 16 on the initialised heap it requests exactly 16 bytes
from the grow primitive (the budget drops by 16) and the heap grows by only
16 bytes, not 4096; the `max(asize, chunksize)` step lives in malloc. -/
theorem C9_counterexample :
    (extend_heap initState 16).2.isSome = true ∧
    heap_size_bytes (extend_heap initState 16).1 = heap_size_bytes initState + 16 ∧
    initState.budget - (extend_heap initState 16).1.budget = 16 ∧
    16 < chunksize :=
  ⟨by rfl, by rfl, by rfl, by decide⟩

theorem blockD_mem {h : List Block} {i : Nat} (hi : i < h.length) :
    blockD h i ∈ h := by
  unfold blockD
  rw [List.getD_eq_getElem h default hi]
  exact List.getElem_mem hi

theorem size_at_lt_sentinel {s : AState}
    (hs : ∀ b ∈ s.heap, b.size < SIZE_MAX64) (a : Nat) :
    size_at s a < SIZE_MAX64 := by
  unfold size_at
  cases hidx : idx_at s.heap a with
  | none => simp [SIZE_MAX64, U64]
  | some i => exact hs _ (blockD_mem (idx_at_some_lt hidx))

/-- The bounded best-fit loop computes the left fold of `pick_min` over the
fitting blocks among the at most `MAX_SEARCH - cnt` still-examinable
entries, provided `best_size` is the sentinel discipline of the source. -/
theorem best_loop_eq_fold (s : AState) (asize : Nat)
    (hs : ∀ b ∈ s.heap, b.size < SIZE_MAX64) :
    ∀ (l : List Nat) (cnt : Nat) (best : Option Nat) (bestSize : Nat),
      bestSize = (match best with | none => SIZE_MAX64 | some b => size_at s b) →
      best_loop s asize l cnt best bestSize =
        ((l.take (MAX_SEARCH - cnt)).filter
          (fun a => decide (asize ≤ size_at s a))).foldl (pick_min s) best := by
  intro l
  induction l with
  | nil =>
    intro cnt best bestSize hrel
    simp [best_loop]
  | cons a t ih =>
    intro cnt best bestSize hrel
    by_cases hcnt : cnt < MAX_SEARCH
    · have htake : MAX_SEARCH - cnt = (MAX_SEARCH - (cnt + 1)) + 1 := by omega
      rw [htake]
      simp only [List.take_succ_cons]
      by_cases hfit : asize ≤ size_at s a
      · have hfilter : List.filter (fun x => decide (asize ≤ size_at s x))
            (a :: List.take (MAX_SEARCH - (cnt + 1)) t) =
            a :: List.filter (fun x => decide (asize ≤ size_at s x))
              (List.take (MAX_SEARCH - (cnt + 1)) t) := by
          simp [List.filter_cons, hfit]
        by_cases hlt : size_at s a < bestSize
        · simp only [best_loop, if_pos hcnt, if_pos hfit, if_pos hlt]
          rw [ih (cnt + 1) (some a) (size_at s a) rfl, hfilter, List.foldl_cons]
          congr 1
          cases best with
          | none => simp [pick_min]
          | some b =>
            simp only [hrel] at hlt
            simp [pick_min, hlt]
        · simp only [best_loop, if_pos hcnt, if_pos hfit, if_neg hlt]
          rw [ih (cnt + 1) best bestSize hrel, hfilter, List.foldl_cons]
          congr 1
          cases best with
          | none =>
            exfalso
            have hB : bestSize = SIZE_MAX64 := hrel
            exact hlt (hB ▸ size_at_lt_sentinel hs a)
          | some b =>
            simp only [hrel] at hlt
            simp [pick_min, hlt]
      · have hfilter : List.filter (fun x => decide (asize ≤ size_at s x))
            (a :: List.take (MAX_SEARCH - (cnt + 1)) t) =
            List.filter (fun x => decide (asize ≤ size_at s x))
              (List.take (MAX_SEARCH - (cnt + 1)) t) := by
          simp [List.filter_cons, hfit]
        simp only [best_loop, if_pos hcnt, if_neg hfit]
        rw [ih (cnt + 1) best bestSize hrel, hfilter]
    · have htake : MAX_SEARCH - cnt = 0 := by omega
      simp [best_loop, if_neg hcnt, htake]

theorem scan_classes_eq_spec (s : AState) (asize : Nat)
    (hs : ∀ b ∈ s.heap, b.size < SIZE_MAX64) :
    ∀ li : List Nat, scan_classes s asize li = scan_classes_spec s asize li := by
  intro li
  induction li with
  | nil => rfl
  | cons i rest ih =>
    unfold scan_classes scan_classes_spec
    rw [best_loop_eq_fold s asize hs (getClass s i) 0 none SIZE_MAX64 rfl]
    have : MAX_SEARCH - 0 = MAX_SEARCH := rfl
    rw [this]
    unfold best_fit_spec
    cases hb : ((getClass s i).take MAX_SEARCH).filter
        (fun a => decide (asize ≤ size_at s a)) |>.foldl (pick_min s) none with
    | none => simpa [hb] using ih
    | some b => simp [hb]

/-- C4: `find_fit` follows exactly the policy the claim describes - the
mini-list head for small requests, first fit inside the request's class,
then a bounded best fit (at most 10 examined blocks, smallest fitting one,
first class that has any), and null otherwise.  The hypothesis that block
sizes stay below `SIZE_MAX` reflects the 64-bit header encoding, whose
size field is masked to a multiple of 16. -/
theorem C4_find_fit_follows_policy (s : AState)
    (hs : ∀ b ∈ s.heap, b.size < SIZE_MAX64) (asize : Nat) :
    find_fit s asize = find_fit_spec s asize := by
  unfold find_fit find_fit_spec
  by_cases hsmall : asize ≤ mb_block_size
  · cases hm : s.mini_list with
    | nil =>
      simp only [hsmall, if_pos hsmall, hm]
      simp [scan_classes_eq_spec s asize hs]
    | cons a rest =>
      simp [hsmall, hm]
  · simp only [if_neg hsmall]
    have hcond : ¬(asize ≤ mb_block_size ∧ s.mini_list ≠ []) := by
      intro hx; exact hsmall hx.1
    simp only [if_neg hcond]
    simp [scan_classes_eq_spec s asize hs]

theorem find_prev_idx_eq (h : List Block) (i : Nat) :
    find_prev_idx h i = if i = 0 then none else some (i - 1) := by
  unfold find_prev_idx
  split <;> rfl

theorem blockD_eq_get? (h : List Block) (i : Nat) :
    blockD h i = (h.get? i).getD default := rfl

/-- Case AA of `coalesce_block`: both neighbours allocated (the predecessor
is allocated or absent, the successor allocated or the list end). -/
theorem coalesce_block_AA (s : AState) (i : Nat)
    (hprev : (blockD s.heap i).prev_alloc = true ∨ i = 0)
    (hnext : s.heap.length ≤ i + 1 ∨ (blockD s.heap (i + 1)).alloc = true) :
    coalesce_block s i =
      ({ s with heap := s.heap.take (i + 1) ++
          set_head_flags false (get_mini (blockD s.heap i)) (s.heap.drop (i + 1)) }, i) := by
  have hpa : ((blockD s.heap i).prev_alloc ||
      (if (blockD s.heap i).prev_alloc then (none : Option Nat)
       else find_prev_idx s.heap i).isNone) = true := by
    rcases hprev with h1 | h1
    · simp [h1]
    · subst h1
      simp [find_prev_idx_eq]
  have hna : ((s.heap.get? (i + 1)).isNone ||
      ((s.heap.get? (i + 1)).getD default).alloc) = true := by
    rcases hnext with h1 | h1
    · have hg : s.heap.get? (i + 1) = none := List.get?_eq_none.mpr h1
      rw [hg]; rfl
    · rw [← blockD_eq_get?, h1]
      simp
  simp only [coalesce_block, hpa, hna]
  simp


/-- Case AF of `coalesce_block`: predecessor allocated (or absent), next
block free - absorb the next block. -/
theorem coalesce_block_AF (s : AState) (i : Nat)
    (hprev : (blockD s.heap i).prev_alloc = true ∨ i = 0)
    (hn1 : i + 1 < s.heap.length)
    (hn2 : (blockD s.heap (i + 1)).alloc = false) :
    coalesce_block s i =
      ((let X := blockD s.heap (i + 1)
        let s1 := if get_mini X then rem_from_mini_list s (addr_of s.heap (i + 1))
                  else rem_from_free_list s (addr_of s.heap (i + 1))
        { s1 with heap := s.heap.take i ++
            { blockD s.heap i with
                size := (blockD s.heap i).size + X.size,
                alloc := false,
                data := (blockD s.heap i).data ++ header_bytes X ++ X.data } ::
            set_head_flags false false (s.heap.drop (i + 2)) }), i) := by
  have hpa : ((blockD s.heap i).prev_alloc ||
      (if (blockD s.heap i).prev_alloc then (none : Option Nat)
       else find_prev_idx s.heap i).isNone) = true := by
    rcases hprev with h1 | h1
    · simp [h1]
    · subst h1
      simp [find_prev_idx_eq]
  have hg : s.heap.get? (i + 1) = some (blockD s.heap (i + 1)) := by
    rw [blockD_eq_get?]
    cases hx : s.heap.get? (i + 1) with
    | none => exact absurd (List.get?_eq_none.mp hx) (by omega)
    | some nb => rfl
  have hna : ((s.heap.get? (i + 1)).isNone ||
      ((s.heap.get? (i + 1)).getD default).alloc) = false := by
    rw [hg]
    simpa using hn2
  simp only [coalesce_block, hpa, hna]
  simp [hg]

/-- Case FA of `coalesce_block`: predecessor free, next block allocated (or
the list end) - absorb the block into its predecessor. -/
theorem coalesce_block_FA (s : AState) (i : Nat)
    (hp1 : (blockD s.heap i).prev_alloc = false)
    (hp2 : i ≠ 0)
    (hnext : s.heap.length ≤ i + 1 ∨ (blockD s.heap (i + 1)).alloc = true) :
    coalesce_block s i =
      ((let P := blockD s.heap (i - 1)
        let s1 := if get_mini P then rem_from_mini_list s (addr_of s.heap (i - 1))
                  else rem_from_free_list s (addr_of s.heap (i - 1))
        { s1 with heap := s.heap.take (i - 1) ++
            { P with
                size := (blockD s.heap i).size + P.size,
                alloc := false,
                data := P.data ++ header_bytes (blockD s.heap i) ++ (blockD s.heap i).data } ::
            set_head_flags false false (s.heap.drop (i + 1)) }), i - 1) := by
  have hpa : ((blockD s.heap i).prev_alloc ||
      (if (blockD s.heap i).prev_alloc then (none : Option Nat)
       else find_prev_idx s.heap i).isNone) = false := by
    simp [hp1, find_prev_idx_eq, hp2]
  have hna : ((s.heap.get? (i + 1)).isNone ||
      ((s.heap.get? (i + 1)).getD default).alloc) = true := by
    rcases hnext with h1 | h1
    · have hg : s.heap.get? (i + 1) = none := List.get?_eq_none.mpr h1
      rw [hg]; rfl
    · rw [← blockD_eq_get?, h1]
      simp
  simp only [coalesce_block, hpa, hna]
  simp [hp1, find_prev_idx_eq, hp2]

/-- Case FF of `coalesce_block`: both neighbours free - absorb the block
and its successor into the predecessor. -/
theorem coalesce_block_FF (s : AState) (i : Nat)
    (hp1 : (blockD s.heap i).prev_alloc = false)
    (hp2 : i ≠ 0)
    (hn1 : i + 1 < s.heap.length)
    (hn2 : (blockD s.heap (i + 1)).alloc = false) :
    coalesce_block s i =
      ((let P := blockD s.heap (i - 1)
        let X := blockD s.heap (i + 1)
        let s1 := if get_mini P then rem_from_mini_list s (addr_of s.heap (i - 1))
                  else rem_from_free_list s (addr_of s.heap (i - 1))
        let s2 := if get_mini X then rem_from_mini_list s1 (addr_of s.heap (i + 1))
                  else rem_from_free_list s1 (addr_of s.heap (i + 1))
        { s2 with heap := s.heap.take (i - 1) ++
            { P with
                size := (blockD s.heap i).size + P.size + X.size,
                alloc := false,
                data := P.data ++ header_bytes (blockD s.heap i) ++ (blockD s.heap i).data ++
                  header_bytes X ++ X.data } ::
            set_head_flags false false (s.heap.drop (i + 2)) }), i - 1) := by
  have hpa : ((blockD s.heap i).prev_alloc ||
      (if (blockD s.heap i).prev_alloc then (none : Option Nat)
       else find_prev_idx s.heap i).isNone) = false := by
    simp [hp1, find_prev_idx_eq, hp2]
  have hg : s.heap.get? (i + 1) = some (blockD s.heap (i + 1)) := by
    rw [blockD_eq_get?]
    cases hx : s.heap.get? (i + 1) with
    | none => exact absurd (List.get?_eq_none.mp hx) (by omega)
    | some nb => rfl
  have hna : ((s.heap.get? (i + 1)).isNone ||
      ((s.heap.get? (i + 1)).getD default).alloc) = false := by
    rw [hg]
    simpa using hn2
  simp only [coalesce_block, hpa, hna]
  simp [hp1, find_prev_idx_eq, hp2, hg]

/-- Witness for C4 at a concrete state and request. -/
theorem C4_witness :
    (∀ b ∈ initState.heap, b.size < SIZE_MAX64) ∧
    find_fit initState 32 = find_fit_spec initState 32 :=
  ⟨by decide, C4_find_fit_follows_policy initState (by decide) 32⟩

@[simp] theorem set_head_flags_length (pa pm : Bool) (l : List Block) :
    (set_head_flags pa pm l).length = l.length := by
  cases l <;> rfl

@[simp] theorem upd_heap_heap (x : AState) (H : List Block) :
    ({ x with heap := H } : AState).heap = H := rfl

@[simp] theorem add_to_free_list_heap (s : AState) (a : Nat) :
    (add_to_free_list s a).heap = s.heap := rfl
@[simp] theorem add_to_free_list_mini (s : AState) (a : Nat) :
    (add_to_free_list s a).mini_list = s.mini_list := rfl
@[simp] theorem add_to_free_list_budget (s : AState) (a : Nat) :
    (add_to_free_list s a).budget = s.budget := rfl
@[simp] theorem add_to_free_list_prologue (s : AState) (a : Nat) :
    (add_to_free_list s a).prologue = s.prologue := rfl
@[simp] theorem rem_from_free_list_heap (s : AState) (a : Nat) :
    (rem_from_free_list s a).heap = s.heap := rfl
@[simp] theorem rem_from_free_list_mini (s : AState) (a : Nat) :
    (rem_from_free_list s a).mini_list = s.mini_list := rfl
@[simp] theorem rem_from_free_list_budget (s : AState) (a : Nat) :
    (rem_from_free_list s a).budget = s.budget := rfl
@[simp] theorem rem_from_free_list_prologue (s : AState) (a : Nat) :
    (rem_from_free_list s a).prologue = s.prologue := rfl
@[simp] theorem add_to_mini_list_heap (s : AState) (a : Nat) :
    (add_to_mini_list s a).heap = s.heap := rfl
@[simp] theorem add_to_mini_list_classes (s : AState) (a : Nat) :
    (add_to_mini_list s a).classes = s.classes := rfl
@[simp] theorem add_to_mini_list_budget (s : AState) (a : Nat) :
    (add_to_mini_list s a).budget = s.budget := rfl
@[simp] theorem add_to_mini_list_prologue (s : AState) (a : Nat) :
    (add_to_mini_list s a).prologue = s.prologue := rfl
@[simp] theorem rem_from_mini_list_heap (s : AState) (a : Nat) :
    (rem_from_mini_list s a).heap = s.heap := rfl
@[simp] theorem rem_from_mini_list_classes (s : AState) (a : Nat) :
    (rem_from_mini_list s a).classes = s.classes := rfl
@[simp] theorem rem_from_mini_list_budget (s : AState) (a : Nat) :
    (rem_from_mini_list s a).budget = s.budget := rfl
@[simp] theorem rem_from_mini_list_prologue (s : AState) (a : Nat) :
    (rem_from_mini_list s a).prologue = s.prologue := rfl

/-- The coalesced heap always contains the returned index. -/
theorem coalesce_block_idx_lt (s : AState) (i : Nat) (hi : i < s.heap.length) :
    (coalesce_block s i).2 < (coalesce_block s i).1.heap.length := by
  by_cases hp : (blockD s.heap i).prev_alloc = true ∨ i = 0
  · by_cases hn : s.heap.length ≤ i + 1 ∨ (blockD s.heap (i + 1)).alloc = true
    · rw [coalesce_block_AA s i hp hn]
      simp [List.length_take, List.length_drop]
      omega
    · push_neg at hn
      rw [coalesce_block_AF s i hp (by omega) (by simpa using hn.2)]
      simp [List.length_take]
      omega
  · push_neg at hp
    obtain ⟨hp1, hp2⟩ := hp
    have hp1' : (blockD s.heap i).prev_alloc = false := by
      simpa using hp1
    by_cases hn : s.heap.length ≤ i + 1 ∨ (blockD s.heap (i + 1)).alloc = true
    · rw [coalesce_block_FA s i hp1' hp2 hn]
      simp [List.length_take]
      omega
    · push_neg at hn
      rw [coalesce_block_FF s i hp1' hp2 (by omega) (by simpa using hn.2)]
      simp [List.length_take]
      omega

/-- Coalescing never touches the budget or the prologue word. -/
theorem coalesce_block_budget (s : AState) (i : Nat) :
    (coalesce_block s i).1.budget = s.budget ∧
    (coalesce_block s i).1.prologue = s.prologue := by
  by_cases hp : (blockD s.heap i).prev_alloc = true ∨ i = 0
  · by_cases hn : s.heap.length ≤ i + 1 ∨ (blockD s.heap (i + 1)).alloc = true
    · rw [coalesce_block_AA s i hp hn]
      exact ⟨rfl, rfl⟩
    · push_neg at hn
      rw [coalesce_block_AF s i hp (by omega) (by simpa using hn.2)]
      constructor <;> simp <;> split <;> simp
  · push_neg at hp
    obtain ⟨hp1, hp2⟩ := hp
    have hp1' : (blockD s.heap i).prev_alloc = false := by simpa using hp1
    by_cases hn : s.heap.length ≤ i + 1 ∨ (blockD s.heap (i + 1)).alloc = true
    · rw [coalesce_block_FA s i hp1' hp2 hn]
      constructor <;> simp <;> split <;> simp
    · push_neg at hn
      rw [coalesce_block_FF s i hp1' hp2 (by omega) (by simpa using hn.2)]
      constructor <;> simp <;> split <;> split <;> simp

theorem extend_heap_none_frame {s t : AState} {size : Nat}
    (he : extend_heap s size = (t, none)) : t = s := by
  unfold extend_heap at he
  dsimp only [] at he
  split at he
  · exact (Prod.mk.injEq _ _ _ _ ▸ he).1.symm
  · simp at he

theorem extend_heap_some_resolves {s t : AState} {size : Nat} {a : Nat}
    (he : extend_heap s size = (t, some a)) :
    (idx_at t.heap a).isSome = true := by
  unfold extend_heap at he
  dsimp only [] at he
  split at he
  · simp at he
  · obtain ⟨ht, ha⟩ := (Prod.mk.injEq _ _ _ _).mp he
    have ha' := Option.some.inj ha
    set s1 : AState := { s with
      heap := s.heap.dropLast ++
        [{ size := round_up size dsize, alloc := false,
           prev_alloc := (blockD s.heap (s.heap.length - 1)).prev_alloc,
           prev_mini := (blockD s.heap (s.heap.length - 1)).prev_mini,
           data := List.replicate (round_up size dsize - wsize) 0 }, epilogue_block],
      budget := s.budget - round_up size dsize } with hs1
    have hL1 : s.heap.length - 1 < s1.heap.length := by
      simp only [hs1, upd_heap_heap, List.length_append, List.length_dropLast,
        List.length_cons, List.length_nil]
      omega
    have hj := coalesce_block_idx_lt s1 (s.heap.length - 1) hL1
    rw [← ht, ← ha']
    simpa using idx_at_addr_isSome
      (coalesce_block s1 (s.heap.length - 1)).1.heap _ hj

theorem malloc_none_frame {s t : AState} {n : Nat}
    (hm : malloc s n = (t, none)) : t = s := by
  unfold malloc at hm
  split at hm
  · exact ((Prod.mk.injEq _ _ _ _).mp hm).1.symm
  · dsimp only [] at hm
    split at hm
    · split at hm
      · split at hm
        · simp at hm
        · exact ((Prod.mk.injEq _ _ _ _).mp hm).1.symm
      · split at hm
        · simp at hm
        · exact ((Prod.mk.injEq _ _ _ _).mp hm).1.symm
    · split at hm
      · rename_i hre
        have hx : extend_heap s ((malloc_asize n).max chunksize) =
            ((extend_heap s ((malloc_asize n).max chunksize)).1, none) := by
          rw [← hre]
        have hs := extend_heap_none_frame hx
        have ht := ((Prod.mk.injEq _ _ _ _).mp hm).1
        rw [← ht]
        exact hs
      · rename_i a hra
        split at hm
        · simp at hm
        · rename_i hidx
          exfalso
          have hx : extend_heap s ((malloc_asize n).max chunksize) =
              ((extend_heap s ((malloc_asize n).max chunksize)).1, some a) := by
            rw [← hra]
          have := extend_heap_some_resolves hx
          rw [hidx] at this
          simp at this

@[simp] theorem blockD_cons_zero (b : Block) (t : List Block) :
    blockD (b :: t) 0 = b := rfl

@[simp] theorem blockD_cons_succ (b : Block) (t : List Block) (i : Nat) :
    blockD (b :: t) (i + 1) = blockD t i := rfl

theorem idx_at_aux_set_same_size (h : List Block) (i : Nat) (b' : Block)
    (hsz : b'.size = (blockD h i).size) :
    ∀ c a, idx_at_aux (h.set i b') c a = idx_at_aux h c a := by
  induction h generalizing i with
  | nil => intro c a; simp
  | cons b t ih =>
    intro c a
    cases i with
    | zero =>
      simp only [List.set_cons_zero]
      unfold idx_at_aux
      rw [hsz]
      rfl
    | succ k =>
      simp only [List.set_cons_succ]
      unfold idx_at_aux
      rw [ih k (by simpa using hsz)]

theorem idx_at_set_same_size (h : List Block) (i : Nat) (b' : Block)
    (hsz : b'.size = (blockD h i).size) (a : Nat) :
    idx_at (h.set i b') a = idx_at h a :=
  idx_at_aux_set_same_size h i b' hsz wsize a

theorem blockD_set_self (h : List Block) (i : Nat) (b' : Block)
    (hi : i < h.length) : blockD (h.set i b') i = b' := by
  unfold blockD
  rw [List.getD_eq_getElem _ _ (by simpa using hi)]
  simp

theorem malloc_zero (s : AState) : malloc s 0 = (s, none) := by
  simp [malloc]

theorem replicate_pad_getD (L n j : Nat) (rest : List Nat)
    (hrest : rest.length = L - n) (hj : j < n) :
    (List.replicate (Nat.min n L) 0 ++ rest).getD j 0 = 0 := by
  by_cases hjm : j < Nat.min n L
  · rw [List.getD_append _ _ _ _ (by simpa using hjm),
      List.getD_eq_getElem _ _ (by simpa using hjm)]
    simp
  · have hLn : L ≤ n := by
      have hjm' : ¬ j < min n L := hjm
      omega
    have hmin : Nat.min n L = L := by
      have hjm' : ¬ j < min n L := hjm
      have : min n L = L := by omega
      exact this
    rw [hmin] at hjm
    apply List.getD_eq_default
    simp [hmin, hrest]
    omega

theorem mem_memset_zero_getD (s1 : AState) (bp n j : Nat) (hj : j < n) :
    (data_at (mem_memset s1 bp 0 n) bp).getD j 0 = 0 := by
  unfold mem_memset
  cases hidx : idx_at s1.heap (bp - wsize) with
  | none => simp [data_at, hidx]
  | some i =>
    simp only
    unfold data_at
    dsimp only [upd_heap_heap]
    rw [idx_at_set_same_size s1.heap i
      { blockD s1.heap i with
          data := List.replicate (Nat.min n (blockD s1.heap i).data.length) 0 ++
            (blockD s1.heap i).data.drop n } rfl (bp - wsize), hidx]
    dsimp only
    rw [blockD_set_self _ i _ (idx_at_some_lt hidx)]
    exact replicate_pad_getD (blockD s1.heap i).data.length n j _
      (List.length_drop _ _) hj

/-- C7: `calloc` returns null with the state unchanged whenever either
argument is zero or the byte count `count * size` overflows `size_t`; in
general whenever it returns null the state is unchanged (in particular when
the underlying malloc fails); and whenever it returns a payload pointer,
every one of the first `count * size` payload bytes of that block is zero. -/
theorem C7_calloc_guards (s : AState) (elements size : Nat) :
    ((elements = 0 ∨ size = 0) → calloc s elements size = (s, none)) ∧
    (U64 ≤ elements * size → calloc s elements size = (s, none)) ∧
    ((calloc s elements size).2 = none → (calloc s elements size).1 = s) ∧
    (∀ bp, (calloc s elements size).2 = some bp →
      ∀ j < elements * size, (data_at (calloc s elements size).1 bp).getD j 0 = 0) := by
  refine ⟨?_, ?_, ?_, ?_⟩
  · rintro (rfl | rfl)
    · simp [calloc]
    · by_cases hel : elements = 0
      · simp [calloc, hel]
      · simp [calloc, hel, malloc_zero]
  · intro hov
    have hel : elements ≠ 0 := by
      rintro rfl
      simp [U64] at hov
    have hchk : (elements * size) % U64 / elements ≠ size := by
      intro heq
      have h1 : (elements * size) % U64 < U64 :=
        Nat.mod_lt _ (by norm_num [U64])
      have h2 : size * elements ≤ (elements * size) % U64 :=
        (Nat.le_div_iff_mul_le (Nat.pos_of_ne_zero hel)).mp (le_of_eq heq.symm)
      rw [Nat.mul_comm] at h2
      omega
    simp [calloc, hel, hchk]
  · intro hnone
    by_cases hel : elements = 0
    · simp [calloc, hel]
    · by_cases hchk : (elements * size) % U64 / elements = size
      · cases hmal : malloc s ((elements * size) % U64) with
        | mk s1 r =>
          cases r with
          | none =>
            simp [calloc, hel, hchk, hmal]
            exact malloc_none_frame hmal
          | some bp =>
            rw [show (calloc s elements size).2 = some bp by
              simp [calloc, hel, hchk, hmal]] at hnone
            simp at hnone
      · simp [calloc, hel, hchk]
  · intro bp hbp j hj
    by_cases hel : elements = 0
    · simp [calloc, hel] at hbp
    · by_cases hchk : (elements * size) % U64 / elements = size
      · have hasz : (elements * size) % U64 = elements * size := by
          have h2 : size * elements ≤ (elements * size) % U64 :=
            (Nat.le_div_iff_mul_le (Nat.pos_of_ne_zero hel)).mp (le_of_eq hchk.symm)
          have h3 : (elements * size) % U64 ≤ elements * size := Nat.mod_le _ _
          rw [Nat.mul_comm] at h2
          omega
        cases hmal : malloc s ((elements * size) % U64) with
        | mk s1 r =>
          cases r with
          | none => simp [calloc, hel, hchk, hmal] at hbp
          | some bp' =>
            have hbp' : bp' = bp := by
              have := hbp
              rw [show (calloc s elements size).2 = some bp' by
                simp [calloc, hel, hchk, hmal]] at this
              exact Option.some.inj this
            subst hbp'
            have hres : (calloc s elements size).1 =
                mem_memset s1 bp' 0 ((elements * size) % U64) := by
              simp [calloc, hel, hchk, hmal]
            rw [hres]
            exact mem_memset_zero_getD s1 bp' _ j (by omega)
      · simp [calloc, hel, hchk] at hbp

/-- Witness for C7: both zero-argument calls and an overflowing call return
null on the concrete initial state with the state unchanged. -/
theorem C7_witness :
    calloc initState 0 5 = (initState, none) ∧
    calloc initState 7 0 = (initState, none) ∧
    calloc initState (2 ^ 63) 4 = (initState, none) :=
  ⟨(C7_calloc_guards initState 0 5).1 (Or.inl rfl),
   (C7_calloc_guards initState 7 0).1 (Or.inr rfl),
   (C7_calloc_guards initState (2 ^ 63) 4).2.1 (by norm_num [U64])⟩

/-- C10: coalescing the first real block when its `prev_alloc` and
`prev_mini` bits are both clear: the footer word before it is the prologue
(size 0), so `find_prev` yields null, the coalescer treats the predecessor
as allocated, and no backward merge happens - the result is the block
itself (still the first block), growing only by a forward merge with a free
successor, and nothing before the first block is touched (in particular the
prologue word is unchanged). -/
theorem C10_no_backward_merge (s : AState)
    (hne : 0 < s.heap.length)
    (hpa : (blockD s.heap 0).prev_alloc = false)
    (hpm : (blockD s.heap 0).prev_mini = false) :
    find_prev_idx s.heap 0 = none ∧
    (coalesce_block s 0).2 = 0 ∧
    (coalesce_block s 0).1.prologue = s.prologue ∧
    ((blockD (coalesce_block s 0).1.heap 0).size = (blockD s.heap 0).size ∨
     (blockD (coalesce_block s 0).1.heap 0).size =
       (blockD s.heap 0).size + (blockD s.heap 1).size) := by
  have hfp : find_prev_idx s.heap 0 = none := by
    rw [find_prev_idx_eq]
    rfl
  refine ⟨hfp, ?_⟩
  by_cases hn : s.heap.length ≤ 0 + 1 ∨ (blockD s.heap (0 + 1)).alloc = true
  · rw [coalesce_block_AA s 0 (Or.inr rfl) hn]
    refine ⟨rfl, rfl, Or.inl ?_⟩
    cases hh : s.heap with
    | nil => rw [hh] at hne; simp at hne
    | cons b t =>
      simp [List.take_succ_cons]
  · push_neg at hn
    rw [coalesce_block_AF s 0 (Or.inr rfl) (by omega) (by simpa using hn.2)]
    refine ⟨rfl, ?_, ?_⟩
    · dsimp only
      split <;> rfl
    · right
      dsimp only
      simp

/-- Witness for C10 on a concrete two-block heap whose first block has both
bits clear. -/
theorem C10_witness :
    (0 : Nat) < c10_state.heap.length ∧
    (blockD c10_state.heap 0).prev_alloc = false ∧
    (blockD c10_state.heap 0).prev_mini = false ∧
    (find_prev_idx c10_state.heap 0 = none ∧
     (coalesce_block c10_state 0).2 = 0 ∧
     (coalesce_block c10_state 0).1.prologue = c10_state.prologue ∧
     ((blockD (coalesce_block c10_state 0).1.heap 0).size =
        (blockD c10_state.heap 0).size ∨
      (blockD (coalesce_block c10_state 0).1.heap 0).size =
        (blockD c10_state.heap 0).size + (blockD c10_state.heap 1).size)) :=
  ⟨by decide, by decide, by decide,
   C10_no_backward_merge c10_state (by decide) (by decide) (by decide)⟩

theorem check_walk_sound (hi : Nat) :
    ∀ (l : List Block) (pb : Option Block) (addr acc tf : Nat),
      check_walk hi l pb addr acc = some tf →
      ((∀ b ∈ l, mb_block_size ≤ b.size ∧ b.size % dsize = 0) ∧
       List.Chain' checkheap_rel l ∧
       (∀ b0, pb = some b0 → ∀ nb ∈ l.head?, nb.prev_alloc = b0.alloc) ∧
       tf = acc + l.countP (fun b => !b.alloc)) := by
  intro l
  induction l with
  | nil =>
    intro pb addr acc tf h
    unfold check_walk at h
    refine ⟨by simp, List.chain'_nil, by simp, ?_⟩
    simp at h
    simp [h]
  | cons b t ih =>
    intro pb addr acc tf h
    unfold check_walk at h
    split at h
    · simp at h
    · split at h
      · simp at h
      · split at h
        · simp at h
        · split at h
          · simp at h
          · split at h
            · simp at h
            · rename_i hsz1 hsz2 hbound hprev hadj
              obtain ⟨ih1, ih2, ih3, ih4⟩ :=
                ih (some b) (addr + b.size) (if !b.alloc then acc + 1 else acc) tf h
              have hszb : mb_block_size ≤ b.size ∧ b.size % dsize = 0 := by
                constructor
                · omega
                · simpa [dsize] using hsz1
              refine ⟨?_, ?_, ?_, ?_⟩
              · intro x hx
                rcases List.mem_cons.mp hx with rfl | hx'
                · exact hszb
                · exact ih1 x hx'
              · rw [List.chain'_cons']
                refine ⟨?_, ih2⟩
                intro y hy
                refine ⟨ih3 b rfl y hy, ?_⟩
                rintro ⟨hba, hya⟩
                have hysz : mb_block_size ≤ y.size := by
                  have : y ∈ t := by
                    cases ht : t with
                    | nil => rw [ht] at hy; simp at hy
                    | cons z zs =>
                      rw [ht] at hy
                      simp at hy
                      simp [ht, hy]
                  exact (ih1 y this).1
                apply hadj
                simp only [hba, Bool.not_false, Bool.true_and]
                cases hth : t.head? with
                | none => rw [hth] at hy; simp at hy
                | some nb =>
                  rw [hth] at hy
                  simp at hy
                  subst hy
                  simp [hya]
                  have h16 : (16 : Nat) ≤ nb.size := hysz
                  omega
              · intro b0 hb0 nb hnb
                simp at hnb
                subst hnb
                cases hpb : pb with
                | none => rw [hpb] at hb0; simp at hb0
                | some pb0 =>
                  rw [hpb] at hb0 hprev
                  have hb0' : pb0 = b0 := by simpa using hb0
                  subst hb0'
                  by_cases hba : pb0.alloc
                  · by_cases hprevb : b.prev_alloc
                    · simp [hba, hprevb]
                    · exfalso
                      apply hprev
                      simp [hba, hprevb]
                  · by_cases hprevb : b.prev_alloc
                    · exfalso
                      apply hprev
                      simp [hba, hprevb]
                    · simp [hba] at hprevb ⊢
                      simp [hprevb]
              · rw [List.countP_cons]
                by_cases hba : b.alloc
                · simp [hba] at ih4
                  simp [hba, ih4]
                · simp [hba] at ih4
                  simp [hba, ih4]
                  omega


/-- C8 (amended): whenever mm_checkheap accepts a state, every property it
actually tests holds - the prologue word is intact, each walked block is
16-aligned and at least 16 bytes, `prev_alloc` agrees with each walked
predecessor's alloc bit, no two adjacent walked blocks are both free, and
the number of free blocks seen on the walk equals the total length of the
free lists.  (The converse direction claimed by the spec - failure on every
violation of invariants 1-8 - is refuted by `C8_counterexample`: per-node
class ranges, link consistency, `prev_mini` coherence and the epilogue are
not enforced.) -/
theorem C8_checkheap_sound (s : AState) (h : mm_checkheap s = true) :
    checked_invariants s := by
  unfold mm_checkheap at h
  split at h
  · simp at h
  · rename_i hpro
    split at h
    · simp at h
    · rename_i tf hwalk
      obtain ⟨h1, h2, h3, h4⟩ := check_walk_sound _ _ _ _ _ _ hwalk
      have hpro' : s.prologue = pack 0 true true false := by
        simpa using hpro
      have hcnt : (s.classes.map List.length).sum + s.mini_list.length = tf := by
        simpa using h
      refine ⟨hpro', ?_, ?_, ?_⟩
      · exact h1
      · exact h2
      · unfold walk_of
        rw [hcnt]
        omega

/-- Witness for C8's amended theorem: the initial state passes mm_checkheap
and therefore satisfies all checked properties. -/
theorem C8_witness : checked_invariants initState :=
  C8_checkheap_sound initState (by decide)

theorem head?_drop_blockD (h : List Block) (i : Nat) (hi : i < h.length) :
    (h.drop i).head? = some (blockD h i) := by
  rw [List.drop_eq_getElem_cons hi]
  unfold blockD
  rw [List.getD_eq_getElem h default hi]
  rfl

theorem getLast?_take_blockD (h : List Block) (i : Nat) (h0 : 0 < i)
    (hi : i ≤ h.length) : (h.take i).getLast? = some (blockD h (i - 1)) := by
  have hlen : (h.take i).length = i := by
    simp [List.length_take]
    omega
  have hne : h.take i ≠ [] := by
    intro hx
    rw [hx] at hlen
    simp at hlen
    omega
  rw [List.getLast?_eq_getElem? _]
  rw [hlen]
  have hilt : i - 1 < h.length := by omega
  have : (h.take i)[i-1]? = h[i-1]? := by
    rw [List.getElem?_take, if_pos (by omega)]
  rw [this, List.getElem?_eq_getElem hilt]
  unfold blockD
  rw [List.getD_eq_getElem h default hilt]

theorem set_head_flags_head? (pa pm : Bool) (l : List Block) :
    (set_head_flags pa pm l).head? =
      l.head?.map (fun b => { b with prev_alloc := pa, prev_mini := pm }) := by
  cases l <;> rfl

theorem chain'_set_head_flags (pa pm : Bool) (l : List Block) :
    List.Chain' flag_ok (set_head_flags pa pm l) ↔ List.Chain' flag_ok l := by
  cases l with
  | nil => exact Iff.rfl
  | cons b t =>
    show List.Chain' flag_ok ({b with prev_alloc := pa, prev_mini := pm} :: t) ↔ _
    rw [List.chain'_cons', List.chain'_cons']
    constructor
    · rintro ⟨h1, h2⟩
      exact ⟨fun y hy => by
        have := h1 y hy
        simpa [flag_ok] using this, h2⟩
    · rintro ⟨h1, h2⟩
      exact ⟨fun y hy => by
        have := h1 y hy
        simpa [flag_ok] using this, h2⟩

theorem coherent_take (h : List Block) (i : Nat) (hc : Coherent h) :
    List.Chain' flag_ok (h.take i) :=
  hc.prefix (List.take_prefix i h)

theorem coherent_drop (h : List Block) (i : Nat) (hc : Coherent h) :
    List.Chain' flag_ok (h.drop i) :=
  hc.suffix (List.drop_suffix i h)

theorem coherent_pair (h : List Block) (i : Nat) (hc : Coherent h)
    (hi : i + 1 < h.length) : flag_ok (blockD h i) (blockD h (i + 1)) := by
  have h1 : i < h.length := by omega
  have := List.chain'_iff_get.mp hc i (by omega)
  unfold blockD
  rw [List.getD_eq_getElem h default h1, List.getD_eq_getElem h default hi]
  simpa [List.get_eq_getElem] using this


theorem getD_take_lt (h : List Block) (k j : Nat) (hj : j < k) :
    (h.take k).getD j default = h.getD j default := by
  rw [List.getD_eq_getElem?_getD, List.getD_eq_getElem?_getD,
    List.getElem?_take, if_pos hj]

theorem set_head_flags_getD_zero (pa pm : Bool) (b : Block) (t : List Block) :
    (set_head_flags pa pm (b :: t)).getD 0 default =
      { b with prev_alloc := pa, prev_mini := pm } := rfl

theorem set_head_flags_getD_succ (pa pm : Bool) (l : List Block) (j : Nat) :
    (set_head_flags pa pm l).getD (j + 1) default = l.getD (j + 1) default := by
  cases l <;> rfl

theorem set_head_flags_map_size (pa pm : Bool) (l : List Block) :
    (set_head_flags pa pm l).map Block.size = l.map Block.size := by
  cases l <;> rfl

theorem set_head_flags_map_size_alloc (pa pm : Bool) (l : List Block) :
    (set_head_flags pa pm l).map (fun b => (b.size, b.alloc)) =
      l.map (fun b => (b.size, b.alloc)) := by
  cases l <;> rfl

theorem splice_length (h : List Block) (k : Nat) (mid : List Block) (m : Nat)
    (pa pm : Bool) (hk : k ≤ h.length) :
    (splice h k mid m pa pm).length = k + mid.length + (h.length - m) := by
  simp [splice, List.length_take, List.length_drop]
  omega

theorem splice_blockD_left (h : List Block) (k : Nat) (mid : List Block)
    (m : Nat) (pa pm : Bool) (j : Nat) (hj : j < k) (hk : k ≤ h.length) :
    blockD (splice h k mid m pa pm) j = blockD h j := by
  unfold splice blockD
  rw [List.append_assoc, List.getD_append _ _ _ _
    (by simp [List.length_take]; omega)]
  exact getD_take_lt h k j hj

theorem splice_blockD_mid (h : List Block) (k : Nat) (mid : List Block)
    (m : Nat) (pa pm : Bool) (j : Nat) (hj : j < mid.length)
    (hk : k ≤ h.length) :
    blockD (splice h k mid m pa pm) (k + j) = blockD mid j := by
  unfold splice blockD
  have hlen : (h.take k).length = k := by simp [List.length_take]; omega
  rw [List.append_assoc, List.getD_append_right _ _ _ _ (by omega), hlen]
  have : k + j - k = j := by omega
  rw [this, List.getD_append _ _ _ _ hj]

theorem splice_blockD_at_m (h : List Block) (k : Nat) (mid : List Block)
    (m : Nat) (pa pm : Bool) (hk : k ≤ h.length) (hm : m < h.length) :
    blockD (splice h k mid m pa pm) (k + mid.length) =
      { blockD h m with prev_alloc := pa, prev_mini := pm } := by
  unfold splice blockD
  have hlen : (h.take k).length = k := by simp [List.length_take]; omega
  rw [List.append_assoc, List.getD_append_right _ _ _ _ (by omega), hlen]
  have h1 : k + mid.length - k = mid.length := by omega
  rw [h1, List.getD_append_right _ _ _ _ (le_refl _), Nat.sub_self]
  have hdrop : h.drop m = blockD h m :: h.drop (m + 1) := by
    rw [List.drop_eq_getElem_cons hm]
    unfold blockD
    rw [List.getD_eq_getElem h default hm]
  rw [hdrop]
  rfl

theorem splice_blockD_right (h : List Block) (k : Nat) (mid : List Block)
    (m : Nat) (pa pm : Bool) (j : Nat) (hk : k ≤ h.length) (hmj : m < j) :
    blockD (splice h k mid m pa pm) (k + mid.length + (j - m)) =
      blockD h j := by
  unfold splice blockD
  have hlen : (h.take k).length = k := by simp [List.length_take]; omega
  rw [List.append_assoc, List.getD_append_right _ _ _ _ (by omega), hlen]
  have h1 : k + mid.length + (j - m) - k = mid.length + (j - m) := by omega
  rw [h1, List.getD_append_right _ _ _ _ (by omega)]
  have h2 : mid.length + (j - m) - mid.length = j - m := by omega
  rw [h2]
  obtain ⟨t, ht⟩ : ∃ t, j - m = t + 1 := ⟨j - m - 1, by omega⟩
  rw [ht, set_head_flags_getD_succ, List.getD_eq_getElem?_getD,
    List.getD_eq_getElem?_getD, List.getElem?_drop]
  congr 2
  omega

theorem splice_map_size_sum (h : List Block) (k : Nat) (mid : List Block)
    (m : Nat) (pa pm : Bool) (hk : k ≤ m) (hm : m ≤ h.length)
    (hsum : ((h.take k).map Block.size).sum + (mid.map Block.size).sum =
      ((h.take m).map Block.size).sum) :
    ((splice h k mid m pa pm).map Block.size).sum =
      (h.map Block.size).sum := by
  unfold splice
  rw [List.map_append, List.map_append, List.sum_append, List.sum_append,
    set_head_flags_map_size]
  have hdecomp : (h.map Block.size).sum =
      ((h.take m).map Block.size).sum + ((h.drop m).map Block.size).sum := by
    conv_lhs => rw [← List.take_append_drop m h]
    rw [List.map_append, List.sum_append]
  omega

theorem splice_addr_left (h : List Block) (k : Nat) (mid : List Block)
    (m : Nat) (pa pm : Bool) (j : Nat) (hj : j ≤ k) (hk : k ≤ h.length) :
    addr_of (splice h k mid m pa pm) j = addr_of h j := by
  unfold splice addr_of
  rw [List.append_assoc, List.take_append_of_le_length
    (by simp [List.length_take]; omega), List.take_take]
  have hmin : min j k = j := by omega
  rw [hmin]

theorem splice_addr_mid (h : List Block) (k : Nat) (mid : List Block)
    (m : Nat) (pa pm : Bool) (j : Nat) (hj : j ≤ mid.length)
    (hk : k ≤ h.length) :
    addr_of (splice h k mid m pa pm) (k + j) =
      addr_of h k + ((mid.take j).map Block.size).sum := by
  unfold splice addr_of
  have hlen : (h.take k).length = k := by simp [List.length_take]; omega
  rw [List.append_assoc, show k + j = (h.take k).length + j by omega,
    List.take_append, List.take_append_of_le_length hj,
    List.map_append, List.sum_append]
  omega


theorem take_shf_map_size (pa pm : Bool) (l : List Block) (t : Nat) :
    (((set_head_flags pa pm l).take t).map Block.size).sum =
      ((l.take t).map Block.size).sum := by
  rw [List.map_take, List.map_take, set_head_flags_map_size]

theorem splice_addr_right (h : List Block) (k : Nat) (mid : List Block)
    (m : Nat) (pa pm : Bool) (t : Nat) (hk : k ≤ h.length)
    (hsum : ((h.take k).map Block.size).sum + (mid.map Block.size).sum =
      ((h.take m).map Block.size).sum) :
    addr_of (splice h k mid m pa pm) (k + mid.length + t) =
      addr_of h (m + t) := by
  unfold splice addr_of
  have hlen : (h.take k).length = k := by simp [List.length_take]; omega
  rw [List.append_assoc,
    show k + mid.length + t = (h.take k).length + (mid.length + t) by omega,
    List.take_append,
    show mid.length + t = mid.length + t from rfl]
  rw [List.take_append ..]
  rw [List.map_append, List.sum_append, List.map_append, List.sum_append]
  rw [take_shf_map_size]
  have htadd : ((h.take (m + t)).map Block.size).sum =
      ((h.take m).map Block.size).sum +
        (((h.drop m).take t).map Block.size).sum := by
    rw [List.take_add, List.map_append, List.sum_append]
  omega

/-- Coherence of a spliced heap, given coherence of the original, a
coherent middle and the two junction conditions. -/
theorem splice_coherent (h : List Block) (k : Nat) (mid : List Block)
    (m : Nat) (pa pm : Bool)
    (hc : Coherent h)
    (hmid : List.Chain' flag_ok mid)
    (hleft : ∀ x ∈ (h.take k).getLast?,
      ∀ y ∈ (mid ++ set_head_flags pa pm (h.drop m)).head?, flag_ok x y)
    (hmr : ∀ x ∈ mid.getLast?,
      ∀ y ∈ (set_head_flags pa pm (h.drop m)).head?, flag_ok x y) :
    Coherent (splice h k mid m pa pm) := by
  unfold splice Coherent
  rw [List.append_assoc, List.chain'_append]
  refine ⟨coherent_take h k hc, ?_, hleft⟩
  rw [List.chain'_append]
  exact ⟨hmid, (chain'_set_head_flags pa pm _).mpr (coherent_drop h m hc), hmr⟩

/-- Index form of `BlocksOk`. -/
theorem blocksOk_iff_index (h : List Block) :
    BlocksOk h ↔ ∀ j, j + 1 < h.length →
      mb_block_size ≤ (blockD h j).size ∧ (blockD h j).size % dsize = 0 := by
  unfold BlocksOk
  constructor
  · intro hb j hj
    have hjlt : j < h.dropLast.length := by
      simp [List.length_dropLast]
      omega
    have hjh : j < h.length := by omega
    have heq : h.dropLast[j] = h[j] := List.getElem_dropLast h j hjlt
    have hmem : blockD h j ∈ h.dropLast := by
      unfold blockD
      rw [List.getD_eq_getElem h default hjh, ← heq]
      exact List.getElem_mem hjlt
    exact hb _ hmem
  · intro hb b hbmem
    obtain ⟨j, hjlt, hjb⟩ := List.mem_iff_getElem.mp hbmem
    have hjh : j + 1 < h.length := by
      have := hjlt
      simp [List.length_dropLast] at this
      omega
    have hjh2 : j < h.length := by omega
    have heq : h.dropLast[j] = h[j] := List.getElem_dropLast h j hjlt
    have : blockD h j = b := by
      unfold blockD
      rw [List.getD_eq_getElem h default hjh2, ← heq, hjb]
    rw [← this]
    exact hb j hjh

theorem idx_at_aux_addr_pos (h : List Block)
    (hpos : ∀ b ∈ h.dropLast, 0 < b.size) :
    ∀ (c i : Nat), i < h.length →
      idx_at_aux h c (c + ((h.take i).map Block.size).sum) = some i := by
  induction h with
  | nil => intro c i hi; simp at hi
  | cons b t ih =>
    intro c i hi
    unfold idx_at_aux
    cases i with
    | zero => simp
    | succ j =>
      have ht : t ≠ [] := by
        intro hx
        rw [hx] at hi
        simp at hi
      have hbpos : 0 < b.size := by
        apply hpos
        rw [List.dropLast_cons_of_ne_nil ht]
        exact List.mem_cons_self b _
      have hne : c ≠ c + (((b :: t).take (j + 1)).map Block.size).sum := by
        simp only [List.take_succ_cons, List.map_cons, List.sum_cons]
        omega
      rw [if_neg hne]
      have hpos' : ∀ x ∈ t.dropLast, 0 < x.size := by
        intro x hx
        apply hpos
        rw [List.dropLast_cons_of_ne_nil ht]
        exact List.mem_cons_of_mem b hx
      have harw : c + (((b :: t).take (j + 1)).map Block.size).sum =
          (c + b.size) + ((t.take j).map Block.size).sum := by
        simp only [List.take_succ_cons, List.map_cons, List.sum_cons]
        omega
      rw [harw, ih hpos' (c + b.size) j (by simpa using hi)]
      rfl

theorem idx_at_addr_pos (h : List Block)
    (hpos : ∀ b ∈ h.dropLast, 0 < b.size) (i : Nat) (hi : i < h.length) :
    idx_at h (addr_of h i) = some i :=
  idx_at_aux_addr_pos h hpos wsize i hi

end MM

namespace MM

theorem pos_of_blocksOk {h : List Block} (hbo : BlocksOk h) :
    ∀ b ∈ h.dropLast, 0 < b.size := by
  intro b hb
  have := hbo b hb
  unfold mb_block_size at this
  omega

theorem splice_blocksOk (h : List Block) (k : Nat) (mid : List Block)
    (m : Nat) (pa pm : Bool) (hk : k ≤ m) (hm : m < h.length)
    (hbo : BlocksOk h)
    (hmid : ∀ b ∈ mid, mb_block_size ≤ b.size ∧ b.size % dsize = 0) :
    BlocksOk (splice h k mid m pa pm) := by
  have hidx := (blocksOk_iff_index h).mp hbo
  rw [blocksOk_iff_index]
  intro j hj
  rw [splice_length h k mid m pa pm (by omega)] at hj
  by_cases h1 : j < k
  · rw [splice_blockD_left h k mid m pa pm j h1 (by omega)]
    exact hidx j (by omega)
  · by_cases h2 : j < k + mid.length
    · have hje : j = k + (j - k) := by omega
      rw [hje, splice_blockD_mid h k mid m pa pm (j - k) (by omega) (by omega)]
      exact hmid _ (blockD_mem (by omega))
    · by_cases h3 : j = k + mid.length
      · subst h3
        rw [splice_blockD_at_m h k mid m pa pm (by omega) hm]
        exact hidx m (by omega)
      · have hbr := splice_blockD_right h k mid m pa pm (m + (j - k - mid.length))
          (by omega) (by omega)
        have hje : j = k + mid.length + (m + (j - k - mid.length) - m) := by omega
        rw [hje, hbr]
        exact hidx _ (by omega)

theorem splice_epilogueOk (h : List Block) (k : Nat) (mid : List Block)
    (m : Nat) (pa pm : Bool) (hk : k ≤ m) (hm : m < h.length)
    (hepi : EpilogueOk h) : EpilogueOk (splice h k mid m pa pm) := by
  obtain ⟨hne, hsz, hal⟩ := hepi
  have hlen := splice_length h k mid m pa pm (by omega)
  have hlenpos : 0 < h.length := List.length_pos.mpr hne
  have hlast : ((blockD (splice h k mid m pa pm)
        ((splice h k mid m pa pm).length - 1)).size = (blockD h (h.length - 1)).size) ∧
      ((blockD (splice h k mid m pa pm)
        ((splice h k mid m pa pm).length - 1)).alloc = (blockD h (h.length - 1)).alloc) := by
    by_cases hml : m = h.length - 1
    · have e1 : (splice h k mid m pa pm).length - 1 = k + mid.length := by omega
      rw [e1, splice_blockD_at_m h k mid m pa pm (by omega) hm, hml]
      exact ⟨rfl, rfl⟩
    · have hbr := splice_blockD_right h k mid m pa pm (h.length - 1)
        (by omega) (by omega)
      have e1 : (splice h k mid m pa pm).length - 1 =
          k + mid.length + (h.length - 1 - m) := by omega
      rw [e1, hbr]
      exact ⟨rfl, rfl⟩
  refine ⟨?_, ?_, ?_⟩
  · intro hx
    rw [hx] at hlen
    simp at hlen
    omega
  · rw [hlast.1]; exact hsz
  · rw [hlast.2]; exact hal

theorem splice_firstOk (h : List Block) (k : Nat) (mid : List Block)
    (m : Nat) (pa pm : Bool) (hk : k ≤ m) (hm : m < h.length)
    (hfo : FirstOk h)
    (hmid0 : k = 0 → mid ≠ [] → (blockD mid 0).prev_alloc = true)
    (hpa0 : k = 0 → mid = [] → pa = true) :
    FirstOk (splice h k mid m pa pm) := by
  intro hne
  by_cases hk0 : 0 < k
  · rw [splice_blockD_left h k mid m pa pm 0 hk0 (by omega)]
    exact hfo (by intro hx; rw [hx] at hm; simp at hm)
  · have hke : k = 0 := by omega
    subst hke
    by_cases hmide : mid = []
    · subst hmide
      have h0 := splice_blockD_at_m h 0 ([] : List Block) m pa pm (by omega) hm
      simp only [List.length_nil, Nat.add_zero] at h0
      rw [h0]
      simp [hpa0 rfl rfl]
    · have h0 := splice_blockD_mid h 0 mid m pa pm 0
        (List.length_pos.mpr hmide) (by omega)
      simp only [Nat.add_zero] at h0
      rw [h0]
      exact hmid0 rfl hmide

theorem addr_of_lt_of_lt (h : List Block) (i j : Nat)
    (hpos : ∀ b ∈ h.dropLast, 0 < b.size) (hij : i < j) (hj : j < h.length) :
    addr_of h i < addr_of h j := by
  unfold addr_of
  have hile : i < h.length := by omega
  have hdecomp : h.take j = h.take i ++ ((h.drop i).take (j - i)) := by
    rw [← List.take_add]
    congr 1
    omega
  rw [hdecomp, List.map_append, List.sum_append]
  have hpos1 : 0 < (((h.drop i).take (j - i)).map Block.size).sum := by
    have hhead : (h.drop i).take (j - i) =
        blockD h i :: ((h.drop (i + 1)).take (j - i - 1)) := by
      rw [List.drop_eq_getElem_cons hile]
      unfold blockD
      rw [List.getD_eq_getElem h default hile]
      have : j - i = (j - i - 1) + 1 := by omega
      rw [this]
      rfl
    rw [hhead]
    simp only [List.map_cons, List.sum_cons]
    have hbp : 0 < (blockD h i).size := by
      apply hpos
      have hidl : i < h.dropLast.length := by
        simp [List.length_dropLast]
        omega
      have heq : h.dropLast[i] = h[i] := List.getElem_dropLast h i hidl
      unfold blockD
      rw [List.getD_eq_getElem h default hile, ← heq]
      exact List.getElem_mem hidl
    omega
  omega

theorem idx_at_aux_some_of_mem (h : List Block) (c a : Nat) :
    (idx_at_aux h c a).isSome = true →
      ∃ i, i < h.length ∧ idx_at_aux h c a = some i := by
  intro hs
  cases hx : idx_at_aux h c a with
  | none => rw [hx] at hs; simp at hs
  | some i =>
    exact ⟨i, idx_at_aux_some_lt hx, rfl⟩

theorem idx_at_strictly_between (h : List Block) (a : Nat)
    (hpos : ∀ b ∈ h.dropLast, 0 < b.size) (i : Nat) (hi : i < h.length)
    (h1 : addr_of h i < a) (h2 : a < addr_of h i + (blockD h i).size) :
    idx_at h a = none := by
  cases hx : idx_at h a with
  | none => rfl
  | some j =>
    exfalso
    have hjlt : j < h.length := idx_at_some_lt hx
    have hja := idx_at_some_addr hx
    subst hja
    by_cases hij : j ≤ i
    · rcases Nat.lt_or_ge j i with hji | hji
      · have := addr_of_lt_of_lt h j i hpos hji hi
        omega
      · have : j = i := by omega
        subst this
        omega
    · have hij' : i < j := by omega
      have hstep : addr_of h (i + 1) ≤ addr_of h j := by
        by_cases hlt : i + 1 < j
        · exact Nat.le_of_lt (addr_of_lt_of_lt h (i + 1) j hpos hlt hjlt)
        · have hje : j = i + 1 := by omega
          rw [hje]
      have hsucc : addr_of h (i + 1) = addr_of h i + (blockD h i).size :=
        addr_of_succ h i hi
      omega

end MM

namespace MM

theorem add_to_free_list_classes (s : AState) (a : Nat) :
    (add_to_free_list s a).classes =
      s.classes.set (size_to_class (size_at s a))
        (a :: s.classes.getD (size_to_class (size_at s a)) []) := rfl

theorem rem_from_free_list_classes (s : AState) (a : Nat) :
    (rem_from_free_list s a).classes =
      s.classes.set (size_to_class (size_at s a))
        ((s.classes.getD (size_to_class (size_at s a)) []).erase a) := rfl

theorem add_to_mini_list_mini (s : AState) (a : Nat) :
    (add_to_mini_list s a).mini_list = a :: s.mini_list := rfl

theorem rem_from_mini_list_mini (s : AState) (a : Nat) :
    (rem_from_mini_list s a).mini_list = s.mini_list.erase a := rfl

theorem size_to_class_lt (n : Nat) : size_to_class n < NUM_CLASSES := by
  unfold size_to_class
  by_cases h1 : n ≤ 32
  · rw [if_pos h1]; decide
  rw [if_neg h1]
  by_cases h2 : n ≤ 64
  · rw [if_pos h2]; decide
  rw [if_neg h2]
  by_cases h3 : n ≤ 128
  · rw [if_pos h3]; decide
  rw [if_neg h3]
  by_cases h4 : n ≤ 256
  · rw [if_pos h4]; decide
  rw [if_neg h4]
  by_cases h5 : n ≤ 512
  · rw [if_pos h5]; decide
  rw [if_neg h5]
  by_cases h6 : n ≤ 1024
  · rw [if_pos h6]; decide
  rw [if_neg h6]
  by_cases h7 : n ≤ 2048
  · rw [if_pos h7]; decide
  rw [if_neg h7]
  by_cases h8 : n ≤ 4096
  · rw [if_pos h8]; decide
  rw [if_neg h8]
  by_cases h9 : n ≤ 8192
  · rw [if_pos h9]; decide
  rw [if_neg h9]
  by_cases h10 : n ≤ 16384
  · rw [if_pos h10]; decide
  rw [if_neg h10]
  by_cases h11 : n ≤ 32768
  · rw [if_pos h11]; decide
  rw [if_neg h11]
  by_cases h12 : n ≤ 65536
  · rw [if_pos h12]; decide
  rw [if_neg h12]
  by_cases h13 : n ≤ 131072
  · rw [if_pos h13]; decide
  rw [if_neg h13]
  by_cases h14 : n ≤ 262144
  · rw [if_pos h14]; decide
  rw [if_neg h14]
  decide

theorem flatten_set_sublist (L : List (List Nat)) (c : Nat) (l' : List Nat)
    (hsub : l'.Sublist (L.getD c [])) :
    (L.set c l').flatten.Sublist L.flatten := by
  induction L generalizing c with
  | nil => simp
  | cons x t ih =>
    cases c with
    | zero =>
      simp only [List.set_cons_zero, List.flatten_cons]
      have hsub' : l'.Sublist x := by simpa using hsub
      exact hsub'.append (List.Sublist.refl _)
    | succ c =>
      simp only [List.set_cons_succ, List.flatten_cons]
      exact (List.Sublist.refl x).append (ih c (by simpa using hsub))

theorem flatten_set_cons_perm (L : List (List Nat)) (c : Nat)
    (hc : c < L.length) (a : Nat) :
    (L.set c (a :: L.getD c [])).flatten.Perm (a :: L.flatten) := by
  induction L generalizing c with
  | nil => simp at hc
  | cons x t ih =>
    cases c with
    | zero =>
      simp only [List.set_cons_zero, List.flatten_cons, List.getD_cons_zero]
      exact List.Perm.refl _
    | succ c =>
      simp only [List.set_cons_succ, List.flatten_cons, List.getD_cons_succ]
      refine (List.Perm.append_left x (ih c (by simpa using hc))).trans ?_
      exact List.perm_middle

theorem all_entries_add_free (s : AState) (a : Nat)
    (hc : s.classes.length = NUM_CLASSES) :
    (all_entries (add_to_free_list s a)).Perm (a :: all_entries s) := by
  unfold all_entries
  rw [add_to_free_list_classes, add_to_free_list_mini]
  have hp := flatten_set_cons_perm s.classes (size_to_class (size_at s a))
    (by rw [hc]; exact size_to_class_lt _) a
  exact (hp.append_right s.mini_list).trans (List.Perm.refl _)

theorem all_entries_add_mini (s : AState) (a : Nat) :
    (all_entries (add_to_mini_list s a)).Perm (a :: all_entries s) := by
  unfold all_entries
  rw [add_to_mini_list_classes, add_to_mini_list_mini]
  exact List.perm_middle

theorem all_entries_rem_free (s : AState) (a : Nat) :
    (all_entries (rem_from_free_list s a)).Sublist (all_entries s) := by
  unfold all_entries
  rw [rem_from_free_list_classes, rem_from_free_list_mini]
  exact (flatten_set_sublist _ _ _ (List.erase_sublist _ _)).append
    (List.Sublist.refl _)

theorem all_entries_rem_mini (s : AState) (a : Nat) :
    (all_entries (rem_from_mini_list s a)).Sublist (all_entries s) := by
  unfold all_entries
  rw [rem_from_mini_list_classes, rem_from_mini_list_mini]
  exact (List.Sublist.refl _).append (List.erase_sublist _ _)

theorem mem_flatten_iff (L : List (List Nat)) (x : Nat) :
    x ∈ L.flatten ↔ ∃ c, ∃ _ : c < L.length, x ∈ L.get ⟨c, by assumption⟩ := by
  rw [List.mem_flatten]
  constructor
  · rintro ⟨l, hl, hx⟩
    obtain ⟨c, hcl, hcx⟩ := List.mem_iff_getElem.mp hl
    exact ⟨c, hcl, by rw [List.get_eq_getElem, hcx]; exact hx⟩
  · rintro ⟨c, hcl, hx⟩
    exact ⟨_, List.getElem_mem hcl, by simpa using hx⟩

theorem getClass_eq_get (s : AState) (c : Nat) (hc : c < s.classes.length) :
    getClass s c = s.classes.get ⟨c, hc⟩ := by
  unfold getClass
  rw [List.get_eq_getElem, List.getD_eq_getElem s.classes [] hc]

theorem listsWF_entry_facts {s : AState} (hw : ListsWF s) {a : Nat}
    (ha : a ∈ all_entries s) :
    entry_idx s a + 1 < s.heap.length ∧
      (blockD s.heap (entry_idx s a)).alloc = false := by
  obtain ⟨hlen, hreg, hmini, hnd⟩ := hw
  rcases List.mem_append.mp ha with hf | hm
  · obtain ⟨c, hcl, hx⟩ := (mem_flatten_iff _ _).mp hf
    have hro := hreg c (by omega) a (by rw [getClass_eq_get s c hcl]; exact hx)
    exact ⟨hro.1, hro.2.1⟩
  · have := hmini a hm
    exact ⟨this.1, this.2.1⟩

theorem not_mem_entries_of_alloc {s : AState} (hw : ListsWF s) {a j : Nat}
    (hj : idx_at s.heap a = some j)
    (hal : (blockD s.heap j).alloc = true) : a ∉ all_entries s := by
  intro ha
  have hfacts := (listsWF_entry_facts hw ha).2
  unfold entry_idx at hfacts
  rw [hj] at hfacts
  simp only [Option.getD_some] at hfacts
  rw [hal] at hfacts
  simp at hfacts

theorem nodup_getClass {s : AState} (hw : ListsWF s) (c : Nat)
    (hc : c < s.classes.length) : (getClass s c).Nodup := by
  have hsub : (getClass s c).Sublist s.classes.flatten := by
    rw [getClass_eq_get s c hc]
    exact List.sublist_flatten_of_mem (List.getElem_mem hc)
  exact hsub.nodup hw.2.2.2.of_append_left

theorem nodup_mini {s : AState} (hw : ListsWF s) : s.mini_list.Nodup :=
  hw.2.2.2.of_append_right

theorem not_mem_entries_rem_mini {s : AState} (hw : ListsWF s) {a j : Nat}
    (hj : idx_at s.heap a = some j)
    (hsz : (blockD s.heap j).size = mb_block_size) :
    a ∉ all_entries (rem_from_mini_list s a) := by
  have hwc := hw
  obtain ⟨hlen, hreg, hmini, hnd⟩ := hwc
  unfold all_entries
  rw [rem_from_mini_list_classes, rem_from_mini_list_mini]
  intro ha
  rcases List.mem_append.mp ha with hf | hm
  · obtain ⟨c, hcl, hx⟩ := (mem_flatten_iff _ _).mp hf
    have hro := hreg c (by omega) a (by rw [getClass_eq_get s c hcl]; exact hx)
    have hne : (blockD s.heap (entry_idx s a)).size ≠ mb_block_size := hro.2.2.1
    unfold entry_idx at hne
    rw [hj] at hne
    simp only [Option.getD_some] at hne
    exact hne hsz
  · exact (((nodup_mini hw).mem_erase_iff).mp hm).1 rfl

theorem not_mem_entries_rem_free {s : AState} (hw : ListsWF s) {a j : Nat}
    (hj : idx_at s.heap a = some j)
    (hsz : (blockD s.heap j).size ≠ mb_block_size) :
    a ∉ all_entries (rem_from_free_list s a) := by
  have hwc := hw
  obtain ⟨hlen, hreg, hmini, hnd⟩ := hwc
  unfold all_entries
  rw [rem_from_free_list_classes, rem_from_free_list_mini]
  intro ha
  have hsa : size_at s a = (blockD s.heap j).size := by
    unfold size_at
    rw [hj]
  rcases List.mem_append.mp ha with hf | hm
  · obtain ⟨c, hcl, hx⟩ := (mem_flatten_iff _ _).mp hf
    have hcl' : c < s.classes.length := by simpa using hcl
    rw [List.get_eq_getElem, List.getElem_set] at hx
    by_cases hcc : size_to_class (size_at s a) = c
    · rw [if_pos hcc] at hx
      have hx' : a ∈ (getClass s (size_to_class (size_at s a))).erase a := hx
      exact (((nodup_getClass hw (size_to_class (size_at s a))
        (by rw [hlen]; exact size_to_class_lt _)).mem_erase_iff).mp hx').1 rfl
    · rw [if_neg hcc] at hx
      have hro := hreg c (by omega) a
        (by rw [getClass_eq_get s c hcl']; simpa using hx)
      have hcls : size_to_class (blockD s.heap (entry_idx s a)).size = c :=
        hro.2.2.2
      unfold entry_idx at hcls
      rw [hj] at hcls
      simp only [Option.getD_some] at hcls
      rw [hsa] at hcc
      exact hcc hcls
  · have := (hmini a hm).2.2
    unfold entry_idx at this
    rw [hj] at this
    simp only [Option.getD_some] at this
    exact hsz this

end MM

namespace MM

theorem get_mini_iff (b : Block) : get_mini b = true ↔ b.size = mb_block_size := by
  unfold get_mini
  exact beq_iff_eq

theorem entry_idx_resolves (s : AState) (a : Nat)
    (hlt : entry_idx s a < s.heap.length) :
    idx_at s.heap a = some (entry_idx s a) := by
  unfold entry_idx at *
  cases hx : idx_at s.heap a with
  | none => rw [hx] at hlt; simp at hlt
  | some t => rfl

theorem splice_idx_of_lt (h : List Block) (k : Nat) (mid : List Block)
    (m : Nat) (pa pm : Bool) (hk : k ≤ m) (hm : m < h.length)
    (hpos : ∀ b ∈ (splice h k mid m pa pm).dropLast, 0 < b.size)
    (j : Nat) (hj : j < k) :
    idx_at (splice h k mid m pa pm) (addr_of h j) = some j := by
  rw [← splice_addr_left h k mid m pa pm j (by omega) (by omega)]
  refine idx_at_addr_pos _ hpos j ?_
  rw [splice_length h k mid m pa pm (by omega)]
  omega

theorem splice_idx_of_ge (h : List Block) (k : Nat) (mid : List Block)
    (m : Nat) (pa pm : Bool) (hk : k ≤ m) (hm : m < h.length)
    (hsum : ((h.take k).map Block.size).sum + (mid.map Block.size).sum =
      ((h.take m).map Block.size).sum)
    (hpos : ∀ b ∈ (splice h k mid m pa pm).dropLast, 0 < b.size)
    (j : Nat) (hj : m ≤ j) (hjl : j < h.length) :
    idx_at (splice h k mid m pa pm) (addr_of h j) =
      some (k + mid.length + (j - m)) := by
  have haj : addr_of h j = addr_of h (m + (j - m)) := by
    congr 1
    omega
  rw [haj, ← splice_addr_right h k mid m pa pm (j - m) (by omega) hsum]
  refine idx_at_addr_pos _ hpos _ ?_
  rw [splice_length h k mid m pa pm (by omega)]
  omega

theorem splice_coherent2 (h : List Block) (k : Nat) (mid : List Block)
    (m : Nat) (pa pm : Bool)
    (hct : List.Chain' flag_ok (h.take k))
    (hcd : List.Chain' flag_ok (h.drop m))
    (hmid : List.Chain' flag_ok mid)
    (hleft : ∀ x ∈ (h.take k).getLast?,
      ∀ y ∈ (mid ++ set_head_flags pa pm (h.drop m)).head?, flag_ok x y)
    (hmr : ∀ x ∈ mid.getLast?,
      ∀ y ∈ (set_head_flags pa pm (h.drop m)).head?, flag_ok x y) :
    Coherent (splice h k mid m pa pm) := by
  unfold splice Coherent
  rw [List.append_assoc, List.chain'_append]
  refine ⟨hct, ?_, hleft⟩
  rw [List.chain'_append]
  exact ⟨hmid, (chain'_set_head_flags pa pm _).mpr hcd, hmr⟩

end MM

namespace MM

@[simp] theorem upd_heap_classes (x : AState) (H : List Block) :
    ({ x with heap := H } : AState).classes = x.classes := rfl

@[simp] theorem upd_heap_mini (x : AState) (H : List Block) :
    ({ x with heap := H } : AState).mini_list = x.mini_list := rfl

@[simp] theorem upd_heap_budget (x : AState) (H : List Block) :
    ({ x with heap := H } : AState).budget = x.budget := rfl

@[simp] theorem upd_heap_prologue (x : AState) (H : List Block) :
    ({ x with heap := H } : AState).prologue = x.prologue := rfl

theorem mem_all_entries_of_class {s : AState} {c a : Nat}
    (ha : a ∈ getClass s c) : a ∈ all_entries s := by
  unfold all_entries
  refine List.mem_append.mpr (Or.inl ?_)
  by_cases hc : c < s.classes.length
  · refine (mem_flatten_iff _ _).mpr ⟨c, hc, ?_⟩
    rw [← getClass_eq_get s c hc]
    exact ha
  · unfold getClass at ha
    rw [List.getD_eq_default] at ha
    · exact absurd ha (List.not_mem_nil a)
    · omega

theorem mem_all_entries_of_mini {s : AState} {a : Nat}
    (ha : a ∈ s.mini_list) : a ∈ all_entries s :=
  List.mem_append.mpr (Or.inr ha)

theorem chain'_take_pair (h : List Block) (n : Nat)
    (hc : List.Chain' flag_ok (h.take n)) (j : Nat) (hj : j + 1 < n)
    (hjh : j + 1 < h.length) :
    flag_ok (blockD h j) (blockD h (j + 1)) := by
  have hlen : j + 1 < (h.take n).length := by
    simp [List.length_take]
    omega
  have := List.chain'_iff_get.mp hc j (by omega)
  have e1 : (h.take n).get ⟨j, by omega⟩ = blockD h j := by
    rw [List.get_eq_getElem]
    unfold blockD
    rw [List.getD_eq_getElem h default (by omega), List.getElem_take]
  have e2 : (h.take n).get ⟨j + 1, by omega⟩ = blockD h (j + 1) := by
    rw [List.get_eq_getElem]
    unfold blockD
    rw [List.getD_eq_getElem h default hjh, List.getElem_take]
  rw [e1, e2] at this
  exact this

theorem splice1_invariants (s s'' : AState) (k m : Nat) (nb : Block)
    (hkm : k < m) (hm : m < s.heap.length)
    (hct : List.Chain' flag_ok (s.heap.take k))
    (hcd : List.Chain' flag_ok (s.heap.drop m))
    (hjl : ∀ x ∈ (s.heap.take k).getLast?, flag_ok x nb)
    (hbo : BlocksOk s.heap) (hepi : EpilogueOk s.heap)
    (hfo : FirstOk s.heap)
    (hpa0 : k = 0 → nb.prev_alloc = true)
    (hnba : nb.alloc = false)
    (hnbsz : mb_block_size ≤ nb.size ∧ nb.size % dsize = 0)
    (hsum : ((s.heap.take k).map Block.size).sum + nb.size =
      ((s.heap.take m).map Block.size).sum)
    (hwl : ListsWF s)
    (hs2c : s''.classes.length = s.classes.length)
    (hsub : (all_entries s'').Sublist (all_entries s))
    (hcls : ∀ c, ∀ a ∈ getClass s'' c, a ∈ getClass s c)
    (hmls : ∀ a ∈ s''.mini_list, a ∈ s.mini_list)
    (hexcl : ∀ a ∈ all_entries s'', ∀ t, idx_at s.heap a = some t →
      t < k ∨ m ≤ t)
    (s' : AState)
    (hs' : s' = { s'' with
      heap := splice s.heap k [nb] m false (get_mini nb) }) :
    Coherent s'.heap ∧ EpilogueOk s'.heap ∧ BlocksOk s'.heap ∧
      FirstOk s'.heap ∧ ListsWF s' ∧
      addr_of s'.heap k ∉ all_entries s' ∧
      (s'.heap.map Block.size).sum = (s.heap.map Block.size).sum ∧
      s'.heap.length = s.heap.length - (m - k - 1) ∧
      blockD s'.heap k = nb ∧
      addr_of s'.heap k = addr_of s.heap k ∧
      k + 1 < s'.heap.length ∧
      (∀ t, t + 1 < s.heap.length → (t < k ∨ m ≤ t) →
        ∃ t', idx_at s'.heap (addr_of s.heap t) = some t' ∧
          t' + 1 < s'.heap.length ∧
          (blockD s'.heap t').size = (blockD s.heap t).size ∧
          (blockD s'.heap t').alloc = (blockD s.heap t).alloc ∧
          (blockD s'.heap t').data = (blockD s.heap t).data) := by
  subst hs'
  simp only [upd_heap_heap]
  have hkle : k ≤ s.heap.length := by omega
  have hklem : k ≤ m := by omega
  have hmid1 : (([nb] : List Block)).length = 1 := rfl
  have hmidOk : ∀ b ∈ ([nb] : List Block),
      mb_block_size ≤ b.size ∧ b.size % dsize = 0 := by
    intro b hb
    rw [List.mem_singleton] at hb
    subst hb
    exact hnbsz
  have hsum' : ((s.heap.take k).map Block.size).sum +
      (([nb] : List Block).map Block.size).sum =
      ((s.heap.take m).map Block.size).sum := by
    simpa using hsum
  have hbo2 : BlocksOk (splice s.heap k [nb] m false (get_mini nb)) :=
    splice_blocksOk s.heap k [nb] m false (get_mini nb) hklem hm hbo hmidOk
  have hepi2 : EpilogueOk (splice s.heap k [nb] m false (get_mini nb)) :=
    splice_epilogueOk s.heap k [nb] m false (get_mini nb) hklem hm hepi
  have hfo2 : FirstOk (splice s.heap k [nb] m false (get_mini nb)) := by
    refine splice_firstOk s.heap k [nb] m false (get_mini nb) hklem hm hfo
      ?_ ?_
    · intro hk0 _
      exact hpa0 hk0
    · intro _ hx
      exact absurd hx (by simp)
  have hpos2 : ∀ b ∈ (splice s.heap k [nb] m false (get_mini nb)).dropLast,
      0 < b.size := pos_of_blocksOk hbo2
  have hcoh2 : Coherent (splice s.heap k [nb] m false (get_mini nb)) := by
    refine splice_coherent2 s.heap k [nb] m false (get_mini nb) hct hcd
      (List.chain'_singleton nb) ?_ ?_
    · intro x hx y hy
      simp at hy
      subst hy
      exact hjl x hx
    · intro x hx y hy
      have hx2 : x = nb := by
        have h1 : x ∈ [nb] := List.mem_of_mem_getLast? hx
        simpa using h1
      rw [set_head_flags_head?, head?_drop_blockD s.heap m hm] at hy
      have hy2 : y = { blockD s.heap m with prev_alloc := false, prev_mini := get_mini nb } :=
        (Option.some.inj (Option.mem_def.mp hy)).symm
      rw [hx2, hy2]
      exact ⟨hnba.symm, get_mini_iff nb⟩
  have hlen2 : (splice s.heap k [nb] m false (get_mini nb)).length =
      k + 1 + (s.heap.length - m) := by
    rw [splice_length s.heap k [nb] m false (get_mini nb) hkle, hmid1]
  have hblkk : blockD (splice s.heap k [nb] m false (get_mini nb)) k = nb := by
    have := splice_blockD_mid s.heap k [nb] m false (get_mini nb) 0
      (by simp) hkle
    simpa using this
  have haddrk : addr_of (splice s.heap k [nb] m false (get_mini nb)) k =
      addr_of s.heap k :=
    splice_addr_left s.heap k [nb] m false (get_mini nb) k (le_refl k) hkle
  have hframe : ∀ t, t + 1 < s.heap.length → (t < k ∨ m ≤ t) →
      ∃ t', idx_at (splice s.heap k [nb] m false (get_mini nb))
          (addr_of s.heap t) = some t' ∧
        t' + 1 < (splice s.heap k [nb] m false (get_mini nb)).length ∧
        (blockD (splice s.heap k [nb] m false (get_mini nb)) t').size =
          (blockD s.heap t).size ∧
        (blockD (splice s.heap k [nb] m false (get_mini nb)) t').alloc =
          (blockD s.heap t).alloc ∧
        (blockD (splice s.heap k [nb] m false (get_mini nb)) t').data =
          (blockD s.heap t).data := by
    intro t ht hcase
    rcases hcase with hlt | hge
    · refine ⟨t, ?_, ?_, ?_, ?_, ?_⟩
      · exact splice_idx_of_lt s.heap k [nb] m false (get_mini nb) hklem hm
          hpos2 t hlt
      · rw [hlen2]
        omega
      · rw [splice_blockD_left s.heap k [nb] m false (get_mini nb) t hlt hkle]
      · rw [splice_blockD_left s.heap k [nb] m false (get_mini nb) t hlt hkle]
      · rw [splice_blockD_left s.heap k [nb] m false (get_mini nb) t hlt hkle]
    · refine ⟨k + 1 + (t - m), ?_, ?_, ?_, ?_, ?_⟩
      · have := splice_idx_of_ge s.heap k [nb] m false (get_mini nb) hklem hm
          hsum' hpos2 t hge (by omega)
        rw [hmid1] at this
        exact this
      · rw [hlen2]
        omega
      · rcases Nat.eq_or_lt_of_le hge with he | hlt
        · subst he
          have := splice_blockD_at_m s.heap k [nb] m false (get_mini nb)
            hkle hm
          rw [hmid1] at this
          have e : k + 1 + (m - m) = k + 1 := by omega
          rw [e, this]
        · have := splice_blockD_right s.heap k [nb] m false (get_mini nb) t
            hkle hlt
          rw [hmid1] at this
          rw [this]
      · rcases Nat.eq_or_lt_of_le hge with he | hlt
        · subst he
          have := splice_blockD_at_m s.heap k [nb] m false (get_mini nb)
            hkle hm
          rw [hmid1] at this
          have e : k + 1 + (m - m) = k + 1 := by omega
          rw [e, this]
        · have := splice_blockD_right s.heap k [nb] m false (get_mini nb) t
            hkle hlt
          rw [hmid1] at this
          rw [this]
      · rcases Nat.eq_or_lt_of_le hge with he | hlt
        · subst he
          have := splice_blockD_at_m s.heap k [nb] m false (get_mini nb)
            hkle hm
          rw [hmid1] at this
          have e : k + 1 + (m - m) = k + 1 := by omega
          rw [e, this]
        · have := splice_blockD_right s.heap k [nb] m false (get_mini nb) t
            hkle hlt
          rw [hmid1] at this
          rw [this]
  have hposS : ∀ b ∈ s.heap.dropLast, 0 < b.size := pos_of_blocksOk hbo
  have hwl2 : ListsWF { s'' with
      heap := splice s.heap k [nb] m false (get_mini nb) } := by
    obtain ⟨hwlen, hwreg, hwmini, hwnd⟩ := hwl
    refine ⟨?_, ?_, ?_, ?_⟩
    · show s''.classes.length = NUM_CLASSES
      rw [hs2c, hwlen]
    · intro c hc a ha
      have ha'' : a ∈ getClass s'' c := ha
      have haS : a ∈ getClass s c := hcls c a ha''
      have hro := hwreg c hc a haS
      have hres : idx_at s.heap a = some (entry_idx s a) :=
        entry_idx_resolves s a (Nat.lt_of_succ_lt hro.1)
      have hmemS : a ∈ all_entries s'' := mem_all_entries_of_class ha''
      have hcase := hexcl a hmemS (entry_idx s a) hres
      have haddr : addr_of s.heap (entry_idx s a) = a := idx_at_some_addr hres
      obtain ⟨t', ht1, ht2, ht3, ht4, _⟩ :=
        hframe (entry_idx s a) hro.1 hcase
      rw [haddr] at ht1
      have hei : entry_idx { s'' with
          heap := splice s.heap k [nb] m false (get_mini nb) } a = t' := by
        unfold entry_idx
        simp only [upd_heap_heap]
        rw [ht1]
        rfl
      refine ⟨?_, ?_, ?_, ?_⟩
      · rw [hei]
        simpa using ht2
      · rw [hei]
        simp only [upd_heap_heap]
        rw [ht4]
        exact hro.2.1
      · rw [hei]
        simp only [upd_heap_heap]
        rw [ht3]
        exact hro.2.2.1
      · rw [hei]
        simp only [upd_heap_heap]
        rw [ht3]
        exact hro.2.2.2
    · intro a ha
      have ha'' : a ∈ s''.mini_list := ha
      have haS : a ∈ s.mini_list := hmls a ha''
      have hro := hwmini a haS
      have hres : idx_at s.heap a = some (entry_idx s a) :=
        entry_idx_resolves s a (Nat.lt_of_succ_lt hro.1)
      have hmemS : a ∈ all_entries s'' := mem_all_entries_of_mini ha''
      have hcase := hexcl a hmemS (entry_idx s a) hres
      have haddr : addr_of s.heap (entry_idx s a) = a := idx_at_some_addr hres
      obtain ⟨t', ht1, ht2, ht3, ht4, _⟩ :=
        hframe (entry_idx s a) hro.1 hcase
      rw [haddr] at ht1
      have hei : entry_idx { s'' with
          heap := splice s.heap k [nb] m false (get_mini nb) } a = t' := by
        unfold entry_idx
        simp only [upd_heap_heap]
        rw [ht1]
        rfl
      refine ⟨?_, ?_, ?_⟩
      · rw [hei]
        simpa using ht2
      · rw [hei]
        simp only [upd_heap_heap]
        rw [ht4]
        exact hro.2.1
      · rw [hei]
        simp only [upd_heap_heap]
        rw [ht3]
        exact hro.2.2
    · exact hsub.nodup hwnd
  have hfresh : addr_of (splice s.heap k [nb] m false (get_mini nb)) k ∉
      all_entries { s'' with
        heap := splice s.heap k [nb] m false (get_mini nb) } := by
    rw [haddrk]
    intro hmem
    have hmem'' : addr_of s.heap k ∈ all_entries s'' := hmem
    have hresk : idx_at s.heap (addr_of s.heap k) = some k :=
      idx_at_addr_pos s.heap hposS k (by omega)
    have := hexcl _ hmem'' k hresk
    omega
  refine ⟨hcoh2, hepi2, hbo2, hfo2, hwl2, hfresh, ?_, ?_, hblkk, haddrk,
    ?_, hframe⟩
  · exact splice_map_size_sum s.heap k [nb] m false (get_mini nb) hklem
      (by omega) hsum'
  · rw [hlen2]
    omega
  · rw [hlen2]
    omega

end MM

namespace MM

theorem sum_size_take_succ (h : List Block) (i : Nat) (hi : i < h.length) :
    ((h.take (i + 1)).map Block.size).sum =
      ((h.take i).map Block.size).sum + (blockD h i).size := by
  have := addr_of_succ h i hi
  unfold addr_of at this
  omega

theorem chain'_take_of_take {h : List Block} {n : Nat}
    (hc : List.Chain' flag_ok (h.take n)) {m : Nat} (hmn : m ≤ n) :
    List.Chain' flag_ok (h.take m) := by
  have := hc.prefix (List.take_prefix m (h.take n))
  rwa [List.take_take, min_eq_left hmn] at this

theorem chain'_drop_of_drop {h : List Block} {n : Nat}
    (hc : List.Chain' flag_ok (h.drop n)) {m : Nat} (hnm : n ≤ m) :
    List.Chain' flag_ok (h.drop m) := by
  have h2 := hc.suffix (List.drop_suffix (m - n) (h.drop n))
  rw [List.drop_drop] at h2
  have e : n + (m - n) = m := by omega
  rwa [e] at h2

theorem mem_getClass_set {s : AState} {c0 : Nat} {L : List Nat} {c x : Nat}
    (hx : x ∈ getClass (setClass s c0 L) c) :
    (c0 = c ∧ x ∈ L) ∨ x ∈ getClass s c := by
  unfold getClass setClass at *
  by_cases hcl : c < s.classes.length
  · have hcl' : c < (s.classes.set c0 L).length := by simpa using hcl
    rw [List.getD_eq_getElem _ [] hcl', List.getElem_set] at hx
    by_cases hcc : c0 = c
    · rw [if_pos hcc] at hx
      exact Or.inl ⟨hcc, hx⟩
    · rw [if_neg hcc] at hx
      rw [List.getD_eq_getElem _ [] hcl]
      exact Or.inr hx
  · rw [List.getD_eq_default] at hx
    · exact absurd hx (List.not_mem_nil x)
    · simpa using Nat.le_of_not_lt hcl

theorem getClass_rem_free_subset (s : AState) (a : Nat) (c : Nat) :
    ∀ x ∈ getClass (rem_from_free_list s a) c, x ∈ getClass s c := by
  intro x hx
  rcases mem_getClass_set hx with ⟨hcc, h1⟩ | h1
  · rw [← hcc]
    exact (List.erase_subset _ _) h1
  · exact h1

theorem getClass_rem_mini (s : AState) (a : Nat) (c : Nat) :
    getClass (rem_from_mini_list s a) c = getClass s c := rfl

theorem regEntryOk_heap_eq {s s' : AState} (hh : s'.heap = s.heap)
    {c a : Nat} (hr : RegEntryOk s c a) : RegEntryOk s' c a := by
  unfold RegEntryOk entry_idx at *
  rw [hh]
  exact hr

theorem miniEntryOk_heap_eq {s s' : AState} (hh : s'.heap = s.heap)
    {a : Nat} (hr : MiniEntryOk s a) : MiniEntryOk s' a := by
  unfold MiniEntryOk entry_idx at *
  rw [hh]
  exact hr

theorem listsWF_rem_free (s : AState) (a : Nat) (hw : ListsWF s) :
    ListsWF (rem_from_free_list s a) := by
  obtain ⟨hlen, hreg, hmini, hnd⟩ := hw
  refine ⟨?_, ?_, ?_, ?_⟩
  · show (s.classes.set _ _).length = NUM_CLASSES
    simpa using hlen
  · intro c hc x hx
    exact regEntryOk_heap_eq (rem_from_free_list_heap s a)
      (hreg c hc x (getClass_rem_free_subset s a c x hx))
  · intro x hx
    rw [rem_from_free_list_mini] at hx
    exact miniEntryOk_heap_eq (rem_from_free_list_heap s a) (hmini x hx)
  · exact (all_entries_rem_free s a).nodup hnd

theorem listsWF_rem_mini (s : AState) (a : Nat) (hw : ListsWF s) :
    ListsWF (rem_from_mini_list s a) := by
  obtain ⟨hlen, hreg, hmini, hnd⟩ := hw
  refine ⟨?_, ?_, ?_, ?_⟩
  · exact hlen
  · intro c hc x hx
    rw [getClass_rem_mini] at hx
    exact regEntryOk_heap_eq (rem_from_mini_list_heap s a) (hreg c hc x hx)
  · intro x hx
    rw [rem_from_mini_list_mini] at hx
    exact miniEntryOk_heap_eq (rem_from_mini_list_heap s a)
      (hmini x ((List.erase_subset _ _) hx))
  · exact (all_entries_rem_mini s a).nodup hnd

theorem rem_block_facts (s : AState) (t : Nat) (hw : ListsWF s)
    (hbo : BlocksOk s.heap) (ht : t + 1 < s.heap.length) (s1 : AState)
    (hs1 : s1 = if get_mini (blockD s.heap t) then
        rem_from_mini_list s (addr_of s.heap t)
      else rem_from_free_list s (addr_of s.heap t)) :
    s1.heap = s.heap ∧ s1.budget = s.budget ∧ s1.prologue = s.prologue ∧
    s1.classes.length = s.classes.length ∧
    (all_entries s1).Sublist (all_entries s) ∧
    (∀ c, ∀ x ∈ getClass s1 c, x ∈ getClass s c) ∧
    (∀ x ∈ s1.mini_list, x ∈ s.mini_list) ∧
    ListsWF s1 ∧
    addr_of s.heap t ∉ all_entries s1 := by
  have hres : idx_at s.heap (addr_of s.heap t) = some t :=
    idx_at_addr_pos s.heap (pos_of_blocksOk hbo) t (by omega)
  by_cases hg : get_mini (blockD s.heap t)
  · rw [if_pos hg] at hs1
    subst hs1
    refine ⟨rfl, rfl, rfl, rfl, all_entries_rem_mini s _, ?_, ?_, ?_, ?_⟩
    · intro c x hx
      rw [getClass_rem_mini] at hx
      exact hx
    · intro x hx
      rw [rem_from_mini_list_mini] at hx
      exact (List.erase_subset _ _) hx
    · exact listsWF_rem_mini s _ hw
    · exact not_mem_entries_rem_mini hw hres ((get_mini_iff _).mp hg)
  · rw [if_neg hg] at hs1
    subst hs1
    refine ⟨rfl, rfl, rfl, by simp [rem_from_free_list_classes],
      all_entries_rem_free s _, ?_, ?_, ?_, ?_⟩
    · exact getClass_rem_free_subset s _
    · intro x hx
      rw [rem_from_free_list_mini] at hx
      exact hx
    · exact listsWF_rem_free s _ hw
    · refine not_mem_entries_rem_free hw hres ?_
      intro hsz
      exact hg ((get_mini_iff _).mpr hsz)

end MM

namespace MM

theorem addr_of_le_of_le (h : List Block) (i j : Nat)
    (hpos : ∀ b ∈ h.dropLast, 0 < b.size) (hij : i ≤ j) (hj : j < h.length) :
    addr_of h i ≤ addr_of h j := by
  rcases Nat.eq_or_lt_of_le hij with he | hlt
  · rw [he]
  · exact Nat.le_of_lt (addr_of_lt_of_lt h i j hpos hlt hj)

theorem spliceN_invariants (s s'' : AState) (k m : Nat) (mid : List Block)
    (pa pm : Bool)
    (hkm : k < m) (hm : m < s.heap.length)
    (hct : List.Chain' flag_ok (s.heap.take k))
    (hcd : List.Chain' flag_ok (s.heap.drop m))
    (hjl : ∀ x ∈ (s.heap.take k).getLast?, ∀ y ∈ mid.head?, flag_ok x y)
    (hmidchain : List.Chain' flag_ok mid) (hmidne : mid ≠ [])
    (hjr : ∀ y ∈ mid.getLast?,
      pa = y.alloc ∧ (pm = true ↔ y.size = mb_block_size))
    (hbo : BlocksOk s.heap) (hepi : EpilogueOk s.heap)
    (hfo : FirstOk s.heap)
    (hpa0 : k = 0 → ∀ y ∈ mid.head?, y.prev_alloc = true)
    (hmidsz : ∀ b ∈ mid, mb_block_size ≤ b.size ∧ b.size % dsize = 0)
    (hsum : ((s.heap.take k).map Block.size).sum +
        (mid.map Block.size).sum = ((s.heap.take m).map Block.size).sum)
    (hwl : ListsWF s)
    (hs2c : s''.classes.length = s.classes.length)
    (hsub : (all_entries s'').Sublist (all_entries s))
    (hcls : ∀ c, ∀ a ∈ getClass s'' c, a ∈ getClass s c)
    (hmls : ∀ a ∈ s''.mini_list, a ∈ s.mini_list)
    (hexcl : ∀ a ∈ all_entries s'', ∀ t, idx_at s.heap a = some t →
      t < k ∨ m ≤ t)
    (s' : AState)
    (hs' : s' = { s'' with heap := splice s.heap k mid m pa pm }) :
    Coherent s'.heap ∧ EpilogueOk s'.heap ∧ BlocksOk s'.heap ∧
      FirstOk s'.heap ∧ ListsWF s' ∧
      (∀ j, j < mid.length → addr_of s'.heap (k + j) ∉ all_entries s') ∧
      (s'.heap.map Block.size).sum = (s.heap.map Block.size).sum ∧
      s'.heap.length = k + mid.length + (s.heap.length - m) ∧
      (∀ j, j < mid.length → blockD s'.heap (k + j) = blockD mid j) ∧
      (∀ j, j ≤ mid.length → addr_of s'.heap (k + j) =
        addr_of s.heap k + ((mid.take j).map Block.size).sum) ∧
      (∀ t, t + 1 < s.heap.length → (t < k ∨ m ≤ t) →
        ∃ t', idx_at s'.heap (addr_of s.heap t) = some t' ∧
          t' + 1 < s'.heap.length ∧
          (blockD s'.heap t').size = (blockD s.heap t).size ∧
          (blockD s'.heap t').alloc = (blockD s.heap t).alloc ∧
          (blockD s'.heap t').data = (blockD s.heap t).data) := by
  subst hs'
  simp only [upd_heap_heap]
  have hkle : k ≤ s.heap.length := by omega
  have hklem : k ≤ m := by omega
  have hbo2 : BlocksOk (splice s.heap k mid m pa pm) :=
    splice_blocksOk s.heap k mid m pa pm hklem hm hbo hmidsz
  have hepi2 : EpilogueOk (splice s.heap k mid m pa pm) :=
    splice_epilogueOk s.heap k mid m pa pm hklem hm hepi
  have hfo2 : FirstOk (splice s.heap k mid m pa pm) := by
    refine splice_firstOk s.heap k mid m pa pm hklem hm hfo ?_ ?_
    · intro hk0 hne
      refine hpa0 hk0 (blockD mid 0) ?_
      cases mid with
      | nil => exact absurd rfl hne
      | cons b t => rfl
    · intro _ hx
      exact absurd hx hmidne
  have hpos2 : ∀ b ∈ (splice s.heap k mid m pa pm).dropLast,
      0 < b.size := pos_of_blocksOk hbo2
  have hposS : ∀ b ∈ s.heap.dropLast, 0 < b.size := pos_of_blocksOk hbo
  have hcoh2 : Coherent (splice s.heap k mid m pa pm) := by
    refine splice_coherent2 s.heap k mid m pa pm hct hcd hmidchain ?_ ?_
    · intro x hx y hy
      refine hjl x hx y ?_
      cases mid with
      | nil => exact absurd rfl hmidne
      | cons b t => simpa using hy
    · intro x hx y hy
      rw [set_head_flags_head?, head?_drop_blockD s.heap m hm] at hy
      have hy2 : y = { blockD s.heap m with prev_alloc := pa, prev_mini := pm } :=
        (Option.some.inj (Option.mem_def.mp hy)).symm
      obtain ⟨hj1, hj2⟩ := hjr x hx
      rw [hy2]
      refine ⟨?_, ?_⟩
      · show pa = x.alloc
        exact hj1
      · show pm = true ↔ x.size = mb_block_size
        exact hj2
  have hlen2 : (splice s.heap k mid m pa pm).length =
      k + mid.length + (s.heap.length - m) :=
    splice_length s.heap k mid m pa pm hkle
  have hblk : ∀ j, j < mid.length →
      blockD (splice s.heap k mid m pa pm) (k + j) = blockD mid j := by
    intro j hj
    exact splice_blockD_mid s.heap k mid m pa pm j hj hkle
  have haddr : ∀ j, j ≤ mid.length →
      addr_of (splice s.heap k mid m pa pm) (k + j) =
        addr_of s.heap k + ((mid.take j).map Block.size).sum := by
    intro j hj
    exact splice_addr_mid s.heap k mid m pa pm j hj hkle
  have hframe : ∀ t, t + 1 < s.heap.length → (t < k ∨ m ≤ t) →
      ∃ t', idx_at (splice s.heap k mid m pa pm)
          (addr_of s.heap t) = some t' ∧
        t' + 1 < (splice s.heap k mid m pa pm).length ∧
        (blockD (splice s.heap k mid m pa pm) t').size =
          (blockD s.heap t).size ∧
        (blockD (splice s.heap k mid m pa pm) t').alloc =
          (blockD s.heap t).alloc ∧
        (blockD (splice s.heap k mid m pa pm) t').data =
          (blockD s.heap t).data := by
    intro t ht hcase
    rcases hcase with hlt | hge
    · refine ⟨t, ?_, ?_, ?_, ?_, ?_⟩
      · exact splice_idx_of_lt s.heap k mid m pa pm hklem hm hpos2 t hlt
      · rw [hlen2]
        omega
      · rw [splice_blockD_left s.heap k mid m pa pm t hlt hkle]
      · rw [splice_blockD_left s.heap k mid m pa pm t hlt hkle]
      · rw [splice_blockD_left s.heap k mid m pa pm t hlt hkle]
    · refine ⟨k + mid.length + (t - m), ?_, ?_, ?_, ?_, ?_⟩
      · exact splice_idx_of_ge s.heap k mid m pa pm hklem hm hsum hpos2 t hge
          (by omega)
      · rw [hlen2]
        omega
      · rcases Nat.eq_or_lt_of_le hge with he | hlt
        · subst he
          have h0 := splice_blockD_at_m s.heap k mid m pa pm hkle hm
          have e : k + mid.length + (m - m) = k + mid.length := by omega
          rw [e, h0]
        · rw [splice_blockD_right s.heap k mid m pa pm t hkle hlt]
      · rcases Nat.eq_or_lt_of_le hge with he | hlt
        · subst he
          have h0 := splice_blockD_at_m s.heap k mid m pa pm hkle hm
          have e : k + mid.length + (m - m) = k + mid.length := by omega
          rw [e, h0]
        · rw [splice_blockD_right s.heap k mid m pa pm t hkle hlt]
      · rcases Nat.eq_or_lt_of_le hge with he | hlt
        · subst he
          have h0 := splice_blockD_at_m s.heap k mid m pa pm hkle hm
          have e : k + mid.length + (m - m) = k + mid.length := by omega
          rw [e, h0]
        · rw [splice_blockD_right s.heap k mid m pa pm t hkle hlt]
  have hwl2 : ListsWF { s'' with heap := splice s.heap k mid m pa pm } := by
    obtain ⟨hwlen, hwreg, hwmini, hwnd⟩ := hwl
    refine ⟨?_, ?_, ?_, ?_⟩
    · show s''.classes.length = NUM_CLASSES
      rw [hs2c, hwlen]
    · intro c hc a ha
      have ha'' : a ∈ getClass s'' c := ha
      have haS : a ∈ getClass s c := hcls c a ha''
      have hro := hwreg c hc a haS
      have hres : idx_at s.heap a = some (entry_idx s a) :=
        entry_idx_resolves s a (Nat.lt_of_succ_lt hro.1)
      have hmemS : a ∈ all_entries s'' := mem_all_entries_of_class ha''
      have hcase := hexcl a hmemS (entry_idx s a) hres
      have haddr2 : addr_of s.heap (entry_idx s a) = a := idx_at_some_addr hres
      obtain ⟨t', ht1, ht2, ht3, ht4, _⟩ :=
        hframe (entry_idx s a) hro.1 hcase
      rw [haddr2] at ht1
      have hei : entry_idx { s'' with
          heap := splice s.heap k mid m pa pm } a = t' := by
        unfold entry_idx
        simp only [upd_heap_heap]
        rw [ht1]
        rfl
      refine ⟨?_, ?_, ?_, ?_⟩
      · rw [hei]
        simpa using ht2
      · rw [hei]
        simp only [upd_heap_heap]
        rw [ht4]
        exact hro.2.1
      · rw [hei]
        simp only [upd_heap_heap]
        rw [ht3]
        exact hro.2.2.1
      · rw [hei]
        simp only [upd_heap_heap]
        rw [ht3]
        exact hro.2.2.2
    · intro a ha
      have ha'' : a ∈ s''.mini_list := ha
      have haS : a ∈ s.mini_list := hmls a ha''
      have hro := hwmini a haS
      have hres : idx_at s.heap a = some (entry_idx s a) :=
        entry_idx_resolves s a (Nat.lt_of_succ_lt hro.1)
      have hmemS : a ∈ all_entries s'' := mem_all_entries_of_mini ha''
      have hcase := hexcl a hmemS (entry_idx s a) hres
      have haddr2 : addr_of s.heap (entry_idx s a) = a := idx_at_some_addr hres
      obtain ⟨t', ht1, ht2, ht3, ht4, _⟩ :=
        hframe (entry_idx s a) hro.1 hcase
      rw [haddr2] at ht1
      have hei : entry_idx { s'' with
          heap := splice s.heap k mid m pa pm } a = t' := by
        unfold entry_idx
        simp only [upd_heap_heap]
        rw [ht1]
        rfl
      refine ⟨?_, ?_, ?_⟩
      · rw [hei]
        simpa using ht2
      · rw [hei]
        simp only [upd_heap_heap]
        rw [ht4]
        exact hro.2.1
      · rw [hei]
        simp only [upd_heap_heap]
        rw [ht3]
        exact hro.2.2
    · exact hsub.nodup hwnd
  have hfresh : ∀ j, j < mid.length →
      addr_of (splice s.heap k mid m pa pm) (k + j) ∉
        all_entries { s'' with heap := splice s.heap k mid m pa pm } := by
    intro j hj hmem
    have hmem'' : addr_of (splice s.heap k mid m pa pm) (k + j) ∈
        all_entries s'' := hmem
    have hmemS : addr_of (splice s.heap k mid m pa pm) (k + j) ∈
        all_entries s := hsub.mem hmem''
    have hfacts := listsWF_entry_facts hwl hmemS
    have hres : idx_at s.heap (addr_of (splice s.heap k mid m pa pm) (k + j)) =
        some (entry_idx s (addr_of (splice s.heap k mid m pa pm) (k + j))) :=
      entry_idx_resolves s _ (Nat.lt_of_succ_lt hfacts.1)
    have hcase := hexcl _ hmem'' _ hres
    have haeq : addr_of s.heap
        (entry_idx s (addr_of (splice s.heap k mid m pa pm) (k + j))) =
        addr_of (splice s.heap k mid m pa pm) (k + j) :=
      idx_at_some_addr hres
    have haj : addr_of (splice s.heap k mid m pa pm) (k + j) =
        addr_of s.heap k + ((mid.take j).map Block.size).sum :=
      haddr j (by omega)
    have hmidpos : ∀ b ∈ mid, 0 < b.size := by
      intro b hb
      have := hmidsz b hb
      unfold mb_block_size at this
      omega
    rcases hcase with hlt | hge
    · -- an entry resolving below k has address strictly below addr k
      have : addr_of s.heap (entry_idx s _) < addr_of s.heap k :=
        addr_of_lt_of_lt s.heap _ k hposS hlt (by omega)
      rw [haeq, haj] at this
      omega
    · -- an entry resolving at или beyond m has address at least addr m
      have hage : addr_of s.heap m ≤ addr_of s.heap (entry_idx s _) :=
        addr_of_le_of_le s.heap m _ hposS hge (Nat.lt_of_succ_lt hfacts.1)
      have hmaddr : addr_of s.heap m =
          addr_of s.heap k + (mid.map Block.size).sum := by
        unfold addr_of
        omega
      have htj : ((mid.take j).map Block.size).sum <
          (mid.map Block.size).sum := by
        have hdecomp : (mid.map Block.size).sum =
            ((mid.take j).map Block.size).sum +
              ((mid.drop j).map Block.size).sum := by
          conv_lhs => rw [← List.take_append_drop j mid]
          rw [List.map_append, List.sum_append]
        have hdropne : mid.drop j ≠ [] := by
          intro hx
          have := List.length_drop j mid
          rw [hx] at this
          simp at this
          omega
        have hpos1 : 0 < ((mid.drop j).map Block.size).sum := by
          cases hdj : mid.drop j with
          | nil => exact absurd hdj hdropne
          | cons b tl =>
            have hbmem : b ∈ mid := by
              have : b ∈ mid.drop j := by rw [hdj]; exact List.mem_cons_self b tl
              exact List.mem_of_mem_drop this
            have := hmidpos b hbmem
            simp only [List.map_cons, List.sum_cons]
            omega
        omega
      rw [haeq, haj] at hage
      omega
  exact ⟨hcoh2, hepi2, hbo2, hfo2, hwl2, hfresh, splice_map_size_sum s.heap k
    mid m pa pm hklem (by omega) hsum, hlen2, hblk, haddr, hframe⟩

end MM

namespace MM

theorem take_succ_blockD (h : List Block) (i : Nat) (hi : i < h.length) :
    h.take (i + 1) = h.take i ++ [blockD h i] := by
  rw [List.take_succ]
  congr 1
  rw [List.getElem?_eq_getElem hi]
  unfold blockD
  rw [List.getD_eq_getElem h default hi]
  rfl


theorem mem_getLast?_singleton {α : Type} {b y : α}
    (h : y ∈ ([b] : List α).getLast?) : y = b := by
  simp at h
  exact h.symm

theorem mem_head?_cons {α : Type} {b : α} {t : List α} {y : α}
    (h : y ∈ (b :: t).head?) : y = b := by
  simp at h
  exact h.symm

theorem coalesce_spec (s : AState) (i : Nat)
    (hlen : i + 1 < s.heap.length)
    (halloc : (blockD s.heap i).alloc = false)
    (hc1 : List.Chain' flag_ok (s.heap.take (i + 1)))
    (hc2 : List.Chain' flag_ok (s.heap.drop (i + 1)))
    (hbo : BlocksOk s.heap) (hepi : EpilogueOk s.heap) (hfo : FirstOk s.heap)
    (hwl : ListsWF s)
    (haB : addr_of s.heap i ∉ all_entries s) :
    Coherent (coalesce_block s i).1.heap ∧
    EpilogueOk (coalesce_block s i).1.heap ∧
    BlocksOk (coalesce_block s i).1.heap ∧
    FirstOk (coalesce_block s i).1.heap ∧
    ListsWF (coalesce_block s i).1 ∧
    (coalesce_block s i).2 + 1 < (coalesce_block s i).1.heap.length ∧
    addr_of (coalesce_block s i).1.heap (coalesce_block s i).2 ∉
      all_entries (coalesce_block s i).1 ∧
    (blockD (coalesce_block s i).1.heap (coalesce_block s i).2).alloc = false ∧
    (blockD s.heap i).size ≤
      (blockD (coalesce_block s i).1.heap (coalesce_block s i).2).size ∧
    ((coalesce_block s i).1.heap.map Block.size).sum =
      (s.heap.map Block.size).sum ∧
    (coalesce_block s i).1.budget = s.budget ∧
    (coalesce_block s i).1.prologue = s.prologue ∧
    (coalesce_block s i).1.classes.length = s.classes.length ∧
    (∀ t, t + 1 < s.heap.length → (blockD s.heap t).alloc = true →
      ∃ t', idx_at (coalesce_block s i).1.heap (addr_of s.heap t) = some t' ∧
        t' + 1 < (coalesce_block s i).1.heap.length ∧
        (blockD (coalesce_block s i).1.heap t').size =
          (blockD s.heap t).size ∧
        (blockD (coalesce_block s i).1.heap t').alloc = true ∧
        (blockD (coalesce_block s i).1.heap t').data =
          (blockD s.heap t).data) ∧
    (∀ i', idx_at (coalesce_block s i).1.heap (addr_of s.heap i) = some i' →
      (blockD (coalesce_block s i).1.heap i').alloc = false) := by
  have hposS : ∀ b ∈ s.heap.dropLast, 0 < b.size := pos_of_blocksOk hbo
  have hBsz := (blocksOk_iff_index s.heap).mp hbo i hlen
  have hresB : idx_at s.heap (addr_of s.heap i) = some i :=
    idx_at_addr_pos s.heap hposS i (by omega)
  by_cases hpb : (blockD s.heap i).prev_alloc = true
  · by_cases hxa : (blockD s.heap (i + 1)).alloc = true
    · -- case AA
      rw [coalesce_block_AA s i (Or.inl hpb) (Or.inr hxa)]
      have hs' : ({ s with heap := s.heap.take (i + 1) ++ set_head_flags false (get_mini (blockD s.heap i)) (s.heap.drop (i + 1)) } : AState) = { s with heap := splice s.heap i [blockD s.heap i] (i + 1) false (get_mini (blockD s.heap i)) } := by
        unfold splice
        rw [take_succ_blockD s.heap i (by omega)]
      have hexcl : ∀ a ∈ all_entries s, ∀ t, idx_at s.heap a = some t →
          t < i ∨ i + 1 ≤ t := by
        intro a ha t ht
        by_contra hcon
        push_neg at hcon
        have hti : t = i := by omega
        subst hti
        have : addr_of s.heap t = a := idx_at_some_addr ht
        rw [← this] at ha
        exact haB ha
      obtain ⟨o1, o2, o3, o4, o5, o6, o7, o8, o9, o10, o11⟩ :=
        spliceN_invariants s s i (i + 1) [blockD s.heap i] false
          (get_mini (blockD s.heap i))
          (by omega) hlen
          (chain'_take_of_take hc1 (by omega)) hc2
          (by
            intro x hx y hy
            have hy' : y = blockD s.heap i := by
              have := hy
              simp at this
              exact this.symm
            subst hy'
            by_cases hi0 : i = 0
            · subst hi0
              simp at hx
            · rw [getLast?_take_blockD s.heap i (by omega) (by omega)] at hx
              have hx' : x = blockD s.heap (i - 1) := by
                have := hx
                simp at this
                exact this.symm
              subst hx'
              have hp := chain'_take_pair s.heap (i + 1) hc1 (i - 1)
                (by omega) (by omega)
              have e : i - 1 + 1 = i := by omega
              rw [e] at hp
              exact hp)
          (List.chain'_singleton _) (by simp)
          (by
            intro y hy
            have hy' : y = blockD s.heap i := by
              have := hy
              simp at this
              exact this.symm
            subst hy'
            exact ⟨halloc.symm, get_mini_iff _⟩)
          hbo hepi hfo
          (by
            intro hk0 y hy
            have hy' : y = blockD s.heap i := by
              have := hy
              simp at this
              exact this.symm
            subst hy'
            subst hk0
            exact hfo (by intro hx; rw [hx] at hlen; simp at hlen))
          (by
            intro b hb
            have hb' : b = blockD s.heap i := by
              have := hb
              simp at this
              exact this
            subst hb'
            exact hBsz)
          (by
            simp only [List.map_cons, List.map_nil, List.sum_cons,
              List.sum_nil, Nat.add_zero]
            exact (sum_size_take_succ s.heap i (by omega)).symm)
          hwl rfl (List.Sublist.refl _) (fun c a h => h) (fun a h => h)
          hexcl _ hs'
      refine ⟨o1, o2, o3, o4, o5, ?_, ?_, ?_, ?_, o7, rfl, rfl, rfl, ?_, ?_⟩
      · rw [o8]
        simp only [List.length_cons, List.length_nil]
        omega
      · have := o6 0 (by simp)
        simpa using this
      · have := o9 0 (by simp)
        simp only [Nat.add_zero] at this
        rw [this]
        exact halloc
      · have := o9 0 (by simp)
        simp only [Nat.add_zero] at this
        rw [this]
        exact Nat.le_refl _
      · intro t ht hta
        have htne : t < i ∨ i + 1 ≤ t := by
          by_contra hcon
          push_neg at hcon
          have : t = i := by omega
          subst this
          rw [halloc] at hta
          exact Bool.false_ne_true hta
        obtain ⟨t', h1, h2, h3, h4, h5⟩ := o11 t ht htne
        exact ⟨t', h1, h2, h3, by rw [h4]; exact hta, h5⟩
      · intro i' hi'
        have haddr0 := o10 0 (by simp)
        simp only [Nat.add_zero, List.take_zero, List.map_nil, List.sum_nil] at haddr0
        have hres := idx_at_addr_pos _ (pos_of_blocksOk o3) i
          (by rw [o8]; simp only [List.length_cons, List.length_nil]; omega)
        rw [haddr0] at hres
        rw [hres] at hi'
        have hii : i' = i := (Option.some.inj hi').symm
        subst hii
        have h9 := o9 0 (by simp)
        simp only [Nat.add_zero] at h9
        rw [h9]
        exact halloc
    · -- case AF
      have hxa' : (blockD s.heap (i + 1)).alloc = false := by
        simpa using hxa
      have hX2 : i + 2 < s.heap.length := by
        by_contra hcon
        have he : i + 1 = s.heap.length - 1 := by omega
        have h1 := hepi.2.2
        rw [← he] at h1
        rw [h1] at hxa'
        exact absurd hxa' (by decide)
      have hXsz := (blocksOk_iff_index s.heap).mp hbo (i + 1) hX2
      rw [coalesce_block_AF s i (Or.inl hpb) hlen hxa']
      dsimp only []
      set s1 : AState := if get_mini (blockD s.heap (i + 1)) then rem_from_mini_list s (addr_of s.heap (i + 1)) else rem_from_free_list s (addr_of s.heap (i + 1)) with hs1def
      obtain ⟨r1, r2, r3, r4, r5, r6, r7, r8, r9⟩ :=
        rem_block_facts s (i + 1) hwl hbo hX2 s1 hs1def
      have hs' : ({ s1 with heap := s.heap.take i ++ { blockD s.heap i with size := (blockD s.heap i).size + (blockD s.heap (i + 1)).size, alloc := false, data := (blockD s.heap i).data ++ header_bytes (blockD s.heap (i + 1)) ++ (blockD s.heap (i + 1)).data } :: set_head_flags false false (s.heap.drop (i + 2)) } : AState) = { s1 with heap := splice s.heap i [{ blockD s.heap i with size := (blockD s.heap i).size + (blockD s.heap (i + 1)).size, alloc := false, data := (blockD s.heap i).data ++ header_bytes (blockD s.heap (i + 1)) ++ (blockD s.heap (i + 1)).data }] (i + 2) false false } := by
        unfold splice
        simp only [List.append_assoc, List.singleton_append]
      have hexcl : ∀ a ∈ all_entries s1, ∀ t, idx_at s.heap a = some t →
          t < i ∨ i + 2 ≤ t := by
        intro a ha t ht
        by_contra hcon
        push_neg at hcon
        have hti : t = i ∨ t = i + 1 := by omega
        have haddr : addr_of s.heap t = a := idx_at_some_addr ht
        rcases hti with h1 | h1
        · subst h1
          rw [← haddr] at ha
          exact haB (r5.mem ha)
        · subst h1
          rw [← haddr] at ha
          exact r9 ha
      obtain ⟨o1, o2, o3, o4, o5, o6, o7, o8, o9, o10, o11⟩ :=
        spliceN_invariants s s1 i (i + 2) [{ blockD s.heap i with size := (blockD s.heap i).size + (blockD s.heap (i + 1)).size, alloc := false, data := (blockD s.heap i).data ++ header_bytes (blockD s.heap (i + 1)) ++ (blockD s.heap (i + 1)).data }] false false
          (by omega) hX2
          (chain'_take_of_take hc1 (by omega))
          (chain'_drop_of_drop hc2 (by omega))
          (by
            intro x hx y hy
            have hy' := mem_head?_cons hy
            subst hy'
            by_cases hi0 : i = 0
            · subst hi0
              simp at hx
            · rw [getLast?_take_blockD s.heap i (by omega) (by omega)] at hx
              have hx' : x = blockD s.heap (i - 1) := by
                have := hx
                simp at this
                exact this.symm
              subst hx'
              have hp := chain'_take_pair s.heap (i + 1) hc1 (i - 1)
                (by omega) (by omega)
              have e : i - 1 + 1 = i := by omega
              rw [e] at hp
              exact hp)
          (List.chain'_singleton _) (by simp)
          (by
            intro y hy
            have hy' := mem_getLast?_singleton hy
            subst hy'
            refine ⟨rfl, ?_⟩
            constructor
            · intro h
              exact absurd h (by decide)
            · intro h
              exfalso
              have h' : (blockD s.heap i).size + (blockD s.heap (i + 1)).size = mb_block_size := h
              have hb1 : mb_block_size ≤ (blockD s.heap i).size := hBsz.1
              have hb2 : mb_block_size ≤ (blockD s.heap (i + 1)).size := hXsz.1
              unfold mb_block_size at h' hb1 hb2
              omega)
          hbo hepi hfo
          (by
            intro hk0 y hy
            have hy' := mem_head?_cons hy
            subst hy'
            exact hpb)
          (by
            intro b hb
            have hb' := List.mem_singleton.mp hb
            subst hb'
            have hb1 := hBsz
            have hb2 := hXsz
            unfold mb_block_size dsize at hb1 hb2 ⊢
            show 16 ≤ (blockD s.heap i).size + (blockD s.heap (i + 1)).size ∧ ((blockD s.heap i).size + (blockD s.heap (i + 1)).size) % 16 = 0
            omega)
          (by
            have e1 := sum_size_take_succ s.heap i (by omega)
            have e2 : ((s.heap.take (i + 2)).map Block.size).sum = ((s.heap.take (i + 1)).map Block.size).sum + (blockD s.heap (i + 1)).size := sum_size_take_succ s.heap (i + 1) (by omega)
            simp only [List.map_cons, List.map_nil, List.sum_cons,
              List.sum_nil, Nat.add_zero]
            show ((s.heap.take i).map Block.size).sum + ((blockD s.heap i).size + (blockD s.heap (i + 1)).size) = ((s.heap.take (i + 2)).map Block.size).sum
            omega)
          hwl r4 r5 r6 r7 hexcl _ hs'
      refine ⟨o1, o2, o3, o4, o5, ?_, ?_, ?_, ?_, o7, r2, r3, r4, ?_, ?_⟩
      · rw [o8]
        simp only [List.length_cons, List.length_nil]
        omega
      · have := o6 0 (by simp)
        simpa using this
      · have := o9 0 (by simp)
        simp only [Nat.add_zero] at this
        rw [this]
        rfl
      · have := o9 0 (by simp)
        simp only [Nat.add_zero] at this
        rw [this]
        show (blockD s.heap i).size ≤ (blockD s.heap i).size + (blockD s.heap (i + 1)).size
        omega
      · intro t ht hta
        have htne : t < i ∨ i + 2 ≤ t := by
          by_contra hcon
          push_neg at hcon
          have hti : t = i ∨ t = i + 1 := by omega
          rcases hti with h1 | h1
          · subst h1
            rw [halloc] at hta
            exact absurd hta (by decide)
          · subst h1
            rw [hxa'] at hta
            exact absurd hta (by decide)
        obtain ⟨t', h1, h2, h3, h4, h5⟩ := o11 t ht htne
        exact ⟨t', h1, h2, h3, by rw [h4]; exact hta, h5⟩
      · intro i' hi'
        have haddr0 := o10 0 (by simp)
        simp only [Nat.add_zero, List.take_zero, List.map_nil, List.sum_nil] at haddr0
        have hres := idx_at_addr_pos _ (pos_of_blocksOk o3) i
          (by rw [o8]; simp only [List.length_cons, List.length_nil]; omega)
        rw [haddr0] at hres
        rw [hres] at hi'
        have hii : i' = i := (Option.some.inj hi').symm
        subst hii
        have h9 := o9 0 (by simp)
        simp only [Nat.add_zero] at h9
        rw [h9]
        rfl
  · -- prev free cases
    have hpb' : (blockD s.heap i).prev_alloc = false := by
      simpa using hpb
    have hne : s.heap ≠ [] := by
      intro hx
      rw [hx] at hlen
      simp at hlen
    have hi0 : i ≠ 0 := by
      intro h0
      have h1 := hfo hne
      rw [h0] at hpb'
      rw [hpb'] at h1
      exact absurd h1 (by decide)
    have hPsz := (blocksOk_iff_index s.heap).mp hbo (i - 1) (by omega)
    have hPpair : flag_ok (blockD s.heap (i - 1)) (blockD s.heap i) := by
      have hp := chain'_take_pair s.heap (i + 1) hc1 (i - 1) (by omega) (by omega)
      have e : i - 1 + 1 = i := by omega
      rw [e] at hp
      exact hp
    have hjlP : ∀ x ∈ (s.heap.take (i - 1)).getLast?,
        ∀ y ∈ ([{ blockD s.heap (i - 1) with size := (blockD s.heap i).size + (blockD s.heap (i - 1)).size, alloc := false, data := (blockD s.heap (i - 1)).data ++ header_bytes (blockD s.heap i) ++ (blockD s.heap i).data }] : List Block).head?, flag_ok x y ∨ True := by
      intro x hx y hy
      exact Or.inr trivial
    by_cases hxa : (blockD s.heap (i + 1)).alloc = true
    · -- case FA
      rw [coalesce_block_FA s i hpb' hi0 (Or.inr hxa)]
      dsimp only []
      set s1 : AState := if get_mini (blockD s.heap (i - 1)) then rem_from_mini_list s (addr_of s.heap (i - 1)) else rem_from_free_list s (addr_of s.heap (i - 1)) with hs1def
      obtain ⟨r1, r2, r3, r4, r5, r6, r7, r8, r9⟩ :=
        rem_block_facts s (i - 1) hwl hbo (by omega) s1 hs1def
      have hs' : ({ s1 with heap := s.heap.take (i - 1) ++ { blockD s.heap (i - 1) with size := (blockD s.heap i).size + (blockD s.heap (i - 1)).size, alloc := false, data := (blockD s.heap (i - 1)).data ++ header_bytes (blockD s.heap i) ++ (blockD s.heap i).data } :: set_head_flags false false (s.heap.drop (i + 1)) } : AState) = { s1 with heap := splice s.heap (i - 1) [{ blockD s.heap (i - 1) with size := (blockD s.heap i).size + (blockD s.heap (i - 1)).size, alloc := false, data := (blockD s.heap (i - 1)).data ++ header_bytes (blockD s.heap i) ++ (blockD s.heap i).data }] (i + 1) false false } := by
        unfold splice
        simp only [List.append_assoc, List.singleton_append]
      have hexcl : ∀ a ∈ all_entries s1, ∀ t, idx_at s.heap a = some t →
          t < i - 1 ∨ i + 1 ≤ t := by
        intro a ha t ht
        by_contra hcon
        push_neg at hcon
        have hti : t = i - 1 ∨ t = i := by omega
        have haddr : addr_of s.heap t = a := idx_at_some_addr ht
        rcases hti with h1 | h1
        · subst h1
          rw [← haddr] at ha
          exact r9 ha
        · subst h1
          rw [← haddr] at ha
          exact haB (r5.mem ha)
      obtain ⟨o1, o2, o3, o4, o5, o6, o7, o8, o9, o10, o11⟩ :=
        spliceN_invariants s s1 (i - 1) (i + 1) [{ blockD s.heap (i - 1) with size := (blockD s.heap i).size + (blockD s.heap (i - 1)).size, alloc := false, data := (blockD s.heap (i - 1)).data ++ header_bytes (blockD s.heap i) ++ (blockD s.heap i).data }] false false
          (by omega) hlen
          (chain'_take_of_take hc1 (by omega)) hc2
          (by
            intro x hx y hy
            have hy' := mem_head?_cons hy
            subst hy'
            by_cases hi1 : i - 1 = 0
            · rw [hi1] at hx
              simp at hx
            · rw [getLast?_take_blockD s.heap (i - 1) (by omega) (by omega)] at hx
              have hx' : x = blockD s.heap (i - 1 - 1) := by
                have := hx
                simp at this
                exact this.symm
              subst hx'
              have hp := chain'_take_pair s.heap (i + 1) hc1 (i - 1 - 1)
                (by omega) (by omega)
              have e : i - 1 - 1 + 1 = i - 1 := by omega
              rw [e] at hp
              exact hp)
          (List.chain'_singleton _) (by simp)
          (by
            intro y hy
            have hy' := mem_getLast?_singleton hy
            subst hy'
            refine ⟨rfl, ?_⟩
            constructor
            · intro h
              exact absurd h (by decide)
            · intro h
              exfalso
              have h' : (blockD s.heap i).size + (blockD s.heap (i - 1)).size = mb_block_size := h
              have hb1 : mb_block_size ≤ (blockD s.heap i).size := hBsz.1
              have hb2 : mb_block_size ≤ (blockD s.heap (i - 1)).size := hPsz.1
              unfold mb_block_size at h' hb1 hb2
              omega)
          hbo hepi hfo
          (by
            intro hk0 y hy
            have hy' := mem_head?_cons hy
            subst hy'
            show (blockD s.heap (i - 1)).prev_alloc = true
            rw [hk0]
            exact hfo hne)
          (by
            intro b hb
            have hb' := List.mem_singleton.mp hb
            subst hb'
            have hb1 := hBsz
            have hb2 := hPsz
            unfold mb_block_size dsize at hb1 hb2 ⊢
            show 16 ≤ (blockD s.heap i).size + (blockD s.heap (i - 1)).size ∧ ((blockD s.heap i).size + (blockD s.heap (i - 1)).size) % 16 = 0
            omega)
          (by
            have e1 : ((s.heap.take i).map Block.size).sum = ((s.heap.take (i - 1)).map Block.size).sum + (blockD s.heap (i - 1)).size := by
              have e0 := sum_size_take_succ s.heap (i - 1) (by omega)
              have e : i - 1 + 1 = i := by omega
              rw [e] at e0
              exact e0
            have e2 := sum_size_take_succ s.heap i (by omega)
            simp only [List.map_cons, List.map_nil, List.sum_cons,
              List.sum_nil, Nat.add_zero]
            show ((s.heap.take (i - 1)).map Block.size).sum + ((blockD s.heap i).size + (blockD s.heap (i - 1)).size) = ((s.heap.take (i + 1)).map Block.size).sum
            omega)
          hwl r4 r5 r6 r7 hexcl _ hs'
      refine ⟨o1, o2, o3, o4, o5, ?_, ?_, ?_, ?_, o7, r2, r3, r4, ?_, ?_⟩
      · rw [o8]
        simp only [List.length_cons, List.length_nil]
        omega
      · have := o6 0 (by simp)
        simpa using this
      · have := o9 0 (by simp)
        simp only [Nat.add_zero] at this
        rw [this]
        rfl
      · have := o9 0 (by simp)
        simp only [Nat.add_zero] at this
        rw [this]
        show (blockD s.heap i).size ≤ (blockD s.heap i).size + (blockD s.heap (i - 1)).size
        omega
      · intro t ht hta
        have htne : t < i - 1 ∨ i + 1 ≤ t := by
          by_contra hcon
          push_neg at hcon
          have hti : t = i - 1 ∨ t = i := by omega
          rcases hti with h1 | h1
          · have hPa : (blockD s.heap (i - 1)).alloc = false := by
              have := hPpair.1
              rw [hpb'] at this
              exact this.symm
            subst h1
            rw [hPa] at hta
            exact absurd hta (by decide)
          · subst h1
            rw [halloc] at hta
            exact absurd hta (by decide)
        obtain ⟨t', h1, h2, h3, h4, h5⟩ := o11 t ht htne
        exact ⟨t', h1, h2, h3, by rw [h4]; exact hta, h5⟩
      · intro i' hi'
        exfalso
        have haddr0 := o10 0 (by simp)
        simp only [Nat.add_zero, List.take_zero, List.map_nil, List.sum_nil] at haddr0
        have h9 := o9 0 (by simp)
        simp only [Nat.add_zero] at h9
        have hsucc : addr_of s.heap i =
            addr_of s.heap (i - 1) + (blockD s.heap (i - 1)).size := by
          have h0 := addr_of_succ s.heap (i - 1) (by omega)
          rw [show i - 1 + 1 = i by omega] at h0
          exact h0
        have h16P : mb_block_size ≤ (blockD s.heap (i - 1)).size := hPsz.1
        have h16B : mb_block_size ≤ (blockD s.heap i).size := hBsz.1
        have hnone := idx_at_strictly_between _ (addr_of s.heap i)
          (pos_of_blocksOk o3) (i - 1)
          (by rw [o8]; simp only [List.length_cons, List.length_nil]; omega)
          (by
            rw [haddr0, hsucc]
            unfold mb_block_size at h16P
            omega)
          (by
            rw [haddr0, h9, hsucc]
            show addr_of s.heap (i - 1) + (blockD s.heap (i - 1)).size <
              addr_of s.heap (i - 1) + ((blockD s.heap i).size + (blockD s.heap (i - 1)).size)
            unfold mb_block_size at h16B
            omega)
        rw [hnone] at hi'
        exact Option.noConfusion hi'
    · -- case FF
      have hxa' : (blockD s.heap (i + 1)).alloc = false := by
        simpa using hxa
      have hX2 : i + 2 < s.heap.length := by
        by_contra hcon
        have he : i + 1 = s.heap.length - 1 := by omega
        have h1 := hepi.2.2
        rw [← he] at h1
        rw [h1] at hxa'
        exact absurd hxa' (by decide)
      have hXsz := (blocksOk_iff_index s.heap).mp hbo (i + 1) hX2
      rw [coalesce_block_FF s i hpb' hi0 hlen hxa']
      dsimp only []
      set s1 : AState := if get_mini (blockD s.heap (i - 1)) then rem_from_mini_list s (addr_of s.heap (i - 1)) else rem_from_free_list s (addr_of s.heap (i - 1)) with hs1def
      obtain ⟨r1, r2, r3, r4, r5, r6, r7, r8, r9⟩ :=
        rem_block_facts s (i - 1) hwl hbo (by omega) s1 hs1def
      set s2 : AState := if get_mini (blockD s.heap (i + 1)) then rem_from_mini_list s1 (addr_of s.heap (i + 1)) else rem_from_free_list s1 (addr_of s.heap (i + 1)) with hs2def
      have hs2def' : s2 = if get_mini (blockD s1.heap (i + 1)) then rem_from_mini_list s1 (addr_of s1.heap (i + 1)) else rem_from_free_list s1 (addr_of s1.heap (i + 1)) := by
        rw [hs2def, r1]
      obtain ⟨q1, q2, q3, q4, q5, q6, q7, q8, q9⟩ :=
        rem_block_facts s1 (i + 1) r8 (by rw [r1]; exact hbo)
          (by rw [r1]; omega) s2 hs2def'
      have q1' : s2.heap = s.heap := by
        rw [q1, r1]
      have q9' : addr_of s.heap (i + 1) ∉ all_entries s2 := by
        rw [← r1]
        exact q9
      have hs' : ({ s2 with heap := s.heap.take (i - 1) ++ { blockD s.heap (i - 1) with size := (blockD s.heap i).size + (blockD s.heap (i - 1)).size + (blockD s.heap (i + 1)).size, alloc := false, data := (blockD s.heap (i - 1)).data ++ header_bytes (blockD s.heap i) ++ (blockD s.heap i).data ++ header_bytes (blockD s.heap (i + 1)) ++ (blockD s.heap (i + 1)).data } :: set_head_flags false false (s.heap.drop (i + 2)) } : AState) = { s2 with heap := splice s.heap (i - 1) [{ blockD s.heap (i - 1) with size := (blockD s.heap i).size + (blockD s.heap (i - 1)).size + (blockD s.heap (i + 1)).size, alloc := false, data := (blockD s.heap (i - 1)).data ++ header_bytes (blockD s.heap i) ++ (blockD s.heap i).data ++ header_bytes (blockD s.heap (i + 1)) ++ (blockD s.heap (i + 1)).data }] (i + 2) false false } := by
        unfold splice
        simp only [List.append_assoc, List.singleton_append]
      have hexcl : ∀ a ∈ all_entries s2, ∀ t, idx_at s.heap a = some t →
          t < i - 1 ∨ i + 2 ≤ t := by
        intro a ha t ht
        by_contra hcon
        push_neg at hcon
        have hti : t = i - 1 ∨ t = i ∨ t = i + 1 := by omega
        have haddr : addr_of s.heap t = a := idx_at_some_addr ht
        rcases hti with h1 | h1 | h1
        · subst h1
          rw [← haddr] at ha
          exact r9 (q5.mem ha)
        · subst h1
          rw [← haddr] at ha
          exact haB (r5.mem (q5.mem ha))
        · subst h1
          rw [← haddr] at ha
          exact q9' ha
      obtain ⟨o1, o2, o3, o4, o5, o6, o7, o8, o9, o10, o11⟩ :=
        spliceN_invariants s s2 (i - 1) (i + 2) [{ blockD s.heap (i - 1) with size := (blockD s.heap i).size + (blockD s.heap (i - 1)).size + (blockD s.heap (i + 1)).size, alloc := false, data := (blockD s.heap (i - 1)).data ++ header_bytes (blockD s.heap i) ++ (blockD s.heap i).data ++ header_bytes (blockD s.heap (i + 1)) ++ (blockD s.heap (i + 1)).data }] false false
          (by omega) hX2
          (chain'_take_of_take hc1 (by omega))
          (chain'_drop_of_drop hc2 (by omega))
          (by
            intro x hx y hy
            have hy' := mem_head?_cons hy
            subst hy'
            by_cases hi1 : i - 1 = 0
            · rw [hi1] at hx
              simp at hx
            · rw [getLast?_take_blockD s.heap (i - 1) (by omega) (by omega)] at hx
              have hx' : x = blockD s.heap (i - 1 - 1) := by
                have := hx
                simp at this
                exact this.symm
              subst hx'
              have hp := chain'_take_pair s.heap (i + 1) hc1 (i - 1 - 1)
                (by omega) (by omega)
              have e : i - 1 - 1 + 1 = i - 1 := by omega
              rw [e] at hp
              exact hp)
          (List.chain'_singleton _) (by simp)
          (by
            intro y hy
            have hy' := mem_getLast?_singleton hy
            subst hy'
            refine ⟨rfl, ?_⟩
            constructor
            · intro h
              exact absurd h (by decide)
            · intro h
              exfalso
              have h' : (blockD s.heap i).size + (blockD s.heap (i - 1)).size + (blockD s.heap (i + 1)).size = mb_block_size := h
              have hb1 : mb_block_size ≤ (blockD s.heap i).size := hBsz.1
              have hb2 : mb_block_size ≤ (blockD s.heap (i - 1)).size := hPsz.1
              unfold mb_block_size at h' hb1 hb2
              omega)
          hbo hepi hfo
          (by
            intro hk0 y hy
            have hy' := mem_head?_cons hy
            subst hy'
            show (blockD s.heap (i - 1)).prev_alloc = true
            rw [hk0]
            exact hfo hne)
          (by
            intro b hb
            have hb' := List.mem_singleton.mp hb
            subst hb'
            have hb1 := hBsz
            have hb2 := hPsz
            have hb3 := hXsz
            unfold mb_block_size dsize at hb1 hb2 hb3 ⊢
            show 16 ≤ (blockD s.heap i).size + (blockD s.heap (i - 1)).size + (blockD s.heap (i + 1)).size ∧ ((blockD s.heap i).size + (blockD s.heap (i - 1)).size + (blockD s.heap (i + 1)).size) % 16 = 0
            omega)
          (by
            have e1 : ((s.heap.take i).map Block.size).sum = ((s.heap.take (i - 1)).map Block.size).sum + (blockD s.heap (i - 1)).size := by
              have e0 := sum_size_take_succ s.heap (i - 1) (by omega)
              have e : i - 1 + 1 = i := by omega
              rw [e] at e0
              exact e0
            have e2 := sum_size_take_succ s.heap i (by omega)
            have e3 : ((s.heap.take (i + 2)).map Block.size).sum = ((s.heap.take (i + 1)).map Block.size).sum + (blockD s.heap (i + 1)).size := sum_size_take_succ s.heap (i + 1) (by omega)
            simp only [List.map_cons, List.map_nil, List.sum_cons,
              List.sum_nil, Nat.add_zero]
            show ((s.heap.take (i - 1)).map Block.size).sum + ((blockD s.heap i).size + (blockD s.heap (i - 1)).size + (blockD s.heap (i + 1)).size) = ((s.heap.take (i + 2)).map Block.size).sum
            omega)
          hwl (by rw [q4, r4]) (q5.trans r5)
          (fun c a h => r6 c a (q6 c a h)) (fun a h => r7 a (q7 a h))
          hexcl _ hs'
      refine ⟨o1, o2, o3, o4, o5, ?_, ?_, ?_, ?_, o7, ?_, ?_, ?_, ?_, ?_⟩
      · rw [o8]
        simp only [List.length_cons, List.length_nil]
        omega
      · have := o6 0 (by simp)
        simpa using this
      · have := o9 0 (by simp)
        simp only [Nat.add_zero] at this
        rw [this]
        rfl
      · have := o9 0 (by simp)
        simp only [Nat.add_zero] at this
        rw [this]
        show (blockD s.heap i).size ≤ (blockD s.heap i).size + (blockD s.heap (i - 1)).size + (blockD s.heap (i + 1)).size
        omega
      · rw [q2, r2]
      · rw [q3, r3]
      · rw [q4, r4]
      · intro t ht hta
        have htne : t < i - 1 ∨ i + 2 ≤ t := by
          by_contra hcon
          push_neg at hcon
          have hti : t = i - 1 ∨ t = i ∨ t = i + 1 := by omega
          rcases hti with h1 | h1 | h1
          · have hPa : (blockD s.heap (i - 1)).alloc = false := by
              have := hPpair.1
              rw [hpb'] at this
              exact this.symm
            subst h1
            rw [hPa] at hta
            exact absurd hta (by decide)
          · subst h1
            rw [halloc] at hta
            exact absurd hta (by decide)
          · subst h1
            rw [hxa'] at hta
            exact absurd hta (by decide)
        obtain ⟨t', h1, h2, h3, h4, h5⟩ := o11 t ht htne
        exact ⟨t', h1, h2, h3, by rw [h4]; exact hta, h5⟩
      · intro i' hi'
        exfalso
        have haddr0 := o10 0 (by simp)
        simp only [Nat.add_zero, List.take_zero, List.map_nil, List.sum_nil] at haddr0
        have h9 := o9 0 (by simp)
        simp only [Nat.add_zero] at h9
        have hsucc : addr_of s.heap i =
            addr_of s.heap (i - 1) + (blockD s.heap (i - 1)).size := by
          have h0 := addr_of_succ s.heap (i - 1) (by omega)
          rw [show i - 1 + 1 = i by omega] at h0
          exact h0
        have h16P : mb_block_size ≤ (blockD s.heap (i - 1)).size := hPsz.1
        have h16B : mb_block_size ≤ (blockD s.heap i).size := hBsz.1
        have hnone := idx_at_strictly_between _ (addr_of s.heap i)
          (pos_of_blocksOk o3) (i - 1)
          (by rw [o8]; simp only [List.length_cons, List.length_nil]; omega)
          (by
            rw [haddr0, hsucc]
            unfold mb_block_size at h16P
            omega)
          (by
            rw [haddr0, h9, hsucc]
            show addr_of s.heap (i - 1) + (blockD s.heap (i - 1)).size <
              addr_of s.heap (i - 1) + ((blockD s.heap i).size + (blockD s.heap (i - 1)).size + (blockD s.heap (i + 1)).size)
            unfold mb_block_size at h16B
            omega)
        rw [hnone] at hi'
        exact Option.noConfusion hi'

end MM

namespace MM

theorem set_self_of_getElem {α : Type} (l : List α) (i : Nat) (x : α)
    (h : l[i]? = some x) : l.set i x = l := by
  apply List.ext_getElem?
  intro j
  rw [List.getElem?_set]
  by_cases hij : i = j
  · subst hij
    rw [if_pos rfl]
    have hi : i < l.length := by
      by_contra hcon
      rw [List.getElem?_eq_none (by omega)] at h
      exact Option.noConfusion h
    rw [if_pos hi]
    exact h.symm
  · rw [if_neg hij]

theorem map_size_set_same (h : List Block) (i : Nat) (b' : Block)
    (hi : i < h.length) (hsz : b'.size = (blockD h i).size) :
    (h.set i b').map Block.size = h.map Block.size := by
  rw [List.map_set]
  apply set_self_of_getElem
  rw [List.getElem?_map, List.getElem?_eq_getElem hi]
  unfold blockD at hsz
  rw [List.getD_eq_getElem h default hi] at hsz
  rw [hsz]
  rfl

theorem addr_of_set_same (h : List Block) (i : Nat) (b' : Block)
    (hi : i < h.length) (hsz : b'.size = (blockD h i).size) (j : Nat) :
    addr_of (h.set i b') j = addr_of h j := by
  unfold addr_of
  rw [List.map_take, List.map_take, map_size_set_same h i b' hi hsz]

theorem blockD_set_ne (h : List Block) (i : Nat) (b' : Block) (t : Nat)
    (ht : t ≠ i) : blockD (h.set i b') t = blockD h t := by
  unfold blockD
  rw [List.getD_eq_getElem?_getD, List.getD_eq_getElem?_getD,
    List.getElem?_set_ne (by omega)]

theorem free_set_facts (s : AState) (i : Nat)
    (hco : Coherent s.heap) (hepi : EpilogueOk s.heap)
    (hbo : BlocksOk s.heap) (hfo : FirstOk s.heap) (hwl : ListsWF s)
    (hi : i + 1 < s.heap.length)
    (halloc : (blockD s.heap i).alloc = true)
    (sA : AState)
    (hsA : sA = { s with heap := s.heap.set i { blockD s.heap i with alloc := false } }) :
    sA.heap.length = s.heap.length ∧
    List.Chain' flag_ok (sA.heap.take (i + 1)) ∧
    List.Chain' flag_ok (sA.heap.drop (i + 1)) ∧
    BlocksOk sA.heap ∧ EpilogueOk sA.heap ∧ FirstOk sA.heap ∧
    ListsWF sA ∧
    addr_of sA.heap i ∉ all_entries sA ∧
    blockD sA.heap i = { blockD s.heap i with alloc := false } ∧
    (∀ t, t ≠ i → blockD sA.heap t = blockD s.heap t) ∧
    (∀ j, addr_of sA.heap j = addr_of s.heap j) ∧
    (∀ a, idx_at sA.heap a = idx_at s.heap a) ∧
    (sA.heap.map Block.size).sum = (s.heap.map Block.size).sum := by
  subst hsA
  simp only [upd_heap_heap]
  have hlen : (s.heap.set i { blockD s.heap i with alloc := false }).length =
      s.heap.length := by simp
  have hblki : blockD (s.heap.set i { blockD s.heap i with alloc := false }) i =
      { blockD s.heap i with alloc := false } :=
    blockD_set_self s.heap i _ (by omega)
  have hblkt : ∀ t, t ≠ i →
      blockD (s.heap.set i { blockD s.heap i with alloc := false }) t =
        blockD s.heap t := fun t ht => blockD_set_ne s.heap i _ t ht
  have haddr : ∀ j, addr_of (s.heap.set i { blockD s.heap i with alloc := false }) j =
      addr_of s.heap j := fun j => addr_of_set_same s.heap i { blockD s.heap i with alloc := false } (by omega) rfl j
  have hidx : ∀ a, idx_at (s.heap.set i { blockD s.heap i with alloc := false }) a =
      idx_at s.heap a := fun a => idx_at_set_same_size s.heap i { blockD s.heap i with alloc := false } rfl a
  have hmap : (s.heap.set i { blockD s.heap i with alloc := false }).map Block.size =
      s.heap.map Block.size := map_size_set_same s.heap i _ (by omega) rfl
  refine ⟨hlen, ?_, ?_, ?_, ?_, ?_, ?_, ?_, hblki, hblkt, haddr, hidx,
    by rw [hmap]⟩
  · -- chain of the first i+1 blocks
    have hdecomp : (s.heap.set i { blockD s.heap i with alloc := false }).take (i + 1) =
        s.heap.take i ++ [{ blockD s.heap i with alloc := false }] := by
      rw [List.set_eq_take_cons_drop _ (by omega : i < s.heap.length)]
      rw [show i + 1 = (s.heap.take i).length + 1 by simp; omega]
      rw [List.take_append]
      rfl
    rw [hdecomp]
    rw [List.chain'_append]
    refine ⟨coherent_take s.heap i hco, List.chain'_singleton _, ?_⟩
    intro x hx y hy
    have hy' := mem_head?_cons hy
    subst hy'
    by_cases hi0 : i = 0
    · subst hi0
      simp at hx
    · rw [getLast?_take_blockD s.heap i (by omega) (by omega)] at hx
      have hx' : x = blockD s.heap (i - 1) := by
        have := hx
        simp at this
        exact this.symm
      subst hx'
      have hp := coherent_pair s.heap (i - 1) hco (by omega)
      have e : i - 1 + 1 = i := by omega
      rw [e] at hp
      exact hp
  · have hdrop : (s.heap.set i { blockD s.heap i with alloc := false }).drop (i + 1) =
        s.heap.drop (i + 1) := List.drop_set_of_lt _ _ (by omega)
    rw [hdrop]
    exact coherent_drop s.heap (i + 1) hco
  · rw [blocksOk_iff_index]
    intro j hj
    rw [hlen] at hj
    by_cases hji : j = i
    · subst hji
      rw [hblki]
      exact (blocksOk_iff_index s.heap).mp hbo j hj
    · rw [hblkt j hji]
      exact (blocksOk_iff_index s.heap).mp hbo j hj
  · obtain ⟨hne, hsz, hal⟩ := hepi
    refine ⟨?_, ?_, ?_⟩
    · intro hx
      rw [← List.length_eq_zero] at hx
      rw [hlen] at hx
      rw [List.length_eq_zero] at hx
      exact hne hx
    · rw [hlen, hblkt (s.heap.length - 1) (by omega)]
      exact hsz
    · rw [hlen, hblkt (s.heap.length - 1) (by omega)]
      exact hal
  · intro hx
    by_cases hi0 : i = 0
    · subst hi0
      rw [hblki]
      show (blockD s.heap 0).prev_alloc = true
      exact hfo (by intro hy; rw [hy] at hi; simp at hi)
    · rw [hblkt 0 (by omega)]
      exact hfo (by intro hy; rw [hy] at hi; simp at hi)
  · obtain ⟨hwlen, hwreg, hwmini, hwnd⟩ := hwl
    refine ⟨hwlen, ?_, ?_, hwnd⟩
    · intro c hc a ha
      have hro := hwreg c hc a ha
      have hti : entry_idx s a ≠ i := by
        intro he
        have := hro.2.1
        rw [he] at this
        rw [halloc] at this
        exact absurd this (by decide)
      have hei : entry_idx { s with heap := s.heap.set i { blockD s.heap i with alloc := false } } a = entry_idx s a := by
        unfold entry_idx
        simp only [upd_heap_heap]
        rw [hidx a, hlen]
      refine ⟨?_, ?_, ?_, ?_⟩
      · rw [hei]
        simp only [upd_heap_heap]
        rw [hlen]
        exact hro.1
      · rw [hei]
        simp only [upd_heap_heap]
        rw [hblkt _ hti]
        exact hro.2.1
      · rw [hei]
        simp only [upd_heap_heap]
        rw [hblkt _ hti]
        exact hro.2.2.1
      · rw [hei]
        simp only [upd_heap_heap]
        rw [hblkt _ hti]
        exact hro.2.2.2
    · intro a ha
      have hro := hwmini a ha
      have hti : entry_idx s a ≠ i := by
        intro he
        have := hro.2.1
        rw [he] at this
        rw [halloc] at this
        exact absurd this (by decide)
      have hei : entry_idx { s with heap := s.heap.set i { blockD s.heap i with alloc := false } } a = entry_idx s a := by
        unfold entry_idx
        simp only [upd_heap_heap]
        rw [hidx a, hlen]
      refine ⟨?_, ?_, ?_⟩
      · rw [hei]
        simp only [upd_heap_heap]
        rw [hlen]
        exact hro.1
      · rw [hei]
        simp only [upd_heap_heap]
        rw [hblkt _ hti]
        exact hro.2.1
      · rw [hei]
        simp only [upd_heap_heap]
        rw [hblkt _ hti]
        exact hro.2.2
  · rw [haddr i]
    exact not_mem_entries_of_alloc hwl
      (idx_at_addr_pos s.heap (pos_of_blocksOk hbo) i (by omega)) halloc

theorem listsWF_add_free (s : AState) (a j : Nat) (hw : ListsWF s)
    (hres : idx_at s.heap a = some j) (hj : j + 1 < s.heap.length)
    (hal : (blockD s.heap j).alloc = false)
    (hsz : (blockD s.heap j).size ≠ mb_block_size)
    (hfresh : a ∉ all_entries s) : ListsWF (add_to_free_list s a) := by
  obtain ⟨hwlen, hwreg, hwmini, hwnd⟩ := hw
  have hsa : size_at s a = (blockD s.heap j).size := by
    unfold size_at
    rw [hres]
  have heia : entry_idx s a = j := by
    unfold entry_idx
    rw [hres]
    rfl
  refine ⟨?_, ?_, ?_, ?_⟩
  · show (s.classes.set _ _).length = NUM_CLASSES
    simpa using hwlen
  · intro c hc x hx
    have hx' : x ∈ getClass (setClass s (size_to_class (size_at s a)) (a :: getClass s (size_to_class (size_at s a)))) c := hx
    rcases mem_getClass_set hx' with ⟨hcc, hmem⟩ | hmem
    · rcases List.mem_cons.mp hmem with hxa | hxa
      · rw [hxa]
        refine regEntryOk_heap_eq (add_to_free_list_heap s a) ?_
        refine ⟨?_, ?_, ?_, ?_⟩
        · rw [heia]
          exact hj
        · rw [heia]
          exact hal
        · rw [heia]
          exact hsz
        · rw [heia, ← hcc, hsa]
      · exact regEntryOk_heap_eq (add_to_free_list_heap s a)
          (hwreg c hc x (by rw [← hcc]; exact hxa))
    · exact regEntryOk_heap_eq (add_to_free_list_heap s a) (hwreg c hc x hmem)
  · intro x hx
    rw [add_to_free_list_mini] at hx
    exact miniEntryOk_heap_eq (add_to_free_list_heap s a) (hwmini x hx)
  · show (all_entries (add_to_free_list s a)).Nodup
    have hp := all_entries_add_free s a hwlen
    rw [hp.nodup_iff]
    exact List.nodup_cons.mpr ⟨hfresh, hwnd⟩

theorem listsWF_add_mini (s : AState) (a j : Nat) (hw : ListsWF s)
    (hres : idx_at s.heap a = some j) (hj : j + 1 < s.heap.length)
    (hal : (blockD s.heap j).alloc = false)
    (hsz : (blockD s.heap j).size = mb_block_size)
    (hfresh : a ∉ all_entries s) : ListsWF (add_to_mini_list s a) := by
  obtain ⟨hwlen, hwreg, hwmini, hwnd⟩ := hw
  have heia : entry_idx s a = j := by
    unfold entry_idx
    rw [hres]
    rfl
  refine ⟨hwlen, ?_, ?_, ?_⟩
  · intro c hc x hx
    rw [show getClass (add_to_mini_list s a) c = getClass s c from rfl] at hx
    exact regEntryOk_heap_eq (add_to_mini_list_heap s a) (hwreg c hc x hx)
  · intro x hx
    rw [add_to_mini_list_mini] at hx
    rcases List.mem_cons.mp hx with hxa | hxa
    · rw [hxa]
      refine miniEntryOk_heap_eq (add_to_mini_list_heap s a) ?_
      refine ⟨?_, ?_, ?_⟩
      · rw [heia]
        exact hj
      · rw [heia]
        exact hal
      · rw [heia]
        exact hsz
    · exact miniEntryOk_heap_eq (add_to_mini_list_heap s a) (hwmini x hxa)
  · show (all_entries (add_to_mini_list s a)).Nodup
    have hp := all_entries_add_mini s a
    rw [hp.nodup_iff]
    exact List.nodup_cons.mpr ⟨hfresh, hwnd⟩

end MM

namespace MM

theorem free_spec (s : AState) (p : Nat) (hw : WF s)
    (hv : p = 0 ∨ idx_at s.heap (p - wsize) = none ∨
      ∃ i, idx_at s.heap (p - wsize) = some i ∧ i + 1 < s.heap.length ∧
        (blockD s.heap i).alloc = true) :
    WF (free s p) ∧
    ((free s p).heap.map Block.size).sum = (s.heap.map Block.size).sum ∧
    (free s p).budget = s.budget ∧
    (free s p).prologue = s.prologue ∧
    (∀ t, t + 1 < s.heap.length → (blockD s.heap t).alloc = true →
      addr_of s.heap t ≠ p - wsize →
      ∃ t', idx_at (free s p).heap (addr_of s.heap t) = some t' ∧
        t' + 1 < (free s p).heap.length ∧
        (blockD (free s p).heap t').size = (blockD s.heap t).size ∧
        (blockD (free s p).heap t').alloc = true ∧
        (blockD (free s p).heap t').data = (blockD s.heap t).data) ∧
    (∀ i', idx_at (free s p).heap (p - wsize) = some i' →
      (blockD (free s p).heap i').alloc = false) := by
  obtain ⟨hco, hepi, hbo, hfo, hwl⟩ := hw
  have hposS : ∀ b ∈ s.heap.dropLast, 0 < b.size := pos_of_blocksOk hbo
  have htriv : free s p = s →
      (∀ i', idx_at s.heap (p - wsize) = some i' →
        (blockD s.heap i').alloc = false) →
      WF (free s p) ∧
      ((free s p).heap.map Block.size).sum = (s.heap.map Block.size).sum ∧
      (free s p).budget = s.budget ∧
      (free s p).prologue = s.prologue ∧
      (∀ t, t + 1 < s.heap.length → (blockD s.heap t).alloc = true →
        addr_of s.heap t ≠ p - wsize →
        ∃ t', idx_at (free s p).heap (addr_of s.heap t) = some t' ∧
          t' + 1 < (free s p).heap.length ∧
          (blockD (free s p).heap t').size = (blockD s.heap t).size ∧
          (blockD (free s p).heap t').alloc = true ∧
          (blockD (free s p).heap t').data = (blockD s.heap t).data) ∧
      (∀ i', idx_at (free s p).heap (p - wsize) = some i' →
        (blockD (free s p).heap i').alloc = false) := by
    intro hfree hna
    rw [hfree]
    refine ⟨⟨hco, hepi, hbo, hfo, hwl⟩, rfl, rfl, rfl, ?_, hna⟩
    intro t ht hta _
    exact ⟨t, idx_at_addr_pos s.heap hposS t (by omega), ht, rfl, hta, rfl⟩
  by_cases hp0 : p = 0
  · refine htriv ?_ ?_
    · unfold free
      rw [if_pos hp0]
    · intro i' hi'
      exfalso
      have h8 := idx_at_some_addr hi'
      rw [hp0] at h8
      unfold addr_of wsize at h8
      omega
  rcases hv with h0 | hnone | ⟨i, hres, hilen, halloc⟩
  · exact absurd h0 hp0
  · refine htriv ?_ ?_
    · unfold free
      rw [if_neg hp0, hnone]
    · intro i' hi'
      rw [hi'] at hnone
      exact Option.noConfusion hnone
  · set sA : AState := { s with heap := s.heap.set i { blockD s.heap i with alloc := false } } with hsAdef
    obtain ⟨f1, f2, f3, f4, f5, f6, f7, f8, f9, f10, f11, f12, f13⟩ :=
      free_set_facts s i hco hepi hbo hfo hwl hilen halloc sA hsAdef
    obtain ⟨c1, c2, c3, c4, c5, c6, c7, c8, c9, c10, c11, c12, c13, c14, c15⟩ :=
      coalesce_spec sA i (by rw [f1]; exact hilen) (by rw [f9]) f2 f3 f4 f5
        f6 f7 f8
    have haddri : addr_of s.heap i = p - wsize := idx_at_some_addr hres
    have hfree : free s p = (if get_mini (blockD (coalesce_block sA i).1.heap (coalesce_block sA i).2) then add_to_mini_list (coalesce_block sA i).1 (addr_of (coalesce_block sA i).1.heap (coalesce_block sA i).2) else add_to_free_list (coalesce_block sA i).1 (addr_of (coalesce_block sA i).1.heap (coalesce_block sA i).2)) := by
      unfold free
      rw [if_neg hp0, hres]
    have hresj : idx_at (coalesce_block sA i).1.heap
        (addr_of (coalesce_block sA i).1.heap (coalesce_block sA i).2) =
        some (coalesce_block sA i).2 :=
      idx_at_addr_pos _ (pos_of_blocksOk c3) _ (by omega)
    rw [hfree]
    by_cases hgm : get_mini (blockD (coalesce_block sA i).1.heap
        (coalesce_block sA i).2)
    · rw [if_pos hgm]
      refine ⟨⟨c1, c2, c3, c4, ?_⟩, ?_, ?_, ?_, ?_, ?_⟩
      · exact listsWF_add_mini _ _ _ c5 hresj c6 c8 ((get_mini_iff _).mp hgm) c7
      · rw [add_to_mini_list_heap]
        rw [c10]
        exact f13
      · rw [add_to_mini_list_budget, c11]
      · rw [add_to_mini_list_prologue, c12]
      · intro t ht hta hne
        have hti : t ≠ i := by
          intro he
          rw [he] at hne
          exact hne haddri
        obtain ⟨t', g1, g2, g3, g4, g5⟩ := c14 t (by rw [f1]; exact ht)
          (by rw [f10 t hti]; exact hta)
        rw [f11 t] at g1
        rw [f10 t hti] at g3 g5
        rw [add_to_mini_list_heap]
        exact ⟨t', g1, g2, g3, g4, g5⟩
      · intro i' hi'
        rw [add_to_mini_list_heap] at hi' ⊢
        rw [← haddri, ← f11 i] at hi'
        exact c15 i' hi'
    · rw [if_neg hgm]
      refine ⟨⟨c1, c2, c3, c4, ?_⟩, ?_, ?_, ?_, ?_, ?_⟩
      · refine listsWF_add_free _ _ _ c5 hresj c6 c8 ?_ c7
        intro hsz
        exact hgm ((get_mini_iff _).mpr hsz)
      · rw [add_to_free_list_heap]
        rw [c10]
        exact f13
      · rw [add_to_free_list_budget, c11]
      · rw [add_to_free_list_prologue, c12]
      · intro t ht hta hne
        have hti : t ≠ i := by
          intro he
          rw [he] at hne
          exact hne haddri
        obtain ⟨t', g1, g2, g3, g4, g5⟩ := c14 t (by rw [f1]; exact ht)
          (by rw [f10 t hti]; exact hta)
        rw [f11 t] at g1
        rw [f10 t hti] at g3 g5
        rw [add_to_free_list_heap]
        exact ⟨t', g1, g2, g3, g4, g5⟩
      · intro i' hi'
        rw [add_to_free_list_heap] at hi' ⊢
        rw [← haddri, ← f11 i] at hi'
        exact c15 i' hi'

end MM

namespace MM

theorem mem_getLast?_pair {α : Type} {a b y : α}
    (h : y ∈ ([a, b] : List α).getLast?) : y = b := by
  simp at h
  exact h.symm

theorem split_spec (s : AState) (i : Nat) (asize : Nat)
    (hco : Coherent s.heap) (hepi : EpilogueOk s.heap)
    (hbo : BlocksOk s.heap) (hfo : FirstOk s.heap) (hwl : ListsWF s)
    (hi : i + 1 < s.heap.length)
    (halloc : (blockD s.heap i).alloc = false)
    (hasz : mb_block_size ≤ asize) (hmod : asize % dsize = 0)
    (hle : asize ≤ (blockD s.heap i).size)
    (hfresh : addr_of s.heap i ∉ all_entries s) :
    WF (split_block s i asize) ∧
    ((split_block s i asize).heap.map Block.size).sum =
      (s.heap.map Block.size).sum ∧
    (split_block s i asize).budget = s.budget ∧
    (split_block s i asize).prologue = s.prologue ∧
    (blockD (split_block s i asize).heap i).alloc = true ∧
    asize ≤ (blockD (split_block s i asize).heap i).size ∧
    (blockD (split_block s i asize).heap i).size ≤ (blockD s.heap i).size ∧
    addr_of (split_block s i asize).heap i = addr_of s.heap i ∧
    i + 1 < (split_block s i asize).heap.length ∧
    (∀ t, t + 1 < s.heap.length → (blockD s.heap t).alloc = true →
      ∃ t', idx_at (split_block s i asize).heap (addr_of s.heap t) = some t' ∧
        t' + 1 < (split_block s i asize).heap.length ∧
        (blockD (split_block s i asize).heap t').size =
          (blockD s.heap t).size ∧
        (blockD (split_block s i asize).heap t').alloc = true ∧
        (blockD (split_block s i asize).heap t').data =
          (blockD s.heap t).data) := by
  have hposS : ∀ b ∈ s.heap.dropLast, 0 < b.size := pos_of_blocksOk hbo
  have hBsz := (blocksOk_iff_index s.heap).mp hbo i hi
  have hne : s.heap ≠ [] := by
    intro hx
    rw [hx] at hi
    simp at hi
  have hexcl : ∀ a ∈ all_entries s, ∀ t, idx_at s.heap a = some t →
      t < i ∨ i + 1 ≤ t := by
    intro a ha t ht
    by_contra hcon
    push_neg at hcon
    have hti : t = i := by omega
    subst hti
    have : addr_of s.heap t = a := idx_at_some_addr ht
    rw [← this] at ha
    exact hfresh ha
  have hjlB : ∀ x ∈ (s.heap.take i).getLast?, flag_ok x (blockD s.heap i) := by
    intro x hx
    by_cases hi0 : i = 0
    · rw [hi0] at hx
      simp at hx
    · rw [getLast?_take_blockD s.heap i (by omega) (by omega)] at hx
      have hx' : x = blockD s.heap (i - 1) := by
        have := hx
        simp at this
        exact this.symm
      subst hx'
      have hp := coherent_pair s.heap (i - 1) hco (by omega)
      have e : i - 1 + 1 = i := by omega
      rw [e] at hp
      exact hp
  have hrem : (blockD s.heap i).size - asize = 0 ∨
      (blockD s.heap i).size - asize = mb_block_size ∨
      min_block_size ≤ (blockD s.heap i).size - asize := by
    have h1 := hBsz.2
    unfold mb_block_size min_block_size dsize at *
    omega
  unfold split_block
  dsimp only []
  by_cases ha : asize = mb_block_size
  · rw [if_pos ha]
    by_cases hrem1 : (blockD s.heap i).size - asize ≥ min_block_size
    · rw [if_pos hrem1]
      have hs' : (({ s with heap := s.heap.take i ++ { blockD s.heap i with size := mb_block_size, alloc := true, data := (blockD s.heap i).data.take (mb_block_size - wsize) } :: { size := (blockD s.heap i).size - asize, alloc := false, prev_alloc := true, prev_mini := true, data := (blockD s.heap i).data.drop mb_block_size } :: set_head_flags false false (s.heap.drop (i + 1)) } : AState)) = { s with heap := splice s.heap i [{ blockD s.heap i with size := mb_block_size, alloc := true, data := (blockD s.heap i).data.take (mb_block_size - wsize) }, { size := (blockD s.heap i).size - asize, alloc := false, prev_alloc := true, prev_mini := true, data := (blockD s.heap i).data.drop mb_block_size }] (i + 1) false false } := by
        unfold splice
        simp only [List.append_assoc, List.cons_append, List.nil_append]
      obtain ⟨o1, o2, o3, o4, o5, o6, o7, o8, o9, o10, o11⟩ :=
        spliceN_invariants s s i (i + 1) [{ blockD s.heap i with size := mb_block_size, alloc := true, data := (blockD s.heap i).data.take (mb_block_size - wsize) }, { size := (blockD s.heap i).size - asize, alloc := false, prev_alloc := true, prev_mini := true, data := (blockD s.heap i).data.drop mb_block_size }] false false
          (by omega) hi
          (coherent_take s.heap i hco)
          (coherent_drop s.heap (i + 1) hco)
          (by
            intro x hx y hy
            have hy' := mem_head?_cons hy
            subst hy'
            exact hjlB x hx)
          (by
            rw [List.chain'_pair]
            constructor
            · rfl
            · constructor
              · intro _
                rfl
              · intro _
                rfl)
          (by simp)
          (by
            intro y hy
            have hy' := mem_getLast?_pair hy
            subst hy'
            refine ⟨rfl, ?_⟩
            constructor
            · intro hcon
              exact absurd hcon (by decide)
            · intro hcon
              exfalso
              have h16 : (blockD s.heap i).size - asize = mb_block_size := hcon
              unfold mb_block_size at h16
              unfold min_block_size at hrem1
              omega)
          hbo hepi hfo
          (by
            intro hk0 y hy
            have hy' := mem_head?_cons hy
            subst hy'
            show (blockD s.heap i).prev_alloc = true
            rw [hk0]
            exact hfo hne)
          (by
            intro b hb
            rcases List.mem_cons.mp hb with hb1 | hb1
            · rw [hb1]
              refine ⟨?_, ?_⟩
              · show mb_block_size ≤ mb_block_size
                exact Nat.le_refl _
              · show mb_block_size % dsize = 0
                decide
            · rcases List.mem_cons.mp hb1 with hb2 | hb2
              · rw [hb2]
                refine ⟨?_, ?_⟩
                · show mb_block_size ≤ (blockD s.heap i).size - asize
                  unfold mb_block_size min_block_size at *
                  omega
                · show ((blockD s.heap i).size - asize) % dsize = 0
                  have := hBsz.2
                  unfold dsize at *
                  omega
              · exact absurd hb2 (List.not_mem_nil b))
          (by
            have e1 := sum_size_take_succ s.heap i (by omega)
            simp only [List.map_cons, List.map_nil, List.sum_cons,
              List.sum_nil, Nat.add_zero]
            show ((s.heap.take i).map Block.size).sum + (mb_block_size + ((blockD s.heap i).size - asize)) = ((s.heap.take (i + 1)).map Block.size).sum
            rw [ha] at hle
            unfold mb_block_size at *
            rw [ha]
            omega)
          hwl rfl (List.Sublist.refl _) (fun c a h => h) (fun a h => h)
          hexcl _ hs'
      have h9f := o9 0 (by simp)
      simp only [Nat.add_zero] at h9f
      have h9r := o9 1 (by simp)
      have h10f := o10 0 (by simp)
      simp only [Nat.add_zero] at h10f
      have h10f' : addr_of ({ s with heap := s.heap.take i ++ { blockD s.heap i with size := mb_block_size, alloc := true, data := (blockD s.heap i).data.take (mb_block_size - wsize) } :: { size := (blockD s.heap i).size - asize, alloc := false, prev_alloc := true, prev_mini := true, data := (blockD s.heap i).data.drop mb_block_size } :: set_head_flags false false (s.heap.drop (i + 1)) } : AState).heap i = addr_of s.heap i := by
        rw [h10f]
        rfl
      have h10r := o10 1 (by simp)
      have h10r' : addr_of ({ s with heap := s.heap.take i ++ { blockD s.heap i with size := mb_block_size, alloc := true, data := (blockD s.heap i).data.take (mb_block_size - wsize) } :: { size := (blockD s.heap i).size - asize, alloc := false, prev_alloc := true, prev_mini := true, data := (blockD s.heap i).data.drop mb_block_size } :: set_head_flags false false (s.heap.drop (i + 1)) } : AState).heap (i + 1) = addr_of s.heap i + mb_block_size := by
        rw [h10r]
        rfl
      have hlenSP : ({ s with heap := s.heap.take i ++ { blockD s.heap i with size := mb_block_size, alloc := true, data := (blockD s.heap i).data.take (mb_block_size - wsize) } :: { size := (blockD s.heap i).size - asize, alloc := false, prev_alloc := true, prev_mini := true, data := (blockD s.heap i).data.drop mb_block_size } :: set_head_flags false false (s.heap.drop (i + 1)) } : AState).heap.length = i + 2 + (s.heap.length - (i + 1)) := by
        rw [o8]
        simp
      have hresr : idx_at ({ s with heap := s.heap.take i ++ { blockD s.heap i with size := mb_block_size, alloc := true, data := (blockD s.heap i).data.take (mb_block_size - wsize) } :: { size := (blockD s.heap i).size - asize, alloc := false, prev_alloc := true, prev_mini := true, data := (blockD s.heap i).data.drop mb_block_size } :: set_head_flags false false (s.heap.drop (i + 1)) } : AState).heap (addr_of s.heap i + mb_block_size) = some (i + 1) := by
        rw [← h10r']
        refine idx_at_addr_pos _ (pos_of_blocksOk o3) _ ?_
        rw [hlenSP]
        omega
      have hwladd : ListsWF (add_to_free_list ({ s with heap := s.heap.take i ++ { blockD s.heap i with size := mb_block_size, alloc := true, data := (blockD s.heap i).data.take (mb_block_size - wsize) } :: { size := (blockD s.heap i).size - asize, alloc := false, prev_alloc := true, prev_mini := true, data := (blockD s.heap i).data.drop mb_block_size } :: set_head_flags false false (s.heap.drop (i + 1)) } : AState) (addr_of s.heap i + mb_block_size)) := by
        refine listsWF_add_free _ _ (i + 1) o5 hresr ?_ ?_ ?_ ?_
        · rw [hlenSP]
          omega
        · rw [h9r]
          rfl
        · rw [h9r]
          show (blockD s.heap i).size - asize ≠ mb_block_size
          unfold mb_block_size
          unfold min_block_size at hrem1
          omega
        · rw [← h10r']
          exact o6 1 (by simp)
      refine ⟨⟨?_, ?_, ?_, ?_, hwladd⟩, ?_, rfl, rfl, ?_, ?_, ?_, ?_, ?_, ?_⟩
      · rw [add_to_free_list_heap]
        exact o1
      · rw [add_to_free_list_heap]
        exact o2
      · rw [add_to_free_list_heap]
        exact o3
      · rw [add_to_free_list_heap]
        exact o4
      · rw [add_to_free_list_heap]
        exact o7
      · rw [add_to_free_list_heap, h9f]
        rfl
      · rw [add_to_free_list_heap, h9f]
        show asize ≤ mb_block_size
        rw [ha]
      · rw [add_to_free_list_heap, h9f]
        show mb_block_size ≤ (blockD s.heap i).size
        rw [← ha]
        exact hle
      · rw [add_to_free_list_heap]
        exact h10f'
      · rw [add_to_free_list_heap, hlenSP]
        omega
      · intro t ht hta
        rw [add_to_free_list_heap]
        have htne : t < i ∨ i + 1 ≤ t := by
          by_contra hcon
          push_neg at hcon
          have hti : t = i := by omega
          subst hti
          rw [halloc] at hta
          exact absurd hta (by decide)
        obtain ⟨t', g1, g2, g3, g4, g5⟩ := o11 t ht htne
        exact ⟨t', g1, g2, g3, by rw [g4]; exact hta, g5⟩
    · rw [if_neg hrem1]
      by_cases hrem2 : (blockD s.heap i).size - asize = mb_block_size
      · rw [if_pos hrem2]
        have hs' : (({ s with heap := s.heap.take i ++ { blockD s.heap i with size := mb_block_size, alloc := true, data := (blockD s.heap i).data.take (mb_block_size - wsize) } :: { size := mb_block_size, alloc := false, prev_alloc := true, prev_mini := true, data := (blockD s.heap i).data.drop mb_block_size } :: set_head_flags false true (s.heap.drop (i + 1)) } : AState)) = { s with heap := splice s.heap i [{ blockD s.heap i with size := mb_block_size, alloc := true, data := (blockD s.heap i).data.take (mb_block_size - wsize) }, { size := mb_block_size, alloc := false, prev_alloc := true, prev_mini := true, data := (blockD s.heap i).data.drop mb_block_size }] (i + 1) false true } := by
          unfold splice
          simp only [List.append_assoc, List.cons_append, List.nil_append]
        obtain ⟨o1, o2, o3, o4, o5, o6, o7, o8, o9, o10, o11⟩ :=
          spliceN_invariants s s i (i + 1) [{ blockD s.heap i with size := mb_block_size, alloc := true, data := (blockD s.heap i).data.take (mb_block_size - wsize) }, { size := mb_block_size, alloc := false, prev_alloc := true, prev_mini := true, data := (blockD s.heap i).data.drop mb_block_size }] false true
            (by omega) hi
            (coherent_take s.heap i hco)
            (coherent_drop s.heap (i + 1) hco)
            (by
              intro x hx y hy
              have hy' := mem_head?_cons hy
              subst hy'
              exact hjlB x hx)
            (by
              rw [List.chain'_pair]
              refine ⟨rfl, ?_⟩
              constructor
              · intro _
                rfl
              · intro _
                rfl
              )
            (by simp)
            (by
              intro y hy
              have hy' := mem_getLast?_pair hy
              subst hy'
              refine ⟨rfl, ?_⟩
              constructor
              · intro _
                rfl
              · intro _
                rfl)
            hbo hepi hfo
            (by
              intro hk0 y hy
              have hy' := mem_head?_cons hy
              subst hy'
              show (blockD s.heap i).prev_alloc = true
              rw [hk0]
              exact hfo hne)
            (by
              intro b hb
              rcases List.mem_cons.mp hb with hb1 | hb1
              · rw [hb1]
                refine ⟨?_, ?_⟩
                · show mb_block_size ≤ mb_block_size
                  exact Nat.le_refl _
                · show mb_block_size % dsize = 0
                  decide
              · rcases List.mem_cons.mp hb1 with hb2 | hb2
                · rw [hb2]
                  refine ⟨?_, ?_⟩
                  · show mb_block_size ≤ mb_block_size
                    exact Nat.le_refl _
                  · show mb_block_size % dsize = 0
                    decide
                · exact absurd hb2 (List.not_mem_nil b))
            (by
              have e1 := sum_size_take_succ s.heap i (by omega)
              simp only [List.map_cons, List.map_nil, List.sum_cons,
                List.sum_nil, Nat.add_zero]
              show ((s.heap.take i).map Block.size).sum + (mb_block_size + mb_block_size) = ((s.heap.take (i + 1)).map Block.size).sum
              rw [ha] at hle hrem2
              unfold mb_block_size at *
              omega)
            hwl rfl (List.Sublist.refl _) (fun c a h => h) (fun a h => h)
            hexcl _ hs'
        have h9f := o9 0 (by simp)
        simp only [Nat.add_zero] at h9f
        have h10f := o10 0 (by simp)
        simp only [Nat.add_zero] at h10f
        have h10f' : addr_of ({ s with heap := s.heap.take i ++ { blockD s.heap i with size := mb_block_size, alloc := true, data := (blockD s.heap i).data.take (mb_block_size - wsize) } :: { size := mb_block_size, alloc := false, prev_alloc := true, prev_mini := true, data := (blockD s.heap i).data.drop mb_block_size } :: set_head_flags false true (s.heap.drop (i + 1)) } : AState).heap i = addr_of s.heap i := by
          rw [h10f]
          rfl
        have h9r := o9 1 (by simp)
        have h10r := o10 1 (by simp)
        have h10r' : addr_of ({ s with heap := s.heap.take i ++ { blockD s.heap i with size := mb_block_size, alloc := true, data := (blockD s.heap i).data.take (mb_block_size - wsize) } :: { size := mb_block_size, alloc := false, prev_alloc := true, prev_mini := true, data := (blockD s.heap i).data.drop mb_block_size } :: set_head_flags false true (s.heap.drop (i + 1)) } : AState).heap (i + 1) = addr_of s.heap i + mb_block_size := by
          rw [h10r]
          rfl
        have hlenSP : ({ s with heap := s.heap.take i ++ { blockD s.heap i with size := mb_block_size, alloc := true, data := (blockD s.heap i).data.take (mb_block_size - wsize) } :: { size := mb_block_size, alloc := false, prev_alloc := true, prev_mini := true, data := (blockD s.heap i).data.drop mb_block_size } :: set_head_flags false true (s.heap.drop (i + 1)) } : AState).heap.length = i + 2 + (s.heap.length - (i + 1)) := by
          rw [o8]
          simp
        have hresr : idx_at ({ s with heap := s.heap.take i ++ { blockD s.heap i with size := mb_block_size, alloc := true, data := (blockD s.heap i).data.take (mb_block_size - wsize) } :: { size := mb_block_size, alloc := false, prev_alloc := true, prev_mini := true, data := (blockD s.heap i).data.drop mb_block_size } :: set_head_flags false true (s.heap.drop (i + 1)) } : AState).heap (addr_of s.heap i + mb_block_size) = some (i + 1) := by
          rw [← h10r']
          refine idx_at_addr_pos _ (pos_of_blocksOk o3) _ ?_
          rw [hlenSP]
          omega
        have hwladd : ListsWF (add_to_mini_list ({ s with heap := s.heap.take i ++ { blockD s.heap i with size := mb_block_size, alloc := true, data := (blockD s.heap i).data.take (mb_block_size - wsize) } :: { size := mb_block_size, alloc := false, prev_alloc := true, prev_mini := true, data := (blockD s.heap i).data.drop mb_block_size } :: set_head_flags false true (s.heap.drop (i + 1)) } : AState) (addr_of s.heap i + mb_block_size)) := by
          refine listsWF_add_mini _ _ (i + 1) o5 hresr ?_ ?_ ?_ ?_
          · rw [hlenSP]
            omega
          · rw [h9r]
            rfl
          · rw [h9r]
            show (mb_block_size : Nat) = mb_block_size
            rfl
          · rw [← h10r']
            exact o6 1 (by simp)
        refine ⟨⟨?_, ?_, ?_, ?_, hwladd⟩, ?_, rfl, rfl, ?_, ?_, ?_, ?_, ?_, ?_⟩
        · rw [add_to_mini_list_heap]
          exact o1
        · rw [add_to_mini_list_heap]
          exact o2
        · rw [add_to_mini_list_heap]
          exact o3
        · rw [add_to_mini_list_heap]
          exact o4
        · rw [add_to_mini_list_heap]
          exact o7
        · rw [add_to_mini_list_heap, h9f]
          rfl
        · rw [add_to_mini_list_heap, h9f]
          show asize ≤ mb_block_size
          rw [ha]
        · rw [add_to_mini_list_heap, h9f]
          show mb_block_size ≤ (blockD s.heap i).size
          rw [← ha]
          exact hle
        · rw [add_to_mini_list_heap]
          exact h10f'
        · rw [add_to_mini_list_heap, hlenSP]
          omega
        · intro t ht hta
          rw [add_to_mini_list_heap]
          have htne : t < i ∨ i + 1 ≤ t := by
            by_contra hcon
            push_neg at hcon
            have hti : t = i := by omega
            subst hti
            rw [halloc] at hta
            exact absurd hta (by decide)
          obtain ⟨t', g1, g2, g3, g4, g5⟩ := o11 t ht htne
          exact ⟨t', g1, g2, g3, by rw [g4]; exact hta, g5⟩
      · rw [if_neg hrem2]
        have hs' : (({ s with heap := s.heap.take i ++ { blockD s.heap i with alloc := true } :: set_head_flags true true (s.heap.drop (i + 1)) } : AState)) = { s with heap := splice s.heap i [{ blockD s.heap i with alloc := true }] (i + 1) true true } := by
          unfold splice
          simp only [List.append_assoc, List.cons_append, List.nil_append]
        obtain ⟨o1, o2, o3, o4, o5, o6, o7, o8, o9, o10, o11⟩ :=
          spliceN_invariants s s i (i + 1) [{ blockD s.heap i with alloc := true }] true true
            (by omega) hi
            (coherent_take s.heap i hco)
            (coherent_drop s.heap (i + 1) hco)
            (by
              intro x hx y hy
              have hy' := mem_head?_cons hy
              subst hy'
              exact hjlB x hx)
            (List.chain'_singleton _) (by simp)
            (by
              intro y hy
              have hy' := mem_getLast?_singleton hy
              subst hy'
              refine ⟨rfl, ?_⟩
              constructor
              · intro _
                show (blockD s.heap i).size = mb_block_size
                rw [← ha]
                rcases hrem with h0 | h0 | h0
                · omega
                · exact absurd h0 hrem2
                · exact absurd h0 hrem1
              · intro _
                rfl)
            hbo hepi hfo
            (by
              intro hk0 y hy
              have hy' := mem_head?_cons hy
              subst hy'
              show (blockD s.heap i).prev_alloc = true
              rw [hk0]
              exact hfo hne)
            (by
              intro b hb
              have hb' := List.mem_singleton.mp hb
              rw [hb']
              exact hBsz)
            (by
              have e1 := sum_size_take_succ s.heap i (by omega)
              simp only [List.map_cons, List.map_nil, List.sum_cons,
                List.sum_nil, Nat.add_zero]
              show ((s.heap.take i).map Block.size).sum + (blockD s.heap i).size = ((s.heap.take (i + 1)).map Block.size).sum
              omega)
            hwl rfl (List.Sublist.refl _) (fun c a h => h) (fun a h => h)
            hexcl _ hs'
        have h9f := o9 0 (by simp)
        simp only [Nat.add_zero] at h9f
        have h10f := o10 0 (by simp)
        simp only [Nat.add_zero] at h10f
        have h10f' : addr_of ({ s with heap := s.heap.take i ++ { blockD s.heap i with alloc := true } :: set_head_flags true true (s.heap.drop (i + 1)) } : AState).heap i = addr_of s.heap i := by
          rw [h10f]
          rfl
        have hlenSP : ({ s with heap := s.heap.take i ++ { blockD s.heap i with alloc := true } :: set_head_flags true true (s.heap.drop (i + 1)) } : AState).heap.length = i + 1 + (s.heap.length - (i + 1)) := by
          rw [o8]
          simp
        refine ⟨⟨o1, o2, o3, o4, o5⟩, o7, rfl, rfl, ?_, ?_, ?_, ?_, ?_, ?_⟩
        · rw [h9f]
          rfl
        · rw [h9f]
          show asize ≤ (blockD s.heap i).size
          exact hle
        · rw [h9f]
          show (blockD s.heap i).size ≤ (blockD s.heap i).size
          exact Nat.le_refl _
        · exact h10f'
        · rw [hlenSP]
          omega
        · intro t ht hta
          have htne : t < i ∨ i + 1 ≤ t := by
            by_contra hcon
            push_neg at hcon
            have hti : t = i := by omega
            subst hti
            rw [halloc] at hta
            exact absurd hta (by decide)
          obtain ⟨t', g1, g2, g3, g4, g5⟩ := o11 t ht htne
          exact ⟨t', g1, g2, g3, by rw [g4]; exact hta, g5⟩
  · rw [if_neg ha]
    by_cases hrem1 : (blockD s.heap i).size - asize ≥ min_block_size
    · rw [if_pos hrem1]
      have hs' : (({ s with heap := s.heap.take i ++ { blockD s.heap i with size := asize, alloc := true, data := (blockD s.heap i).data.take (asize - wsize) } :: { size := (blockD s.heap i).size - asize, alloc := false, prev_alloc := true, prev_mini := false, data := (blockD s.heap i).data.drop asize } :: set_head_flags false false (s.heap.drop (i + 1)) } : AState)) = { s with heap := splice s.heap i [{ blockD s.heap i with size := asize, alloc := true, data := (blockD s.heap i).data.take (asize - wsize) }, { size := (blockD s.heap i).size - asize, alloc := false, prev_alloc := true, prev_mini := false, data := (blockD s.heap i).data.drop asize }] (i + 1) false false } := by
        unfold splice
        simp only [List.append_assoc, List.cons_append, List.nil_append]
      obtain ⟨o1, o2, o3, o4, o5, o6, o7, o8, o9, o10, o11⟩ :=
        spliceN_invariants s s i (i + 1) [{ blockD s.heap i with size := asize, alloc := true, data := (blockD s.heap i).data.take (asize - wsize) }, { size := (blockD s.heap i).size - asize, alloc := false, prev_alloc := true, prev_mini := false, data := (blockD s.heap i).data.drop asize }] false false
          (by omega) hi
          (coherent_take s.heap i hco)
          (coherent_drop s.heap (i + 1) hco)
          (by
            intro x hx y hy
            have hy' := mem_head?_cons hy
            subst hy'
            exact hjlB x hx)
          (by
            rw [List.chain'_pair]
            refine ⟨rfl, ?_⟩
            constructor
            · intro hcon
              have hcon2 : false = true := hcon
              exact absurd hcon2 (by decide)
            · intro hcon
              exfalso
              have h16 : asize = mb_block_size := hcon
              exact ha h16
            )
          (by simp)
          (by
            intro y hy
            have hy' := mem_getLast?_pair hy
            subst hy'
            refine ⟨rfl, ?_⟩
            constructor
            · intro hcon
              exact absurd hcon (by decide)
            · intro hcon
              exfalso
              have h16 : (blockD s.heap i).size - asize = mb_block_size := hcon
              unfold mb_block_size at h16
              unfold min_block_size at hrem1
              omega)
          hbo hepi hfo
          (by
            intro hk0 y hy
            have hy' := mem_head?_cons hy
            subst hy'
            show (blockD s.heap i).prev_alloc = true
            rw [hk0]
            exact hfo hne)
          (by
            intro b hb
            rcases List.mem_cons.mp hb with hb1 | hb1
            · rw [hb1]
              refine ⟨?_, ?_⟩
              · show mb_block_size ≤ asize
                exact hasz
              · show asize % dsize = 0
                exact hmod
            · rcases List.mem_cons.mp hb1 with hb2 | hb2
              · rw [hb2]
                refine ⟨?_, ?_⟩
                · show mb_block_size ≤ (blockD s.heap i).size - asize
                  unfold mb_block_size min_block_size at *
                  omega
                · show ((blockD s.heap i).size - asize) % dsize = 0
                  have := hBsz.2
                  unfold dsize at *
                  omega
              · exact absurd hb2 (List.not_mem_nil b))
          (by
            have e1 := sum_size_take_succ s.heap i (by omega)
            simp only [List.map_cons, List.map_nil, List.sum_cons,
              List.sum_nil, Nat.add_zero]
            show ((s.heap.take i).map Block.size).sum + (asize + ((blockD s.heap i).size - asize)) = ((s.heap.take (i + 1)).map Block.size).sum
            omega)
          hwl rfl (List.Sublist.refl _) (fun c a h => h) (fun a h => h)
          hexcl _ hs'
      have h9f := o9 0 (by simp)
      simp only [Nat.add_zero] at h9f
      have h10f := o10 0 (by simp)
      simp only [Nat.add_zero] at h10f
      have h10f' : addr_of ({ s with heap := s.heap.take i ++ { blockD s.heap i with size := asize, alloc := true, data := (blockD s.heap i).data.take (asize - wsize) } :: { size := (blockD s.heap i).size - asize, alloc := false, prev_alloc := true, prev_mini := false, data := (blockD s.heap i).data.drop asize } :: set_head_flags false false (s.heap.drop (i + 1)) } : AState).heap i = addr_of s.heap i := by
        rw [h10f]
        rfl
      have h9r := o9 1 (by simp)
      have h10r := o10 1 (by simp)
      have h10r' : addr_of ({ s with heap := s.heap.take i ++ { blockD s.heap i with size := asize, alloc := true, data := (blockD s.heap i).data.take (asize - wsize) } :: { size := (blockD s.heap i).size - asize, alloc := false, prev_alloc := true, prev_mini := false, data := (blockD s.heap i).data.drop asize } :: set_head_flags false false (s.heap.drop (i + 1)) } : AState).heap (i + 1) = addr_of s.heap i + asize := by
        rw [h10r]
        rfl
      have hlenSP : ({ s with heap := s.heap.take i ++ { blockD s.heap i with size := asize, alloc := true, data := (blockD s.heap i).data.take (asize - wsize) } :: { size := (blockD s.heap i).size - asize, alloc := false, prev_alloc := true, prev_mini := false, data := (blockD s.heap i).data.drop asize } :: set_head_flags false false (s.heap.drop (i + 1)) } : AState).heap.length = i + 2 + (s.heap.length - (i + 1)) := by
        rw [o8]
        simp
      have hresr : idx_at ({ s with heap := s.heap.take i ++ { blockD s.heap i with size := asize, alloc := true, data := (blockD s.heap i).data.take (asize - wsize) } :: { size := (blockD s.heap i).size - asize, alloc := false, prev_alloc := true, prev_mini := false, data := (blockD s.heap i).data.drop asize } :: set_head_flags false false (s.heap.drop (i + 1)) } : AState).heap (addr_of s.heap i + asize) = some (i + 1) := by
        rw [← h10r']
        refine idx_at_addr_pos _ (pos_of_blocksOk o3) _ ?_
        rw [hlenSP]
        omega
      have hwladd : ListsWF (add_to_free_list ({ s with heap := s.heap.take i ++ { blockD s.heap i with size := asize, alloc := true, data := (blockD s.heap i).data.take (asize - wsize) } :: { size := (blockD s.heap i).size - asize, alloc := false, prev_alloc := true, prev_mini := false, data := (blockD s.heap i).data.drop asize } :: set_head_flags false false (s.heap.drop (i + 1)) } : AState) (addr_of s.heap i + asize)) := by
        refine listsWF_add_free _ _ (i + 1) o5 hresr ?_ ?_ ?_ ?_
        · rw [hlenSP]
          omega
        · rw [h9r]
          rfl
        · rw [h9r]
          show (blockD s.heap i).size - asize ≠ mb_block_size
          unfold mb_block_size
          unfold min_block_size at hrem1
          omega
        · rw [← h10r']
          exact o6 1 (by simp)
      refine ⟨⟨?_, ?_, ?_, ?_, hwladd⟩, ?_, rfl, rfl, ?_, ?_, ?_, ?_, ?_, ?_⟩
      · rw [add_to_free_list_heap]
        exact o1
      · rw [add_to_free_list_heap]
        exact o2
      · rw [add_to_free_list_heap]
        exact o3
      · rw [add_to_free_list_heap]
        exact o4
      · rw [add_to_free_list_heap]
        exact o7
      · rw [add_to_free_list_heap, h9f]
        rfl
      · rw [add_to_free_list_heap, h9f]
        show asize ≤ asize
        exact Nat.le_refl _
      · rw [add_to_free_list_heap, h9f]
        show asize ≤ (blockD s.heap i).size
        exact hle
      · rw [add_to_free_list_heap]
        exact h10f'
      · rw [add_to_free_list_heap, hlenSP]
        omega
      · intro t ht hta
        rw [add_to_free_list_heap]
        have htne : t < i ∨ i + 1 ≤ t := by
          by_contra hcon
          push_neg at hcon
          have hti : t = i := by omega
          subst hti
          rw [halloc] at hta
          exact absurd hta (by decide)
        obtain ⟨t', g1, g2, g3, g4, g5⟩ := o11 t ht htne
        exact ⟨t', g1, g2, g3, by rw [g4]; exact hta, g5⟩
    · rw [if_neg hrem1]
      by_cases hrem2 : (blockD s.heap i).size - asize = mb_block_size
      · rw [if_pos hrem2]
        have hs' : (({ s with heap := s.heap.take i ++ { blockD s.heap i with size := asize, alloc := true, data := (blockD s.heap i).data.take (asize - wsize) } :: { size := mb_block_size, alloc := false, prev_alloc := true, prev_mini := false, data := (blockD s.heap i).data.drop asize } :: set_head_flags false true (s.heap.drop (i + 1)) } : AState)) = { s with heap := splice s.heap i [{ blockD s.heap i with size := asize, alloc := true, data := (blockD s.heap i).data.take (asize - wsize) }, { size := mb_block_size, alloc := false, prev_alloc := true, prev_mini := false, data := (blockD s.heap i).data.drop asize }] (i + 1) false true } := by
          unfold splice
          simp only [List.append_assoc, List.cons_append, List.nil_append]
        obtain ⟨o1, o2, o3, o4, o5, o6, o7, o8, o9, o10, o11⟩ :=
          spliceN_invariants s s i (i + 1) [{ blockD s.heap i with size := asize, alloc := true, data := (blockD s.heap i).data.take (asize - wsize) }, { size := mb_block_size, alloc := false, prev_alloc := true, prev_mini := false, data := (blockD s.heap i).data.drop asize }] false true
            (by omega) hi
            (coherent_take s.heap i hco)
            (coherent_drop s.heap (i + 1) hco)
            (by
              intro x hx y hy
              have hy' := mem_head?_cons hy
              subst hy'
              exact hjlB x hx)
            (by
              rw [List.chain'_pair]
              refine ⟨rfl, ?_⟩
              constructor
              · intro hcon
                have hcon2 : false = true := hcon
                exact absurd hcon2 (by decide)
              · intro hcon
                exfalso
                have h16 : asize = mb_block_size := hcon
                exact ha h16
              )
            (by simp)
            (by
              intro y hy
              have hy' := mem_getLast?_pair hy
              subst hy'
              refine ⟨rfl, ?_⟩
              constructor
              · intro _
                rfl
              · intro _
                rfl)
            hbo hepi hfo
            (by
              intro hk0 y hy
              have hy' := mem_head?_cons hy
              subst hy'
              show (blockD s.heap i).prev_alloc = true
              rw [hk0]
              exact hfo hne)
            (by
              intro b hb
              rcases List.mem_cons.mp hb with hb1 | hb1
              · rw [hb1]
                refine ⟨?_, ?_⟩
                · show mb_block_size ≤ asize
                  exact hasz
                · show asize % dsize = 0
                  exact hmod
              · rcases List.mem_cons.mp hb1 with hb2 | hb2
                · rw [hb2]
                  refine ⟨?_, ?_⟩
                  · show mb_block_size ≤ mb_block_size
                    exact Nat.le_refl _
                  · show mb_block_size % dsize = 0
                    decide
                · exact absurd hb2 (List.not_mem_nil b))
            (by
              have e1 := sum_size_take_succ s.heap i (by omega)
              simp only [List.map_cons, List.map_nil, List.sum_cons,
                List.sum_nil, Nat.add_zero]
              show ((s.heap.take i).map Block.size).sum + (asize + mb_block_size) = ((s.heap.take (i + 1)).map Block.size).sum
              unfold mb_block_size at *
              omega)
            hwl rfl (List.Sublist.refl _) (fun c a h => h) (fun a h => h)
            hexcl _ hs'
        have h9f := o9 0 (by simp)
        simp only [Nat.add_zero] at h9f
        have h10f := o10 0 (by simp)
        simp only [Nat.add_zero] at h10f
        have h10f' : addr_of ({ s with heap := s.heap.take i ++ { blockD s.heap i with size := asize, alloc := true, data := (blockD s.heap i).data.take (asize - wsize) } :: { size := mb_block_size, alloc := false, prev_alloc := true, prev_mini := false, data := (blockD s.heap i).data.drop asize } :: set_head_flags false true (s.heap.drop (i + 1)) } : AState).heap i = addr_of s.heap i := by
          rw [h10f]
          rfl
        have h9r := o9 1 (by simp)
        have h10r := o10 1 (by simp)
        have h10r' : addr_of ({ s with heap := s.heap.take i ++ { blockD s.heap i with size := asize, alloc := true, data := (blockD s.heap i).data.take (asize - wsize) } :: { size := mb_block_size, alloc := false, prev_alloc := true, prev_mini := false, data := (blockD s.heap i).data.drop asize } :: set_head_flags false true (s.heap.drop (i + 1)) } : AState).heap (i + 1) = addr_of s.heap i + asize := by
          rw [h10r]
          rfl
        have hlenSP : ({ s with heap := s.heap.take i ++ { blockD s.heap i with size := asize, alloc := true, data := (blockD s.heap i).data.take (asize - wsize) } :: { size := mb_block_size, alloc := false, prev_alloc := true, prev_mini := false, data := (blockD s.heap i).data.drop asize } :: set_head_flags false true (s.heap.drop (i + 1)) } : AState).heap.length = i + 2 + (s.heap.length - (i + 1)) := by
          rw [o8]
          simp
        have hresr : idx_at ({ s with heap := s.heap.take i ++ { blockD s.heap i with size := asize, alloc := true, data := (blockD s.heap i).data.take (asize - wsize) } :: { size := mb_block_size, alloc := false, prev_alloc := true, prev_mini := false, data := (blockD s.heap i).data.drop asize } :: set_head_flags false true (s.heap.drop (i + 1)) } : AState).heap (addr_of s.heap i + asize) = some (i + 1) := by
          rw [← h10r']
          refine idx_at_addr_pos _ (pos_of_blocksOk o3) _ ?_
          rw [hlenSP]
          omega
        have hwladd : ListsWF (add_to_mini_list ({ s with heap := s.heap.take i ++ { blockD s.heap i with size := asize, alloc := true, data := (blockD s.heap i).data.take (asize - wsize) } :: { size := mb_block_size, alloc := false, prev_alloc := true, prev_mini := false, data := (blockD s.heap i).data.drop asize } :: set_head_flags false true (s.heap.drop (i + 1)) } : AState) (addr_of s.heap i + asize)) := by
          refine listsWF_add_mini _ _ (i + 1) o5 hresr ?_ ?_ ?_ ?_
          · rw [hlenSP]
            omega
          · rw [h9r]
            rfl
          · rw [h9r]
            show (mb_block_size : Nat) = mb_block_size
            rfl
          · rw [← h10r']
            exact o6 1 (by simp)
        refine ⟨⟨?_, ?_, ?_, ?_, hwladd⟩, ?_, rfl, rfl, ?_, ?_, ?_, ?_, ?_, ?_⟩
        · rw [add_to_mini_list_heap]
          exact o1
        · rw [add_to_mini_list_heap]
          exact o2
        · rw [add_to_mini_list_heap]
          exact o3
        · rw [add_to_mini_list_heap]
          exact o4
        · rw [add_to_mini_list_heap]
          exact o7
        · rw [add_to_mini_list_heap, h9f]
          rfl
        · rw [add_to_mini_list_heap, h9f]
          show asize ≤ asize
          exact Nat.le_refl _
        · rw [add_to_mini_list_heap, h9f]
          show asize ≤ (blockD s.heap i).size
          exact hle
        · rw [add_to_mini_list_heap]
          exact h10f'
        · rw [add_to_mini_list_heap, hlenSP]
          omega
        · intro t ht hta
          rw [add_to_mini_list_heap]
          have htne : t < i ∨ i + 1 ≤ t := by
            by_contra hcon
            push_neg at hcon
            have hti : t = i := by omega
            subst hti
            rw [halloc] at hta
            exact absurd hta (by decide)
          obtain ⟨t', g1, g2, g3, g4, g5⟩ := o11 t ht htne
          exact ⟨t', g1, g2, g3, by rw [g4]; exact hta, g5⟩
      · rw [if_neg hrem2]
        have hs' : (({ s with heap := s.heap.take i ++ { blockD s.heap i with alloc := true } :: set_head_flags true false (s.heap.drop (i + 1)) } : AState)) = { s with heap := splice s.heap i [{ blockD s.heap i with alloc := true }] (i + 1) true false } := by
          unfold splice
          simp only [List.append_assoc, List.cons_append, List.nil_append]
        obtain ⟨o1, o2, o3, o4, o5, o6, o7, o8, o9, o10, o11⟩ :=
          spliceN_invariants s s i (i + 1) [{ blockD s.heap i with alloc := true }] true false
            (by omega) hi
            (coherent_take s.heap i hco)
            (coherent_drop s.heap (i + 1) hco)
            (by
              intro x hx y hy
              have hy' := mem_head?_cons hy
              subst hy'
              exact hjlB x hx)
            (List.chain'_singleton _) (by simp)
            (by
              intro y hy
              have hy' := mem_getLast?_singleton hy
              subst hy'
              refine ⟨rfl, ?_⟩
              constructor
              · intro hcon
                exact absurd hcon (by decide)
              · intro hcon
                exfalso
                have h0 : (blockD s.heap i).size = asize := by
                  rcases hrem with h0 | h0 | h0
                  · omega
                  · exact absurd h0 hrem2
                  · exact absurd h0 hrem1
                have h16 : (blockD s.heap i).size = mb_block_size := hcon
                rw [h0] at h16
                exact ha h16)
            hbo hepi hfo
            (by
              intro hk0 y hy
              have hy' := mem_head?_cons hy
              subst hy'
              show (blockD s.heap i).prev_alloc = true
              rw [hk0]
              exact hfo hne)
            (by
              intro b hb
              have hb' := List.mem_singleton.mp hb
              rw [hb']
              exact hBsz)
            (by
              have e1 := sum_size_take_succ s.heap i (by omega)
              simp only [List.map_cons, List.map_nil, List.sum_cons,
                List.sum_nil, Nat.add_zero]
              show ((s.heap.take i).map Block.size).sum + (blockD s.heap i).size = ((s.heap.take (i + 1)).map Block.size).sum
              omega)
            hwl rfl (List.Sublist.refl _) (fun c a h => h) (fun a h => h)
            hexcl _ hs'
        have h9f := o9 0 (by simp)
        simp only [Nat.add_zero] at h9f
        have h10f := o10 0 (by simp)
        simp only [Nat.add_zero] at h10f
        have h10f' : addr_of ({ s with heap := s.heap.take i ++ { blockD s.heap i with alloc := true } :: set_head_flags true false (s.heap.drop (i + 1)) } : AState).heap i = addr_of s.heap i := by
          rw [h10f]
          rfl
        have hlenSP : ({ s with heap := s.heap.take i ++ { blockD s.heap i with alloc := true } :: set_head_flags true false (s.heap.drop (i + 1)) } : AState).heap.length = i + 1 + (s.heap.length - (i + 1)) := by
          rw [o8]
          simp
        refine ⟨⟨o1, o2, o3, o4, o5⟩, o7, rfl, rfl, ?_, ?_, ?_, ?_, ?_, ?_⟩
        · rw [h9f]
          rfl
        · rw [h9f]
          show asize ≤ (blockD s.heap i).size
          exact hle
        · rw [h9f]
          show (blockD s.heap i).size ≤ (blockD s.heap i).size
          exact Nat.le_refl _
        · exact h10f'
        · rw [hlenSP]
          omega
        · intro t ht hta
          have htne : t < i ∨ i + 1 ≤ t := by
            by_contra hcon
            push_neg at hcon
            have hti : t = i := by omega
            subst hti
            rw [halloc] at hta
            exact absurd hta (by decide)
          obtain ⟨t', g1, g2, g3, g4, g5⟩ := o11 t ht htne
          exact ⟨t', g1, g2, g3, by rw [g4]; exact hta, g5⟩

end MM

namespace MM

theorem extend_prep (s : AState) (sz : Nat) (hw : WF s)
    (hszlo : min_block_size ≤ sz) (hszmod : sz % dsize = 0)
    (s1 : AState)
    (hs1 : s1 = { s with heap := s.heap.dropLast ++ [{ size := sz, alloc := false, prev_alloc := (blockD s.heap (s.heap.length - 1)).prev_alloc, prev_mini := (blockD s.heap (s.heap.length - 1)).prev_mini, data := List.replicate (sz - wsize) 0 }, epilogue_block], budget := s.budget - sz }) :
    s1.heap.length = s.heap.length + 1 ∧
    List.Chain' flag_ok (s1.heap.take (s.heap.length - 1 + 1)) ∧
    List.Chain' flag_ok (s1.heap.drop (s.heap.length - 1 + 1)) ∧
    BlocksOk s1.heap ∧ EpilogueOk s1.heap ∧ FirstOk s1.heap ∧
    ListsWF s1 ∧
    addr_of s1.heap (s.heap.length - 1) ∉ all_entries s1 ∧
    blockD s1.heap (s.heap.length - 1) = { size := sz, alloc := false, prev_alloc := (blockD s.heap (s.heap.length - 1)).prev_alloc, prev_mini := (blockD s.heap (s.heap.length - 1)).prev_mini, data := List.replicate (sz - wsize) 0 } ∧
    (∀ t, t < s.heap.length - 1 → blockD s1.heap t = blockD s.heap t) ∧
    (∀ j, j ≤ s.heap.length - 1 → addr_of s1.heap j = addr_of s.heap j) ∧
    (s1.heap.map Block.size).sum = (s.heap.map Block.size).sum + sz := by
  obtain ⟨hco, hepi, hbo, hfo, hwl⟩ := hw
  obtain ⟨hne, hesz, heal⟩ := hepi
  have hlen0 : 0 < s.heap.length := List.length_pos.mpr hne
  have hA : s.heap.dropLast = s.heap.take (s.heap.length - 1) :=
    List.dropLast_eq_take s.heap
  have hAlen : s.heap.dropLast.length = s.heap.length - 1 := by
    rw [hA]
    simp [List.length_take]
  subst hs1
  simp only [upd_heap_heap]
  have hlen1 : (s.heap.dropLast ++ [{ size := sz, alloc := false, prev_alloc := (blockD s.heap (s.heap.length - 1)).prev_alloc, prev_mini := (blockD s.heap (s.heap.length - 1)).prev_mini, data := List.replicate (sz - wsize) 0 }, epilogue_block]).length =
      s.heap.length + 1 := by
    simp [hAlen]
    omega
  have hblkt : ∀ t, t < s.heap.length - 1 →
      blockD (s.heap.dropLast ++ [{ size := sz, alloc := false, prev_alloc := (blockD s.heap (s.heap.length - 1)).prev_alloc, prev_mini := (blockD s.heap (s.heap.length - 1)).prev_mini, data := List.replicate (sz - wsize) 0 }, epilogue_block]) t = blockD s.heap t := by
    intro t ht
    unfold blockD
    rw [List.getD_append _ _ _ _ (by rw [hAlen]; omega)]
    rw [hA]
    exact getD_take_lt s.heap (s.heap.length - 1) t ht
  have hblkL : blockD (s.heap.dropLast ++ [{ size := sz, alloc := false, prev_alloc := (blockD s.heap (s.heap.length - 1)).prev_alloc, prev_mini := (blockD s.heap (s.heap.length - 1)).prev_mini, data := List.replicate (sz - wsize) 0 }, epilogue_block])
      (s.heap.length - 1) = { size := sz, alloc := false, prev_alloc := (blockD s.heap (s.heap.length - 1)).prev_alloc, prev_mini := (blockD s.heap (s.heap.length - 1)).prev_mini, data := List.replicate (sz - wsize) 0 } := by
    unfold blockD
    rw [List.getD_append_right _ _ _ _ (by rw [hAlen])]
    rw [hAlen, Nat.sub_self]
    rfl
  have hblkE : blockD (s.heap.dropLast ++ [{ size := sz, alloc := false, prev_alloc := (blockD s.heap (s.heap.length - 1)).prev_alloc, prev_mini := (blockD s.heap (s.heap.length - 1)).prev_mini, data := List.replicate (sz - wsize) 0 }, epilogue_block])
      s.heap.length = epilogue_block := by
    unfold blockD
    rw [List.getD_append_right _ _ _ _ (by rw [hAlen]; omega)]
    rw [hAlen]
    have e : s.heap.length - (s.heap.length - 1) = 1 := by omega
    rw [e]
    rfl
  have haddr : ∀ j, j ≤ s.heap.length - 1 →
      addr_of (s.heap.dropLast ++ [{ size := sz, alloc := false, prev_alloc := (blockD s.heap (s.heap.length - 1)).prev_alloc, prev_mini := (blockD s.heap (s.heap.length - 1)).prev_mini, data := List.replicate (sz - wsize) 0 }, epilogue_block]) j =
        addr_of s.heap j := by
    intro j hj
    unfold addr_of
    rw [List.take_append_of_le_length (by rw [hAlen]; omega)]
    rw [hA, List.take_take]
    have e : min j (s.heap.length - 1) = j := by omega
    rw [e]
  have htake : (s.heap.dropLast ++ [{ size := sz, alloc := false, prev_alloc := (blockD s.heap (s.heap.length - 1)).prev_alloc, prev_mini := (blockD s.heap (s.heap.length - 1)).prev_mini, data := List.replicate (sz - wsize) 0 }, epilogue_block]).take
      (s.heap.length - 1 + 1) = s.heap.dropLast ++ [{ size := sz, alloc := false, prev_alloc := (blockD s.heap (s.heap.length - 1)).prev_alloc, prev_mini := (blockD s.heap (s.heap.length - 1)).prev_mini, data := List.replicate (sz - wsize) 0 }] := by
    rw [show s.heap.length - 1 + 1 = s.heap.dropLast.length + 1 by rw [hAlen]]
    rw [List.take_append]
    rfl
  have hdrop : (s.heap.dropLast ++ [{ size := sz, alloc := false, prev_alloc := (blockD s.heap (s.heap.length - 1)).prev_alloc, prev_mini := (blockD s.heap (s.heap.length - 1)).prev_mini, data := List.replicate (sz - wsize) 0 }, epilogue_block]).drop
      (s.heap.length - 1 + 1) = [epilogue_block] := by
    rw [show s.heap.length - 1 + 1 = s.heap.dropLast.length + 1 by rw [hAlen]]
    rw [List.drop_append]
    rfl
  have hchain1 : List.Chain' flag_ok (s.heap.dropLast ++ [{ size := sz, alloc := false, prev_alloc := (blockD s.heap (s.heap.length - 1)).prev_alloc, prev_mini := (blockD s.heap (s.heap.length - 1)).prev_mini, data := List.replicate (sz - wsize) 0 }]) := by
    rw [List.chain'_append]
    refine ⟨by rw [hA]; exact coherent_take s.heap _ hco,
      List.chain'_singleton _, ?_⟩
    intro x hx y hy
    have hy' := mem_head?_cons hy
    subst hy'
    rw [hA] at hx
    by_cases h1 : s.heap.length - 1 = 0
    · rw [h1] at hx
      simp at hx
    · rw [getLast?_take_blockD s.heap (s.heap.length - 1) (by omega)
        (by omega)] at hx
      have hx' : x = blockD s.heap (s.heap.length - 1 - 1) := by
        have := hx
        simp at this
        exact this.symm
      subst hx'
      have hp := coherent_pair s.heap (s.heap.length - 1 - 1) hco (by omega)
      have e : s.heap.length - 1 - 1 + 1 = s.heap.length - 1 := by omega
      rw [e] at hp
      exact hp
  have hbo1 : BlocksOk (s.heap.dropLast ++ [{ size := sz, alloc := false, prev_alloc := (blockD s.heap (s.heap.length - 1)).prev_alloc, prev_mini := (blockD s.heap (s.heap.length - 1)).prev_mini, data := List.replicate (sz - wsize) 0 }, epilogue_block]) := by
    intro b hb
    have hdl : (s.heap.dropLast ++ [{ size := sz, alloc := false, prev_alloc := (blockD s.heap (s.heap.length - 1)).prev_alloc, prev_mini := (blockD s.heap (s.heap.length - 1)).prev_mini, data := List.replicate (sz - wsize) 0 }, epilogue_block]).dropLast =
        s.heap.dropLast ++ [{ size := sz, alloc := false, prev_alloc := (blockD s.heap (s.heap.length - 1)).prev_alloc, prev_mini := (blockD s.heap (s.heap.length - 1)).prev_mini, data := List.replicate (sz - wsize) 0 }] := by
      rw [List.dropLast_append_of_ne_nil _ (by simp)]
      rfl
    rw [hdl] at hb
    rcases List.mem_append.mp hb with h1 | h1
    · exact hbo b h1
    · have hb' := List.mem_singleton.mp h1
      rw [hb']
      exact ⟨by show mb_block_size ≤ sz; unfold mb_block_size min_block_size at *; omega, hszmod⟩
  have hepi1 : EpilogueOk (s.heap.dropLast ++ [{ size := sz, alloc := false, prev_alloc := (blockD s.heap (s.heap.length - 1)).prev_alloc, prev_mini := (blockD s.heap (s.heap.length - 1)).prev_mini, data := List.replicate (sz - wsize) 0 }, epilogue_block]) := by
    refine ⟨by simp, ?_, ?_⟩
    · rw [hlen1]
      have e : s.heap.length + 1 - 1 = s.heap.length := by omega
      rw [e, hblkE]
      rfl
    · rw [hlen1]
      have e : s.heap.length + 1 - 1 = s.heap.length := by omega
      rw [e, hblkE]
      rfl
  have hfo1 : FirstOk (s.heap.dropLast ++ [{ size := sz, alloc := false, prev_alloc := (blockD s.heap (s.heap.length - 1)).prev_alloc, prev_mini := (blockD s.heap (s.heap.length - 1)).prev_mini, data := List.replicate (sz - wsize) 0 }, epilogue_block]) := by
    intro _
    by_cases h1 : s.heap.length - 1 = 0
    · have hA0 : s.heap.dropLast = [] := by
        rw [hA, h1]
        rfl
      rw [hA0]
      show (blockD s.heap (s.heap.length - 1)).prev_alloc = true
      rw [h1]
      exact hfo hne
    · rw [hblkt 0 (by omega)]
      exact hfo hne
  have hpos1 : ∀ b ∈ (s.heap.dropLast ++ [{ size := sz, alloc := false, prev_alloc := (blockD s.heap (s.heap.length - 1)).prev_alloc, prev_mini := (blockD s.heap (s.heap.length - 1)).prev_mini, data := List.replicate (sz - wsize) 0 }, epilogue_block]).dropLast,
      0 < b.size := pos_of_blocksOk hbo1
  have hwl1 : ListsWF { s with heap := s.heap.dropLast ++ [{ size := sz, alloc := false, prev_alloc := (blockD s.heap (s.heap.length - 1)).prev_alloc, prev_mini := (blockD s.heap (s.heap.length - 1)).prev_mini, data := List.replicate (sz - wsize) 0 }, epilogue_block], budget := s.budget - sz } := by
    obtain ⟨hwlen, hwreg, hwmini, hwnd⟩ := hwl
    refine ⟨hwlen, ?_, ?_, hwnd⟩
    · intro c hc a ha
      have hro := hwreg c hc a ha
      have hres : idx_at s.heap a = some (entry_idx s a) :=
        entry_idx_resolves s a (Nat.lt_of_succ_lt hro.1)
      have haeq : addr_of s.heap (entry_idx s a) = a := idx_at_some_addr hres
      have htl : entry_idx s a < s.heap.length - 1 := by
        have := hro.1
        omega
      have hres1 : idx_at (s.heap.dropLast ++ [{ size := sz, alloc := false, prev_alloc := (blockD s.heap (s.heap.length - 1)).prev_alloc, prev_mini := (blockD s.heap (s.heap.length - 1)).prev_mini, data := List.replicate (sz - wsize) 0 }, epilogue_block]) a =
          some (entry_idx s a) := by
        have h2 := idx_at_addr_pos _ hpos1 (entry_idx s a)
          (by rw [hlen1]; omega)
        rw [haddr (entry_idx s a) (by omega)] at h2
        rw [haeq] at h2
        exact h2
      have hei : entry_idx { s with heap := s.heap.dropLast ++ [{ size := sz, alloc := false, prev_alloc := (blockD s.heap (s.heap.length - 1)).prev_alloc, prev_mini := (blockD s.heap (s.heap.length - 1)).prev_mini, data := List.replicate (sz - wsize) 0 }, epilogue_block], budget := s.budget - sz } a = entry_idx s a := by
        unfold entry_idx
        simp only [upd_heap_heap]
        rw [hres1]
        rfl
      refine ⟨?_, ?_, ?_, ?_⟩
      · rw [hei]
        simp only [upd_heap_heap]
        rw [hlen1]
        have hh := hro.1
        omega
      · rw [hei]
        simp only [upd_heap_heap]
        rw [hblkt _ htl]
        exact hro.2.1
      · rw [hei]
        simp only [upd_heap_heap]
        rw [hblkt _ htl]
        exact hro.2.2.1
      · rw [hei]
        simp only [upd_heap_heap]
        rw [hblkt _ htl]
        exact hro.2.2.2
    · intro a ha
      have hro := hwmini a ha
      have hres : idx_at s.heap a = some (entry_idx s a) :=
        entry_idx_resolves s a (Nat.lt_of_succ_lt hro.1)
      have haeq : addr_of s.heap (entry_idx s a) = a := idx_at_some_addr hres
      have htl : entry_idx s a < s.heap.length - 1 := by
        have := hro.1
        omega
      have hres1 : idx_at (s.heap.dropLast ++ [{ size := sz, alloc := false, prev_alloc := (blockD s.heap (s.heap.length - 1)).prev_alloc, prev_mini := (blockD s.heap (s.heap.length - 1)).prev_mini, data := List.replicate (sz - wsize) 0 }, epilogue_block]) a =
          some (entry_idx s a) := by
        have h2 := idx_at_addr_pos _ hpos1 (entry_idx s a)
          (by rw [hlen1]; omega)
        rw [haddr (entry_idx s a) (by omega)] at h2
        rw [haeq] at h2
        exact h2
      have hei : entry_idx { s with heap := s.heap.dropLast ++ [{ size := sz, alloc := false, prev_alloc := (blockD s.heap (s.heap.length - 1)).prev_alloc, prev_mini := (blockD s.heap (s.heap.length - 1)).prev_mini, data := List.replicate (sz - wsize) 0 }, epilogue_block], budget := s.budget - sz } a = entry_idx s a := by
        unfold entry_idx
        simp only [upd_heap_heap]
        rw [hres1]
        rfl
      refine ⟨?_, ?_, ?_⟩
      · rw [hei]
        simp only [upd_heap_heap]
        rw [hlen1]
        have hh := hro.1
        omega
      · rw [hei]
        simp only [upd_heap_heap]
        rw [hblkt _ htl]
        exact hro.2.1
      · rw [hei]
        simp only [upd_heap_heap]
        rw [hblkt _ htl]
        exact hro.2.2
  have hfresh : addr_of (s.heap.dropLast ++ [{ size := sz, alloc := false, prev_alloc := (blockD s.heap (s.heap.length - 1)).prev_alloc, prev_mini := (blockD s.heap (s.heap.length - 1)).prev_mini, data := List.replicate (sz - wsize) 0 }, epilogue_block])
      (s.heap.length - 1) ∉ all_entries { s with heap := s.heap.dropLast ++ [{ size := sz, alloc := false, prev_alloc := (blockD s.heap (s.heap.length - 1)).prev_alloc, prev_mini := (blockD s.heap (s.heap.length - 1)).prev_mini, data := List.replicate (sz - wsize) 0 }, epilogue_block], budget := s.budget - sz } := by
    rw [haddr _ (le_refl _)]
    intro hmem
    have hmem' : addr_of s.heap (s.heap.length - 1) ∈ all_entries s := hmem
    have hfacts := listsWF_entry_facts hwl hmem'
    have hres : idx_at s.heap (addr_of s.heap (s.heap.length - 1)) =
        some (entry_idx s (addr_of s.heap (s.heap.length - 1))) :=
      entry_idx_resolves s _ (Nat.lt_of_succ_lt hfacts.1)
    have haeq := idx_at_some_addr hres
    have htl : entry_idx s (addr_of s.heap (s.heap.length - 1)) <
        s.heap.length - 1 := by
      have := hfacts.1
      omega
    have := addr_of_lt_of_lt s.heap _ (s.heap.length - 1)
      (pos_of_blocksOk hbo) htl (by omega)
    omega
  have hsum1 : ((s.heap.dropLast ++ [{ size := sz, alloc := false, prev_alloc := (blockD s.heap (s.heap.length - 1)).prev_alloc, prev_mini := (blockD s.heap (s.heap.length - 1)).prev_mini, data := List.replicate (sz - wsize) 0 }, epilogue_block]).map Block.size).sum =
      (s.heap.map Block.size).sum + sz := by
    rw [List.map_append, List.sum_append]
    have h1 : (s.heap.map Block.size).sum =
        ((s.heap.take (s.heap.length - 1)).map Block.size).sum +
          (blockD s.heap (s.heap.length - 1)).size := by
      have := sum_size_take_succ s.heap (s.heap.length - 1) (by omega)
      rw [show s.heap.length - 1 + 1 = s.heap.length by omega] at this
      rw [List.take_length] at this
      exact this
    rw [hA]
    have h2 : (([{ size := sz, alloc := false, prev_alloc := (blockD s.heap (s.heap.length - 1)).prev_alloc, prev_mini := (blockD s.heap (s.heap.length - 1)).prev_mini, data := List.replicate (sz - wsize) 0 }, epilogue_block] : List Block).map Block.size).sum = sz := by
      show sz + (0 + 0) = sz
      omega
    rw [h2, h1, hesz]
    omega
  exact ⟨hlen1, by rw [htake]; exact hchain1,
    by rw [hdrop]; exact List.chain'_singleton _,
    hbo1, hepi1, hfo1, hwl1, hfresh, hblkL, hblkt, haddr, hsum1⟩

end MM

namespace MM

theorem extend_spec (s : AState) (size : Nat) (hw : WF s)
    (hszlo : min_block_size ≤ round_up size dsize)
    (hszmod : round_up size dsize % dsize = 0)
    (hbud : round_up size dsize ≤ s.budget) :
    WF (extend_heap s size).1 ∧
    ((extend_heap s size).1.heap.map Block.size).sum =
      (s.heap.map Block.size).sum + round_up size dsize ∧
    (extend_heap s size).1.budget = s.budget - round_up size dsize ∧
    (extend_heap s size).1.prologue = s.prologue ∧
    (∃ a j, (extend_heap s size).2 = some a ∧
      idx_at (extend_heap s size).1.heap a = some j ∧
      j + 1 < (extend_heap s size).1.heap.length ∧
      (blockD (extend_heap s size).1.heap j).alloc = false ∧
      round_up size dsize ≤ (blockD (extend_heap s size).1.heap j).size ∧
      addr_of (extend_heap s size).1.heap j = a) ∧
    (∀ t, t + 1 < s.heap.length → (blockD s.heap t).alloc = true →
      ∃ t', idx_at (extend_heap s size).1.heap (addr_of s.heap t) = some t' ∧
        t' + 1 < (extend_heap s size).1.heap.length ∧
        (blockD (extend_heap s size).1.heap t').size =
          (blockD s.heap t).size ∧
        (blockD (extend_heap s size).1.heap t').alloc = true ∧
        (blockD (extend_heap s size).1.heap t').data =
          (blockD s.heap t).data) := by
  obtain ⟨hco, hepi, hbo, hfo, hwl⟩ := hw
  have hlen0 : 0 < s.heap.length := List.length_pos.mpr hepi.1
  have hnotlt : ¬ s.budget < round_up size dsize := not_lt.mpr hbud
  set s1 : AState := { s with heap := s.heap.dropLast ++ [{ size := round_up size dsize, alloc := false, prev_alloc := (blockD s.heap (s.heap.length - 1)).prev_alloc, prev_mini := (blockD s.heap (s.heap.length - 1)).prev_mini, data := List.replicate (round_up size dsize - wsize) 0 }, epilogue_block], budget := s.budget - round_up size dsize } with hs1def
  obtain ⟨e1, e2, e3, e4, e5, e6, e7, e8, e9, e10, e11, e12⟩ :=
    extend_prep s (round_up size dsize) ⟨hco, hepi, hbo, hfo, hwl⟩ hszlo
      hszmod s1 hs1def
  obtain ⟨c1, c2, c3, c4, c5, c6, c7, c8, c9, c10, c11, c12, c13, c14, c15⟩ :=
    coalesce_spec s1 (s.heap.length - 1)
      (by rw [e1]; omega)
      (by rw [e9])
      e2 e3 e4 e5 e6 e7 e8
  have hext : extend_heap s size = (add_to_free_list (coalesce_block s1 (s.heap.length - 1)).1 (addr_of (coalesce_block s1 (s.heap.length - 1)).1.heap (coalesce_block s1 (s.heap.length - 1)).2), some (addr_of (coalesce_block s1 (s.heap.length - 1)).1.heap (coalesce_block s1 (s.heap.length - 1)).2)) := by
    rw [hs1def]
    unfold extend_heap
    rw [if_neg hnotlt]
  have hszj : round_up size dsize ≤
      (blockD (coalesce_block s1 (s.heap.length - 1)).1.heap
        (coalesce_block s1 (s.heap.length - 1)).2).size := by
    have := c9
    rw [e9] at this
    exact this
  have hresj : idx_at (coalesce_block s1 (s.heap.length - 1)).1.heap
      (addr_of (coalesce_block s1 (s.heap.length - 1)).1.heap
        (coalesce_block s1 (s.heap.length - 1)).2) =
      some (coalesce_block s1 (s.heap.length - 1)).2 :=
    idx_at_addr_pos _ (pos_of_blocksOk c3) _ (by omega)
  have hwladd : ListsWF (add_to_free_list
      (coalesce_block s1 (s.heap.length - 1)).1
      (addr_of (coalesce_block s1 (s.heap.length - 1)).1.heap
        (coalesce_block s1 (s.heap.length - 1)).2)) := by
    refine listsWF_add_free _ _ _ c5 hresj c6 c8 ?_ c7
    intro hx
    rw [hx] at hszj
    unfold min_block_size mb_block_size at *
    omega
  rw [hext]
  dsimp only []
  refine ⟨⟨?_, ?_, ?_, ?_, hwladd⟩, ?_, ?_, ?_, ?_, ?_⟩
  · rw [add_to_free_list_heap]
    exact c1
  · rw [add_to_free_list_heap]
    exact c2
  · rw [add_to_free_list_heap]
    exact c3
  · rw [add_to_free_list_heap]
    exact c4
  · rw [add_to_free_list_heap, c10, e12]
  · rw [add_to_free_list_budget, c11]
  · rw [add_to_free_list_prologue, c12]
  · refine ⟨addr_of (coalesce_block s1 (s.heap.length - 1)).1.heap
      (coalesce_block s1 (s.heap.length - 1)).2,
      (coalesce_block s1 (s.heap.length - 1)).2, rfl, ?_, ?_, ?_, ?_, ?_⟩
    · rw [add_to_free_list_heap]
      exact hresj
    · rw [add_to_free_list_heap]
      exact c6
    · rw [add_to_free_list_heap]
      exact c8
    · rw [add_to_free_list_heap]
      exact hszj
    · rw [add_to_free_list_heap]
  · intro t ht hta
    have htl : t < s.heap.length - 1 := by omega
    obtain ⟨t', g1, g2, g3, g4, g5⟩ := c14 t (by rw [e1]; omega)
      (by rw [e10 t htl]; exact hta)
    rw [e11 t (by omega)] at g1
    rw [e10 t htl] at g3 g5
    rw [add_to_free_list_heap]
    exact ⟨t', g1, g2, g3, g4, g5⟩

end MM

namespace MM

theorem best_loop_cases (s : AState) (asize : Nat) :
    ∀ (l : List Nat) (cnt : Nat) (best : Option Nat) (bestSize : Nat)
      (b : Nat), best_loop s asize l cnt best bestSize = some b →
      (b ∈ l ∧ asize ≤ size_at s b) ∨ best = some b := by
  intro l
  induction l with
  | nil =>
    intro cnt best bestSize b hb
    exact Or.inr hb
  | cons x rest ih =>
    intro cnt best bestSize b hb
    unfold best_loop at hb
    by_cases hcnt : cnt < MAX_SEARCH
    · rw [if_pos hcnt] at hb
      by_cases hfit : asize ≤ size_at s x
      · rw [if_pos hfit] at hb
        by_cases hlt : size_at s x < bestSize
        · rw [if_pos hlt] at hb
          rcases ih _ _ _ _ hb with ⟨hmem, hsz⟩ | heq
          · exact Or.inl ⟨List.mem_cons_of_mem x hmem, hsz⟩
          · have hbx : b = x := (Option.some.inj heq).symm
            subst hbx
            exact Or.inl ⟨List.mem_cons_self b rest, hfit⟩
        · rw [if_neg hlt] at hb
          rcases ih _ _ _ _ hb with ⟨hmem, hsz⟩ | heq
          · exact Or.inl ⟨List.mem_cons_of_mem x hmem, hsz⟩
          · exact Or.inr heq
      · rw [if_neg hfit] at hb
        rcases ih _ _ _ _ hb with ⟨hmem, hsz⟩ | heq
        · exact Or.inl ⟨List.mem_cons_of_mem x hmem, hsz⟩
        · exact Or.inr heq
    · rw [if_neg hcnt] at hb
      exact Or.inr hb

theorem scan_classes_mem (s : AState) (asize : Nat) :
    ∀ (cl : List Nat) (b : Nat), scan_classes s asize cl = some b →
      ∃ c ∈ cl, b ∈ getClass s c ∧ asize ≤ size_at s b := by
  intro cl
  induction cl with
  | nil =>
    intro b hb
    exact absurd hb (by simp [scan_classes])
  | cons c rest ih =>
    intro b hb
    unfold scan_classes at hb
    cases hbl : best_loop s asize (getClass s c) 0 none SIZE_MAX64 with
    | some b' =>
      rw [hbl] at hb
      have hbb : b' = b := Option.some.inj hb
      subst hbb
      rcases best_loop_cases s asize _ _ _ _ _ hbl with ⟨hmem, hsz⟩ | heq
      · exact ⟨c, List.mem_cons_self c rest, hmem, hsz⟩
      · exact absurd heq (by simp)
    | none =>
      rw [hbl] at hb
      obtain ⟨c', hc', hmem, hsz⟩ := ih b hb
      exact ⟨c', List.mem_cons_of_mem c hc', hmem, hsz⟩

theorem find_fit_facts (s : AState) (asize a : Nat)
    (ha : find_fit s asize = some a) :
    (a ∈ s.mini_list ∧ asize ≤ mb_block_size) ∨
      (∃ c, c < NUM_CLASSES ∧ a ∈ getClass s c ∧ asize ≤ size_at s a) := by
  unfold find_fit at ha
  dsimp only [] at ha
  by_cases hfast : asize ≤ mb_block_size
  · rw [if_pos hfast] at ha
    cases hml : s.mini_list with
    | cons m t =>
      rw [hml] at ha
      dsimp only [] at ha
      have : m = a := Option.some.inj ha
      subst this
      exact Or.inl ⟨List.mem_cons_self m t, hfast⟩
    | nil =>
      rw [hml] at ha
      dsimp only [] at ha
      rcases hfind : (getClass s (size_to_class asize)).find?
          (fun x => decide (asize ≤ size_at s x)) with _ | b
      · rw [hfind] at ha
        obtain ⟨c, hc, hmem, hsz⟩ := scan_classes_mem s asize _ a ha
        have hcN : c < NUM_CLASSES := by
          have := List.mem_range.mp (List.mem_of_mem_drop hc)
          exact this
        exact Or.inr ⟨c, hcN, hmem, hsz⟩
      · rw [hfind] at ha
        have hba : b = a := Option.some.inj ha
        subst hba
        refine Or.inr ⟨size_to_class asize, size_to_class_lt asize,
          List.mem_of_find?_eq_some hfind, ?_⟩
        have := List.find?_some hfind
        exact of_decide_eq_true this
  · rw [if_neg hfast] at ha
    dsimp only [] at ha
    rcases hfind : (getClass s (size_to_class asize)).find?
        (fun x => decide (asize ≤ size_at s x)) with _ | b
    · rw [hfind] at ha
      obtain ⟨c, hc, hmem, hsz⟩ := scan_classes_mem s asize _ a ha
      have hcN : c < NUM_CLASSES := by
        have := List.mem_range.mp (List.mem_of_mem_drop hc)
        exact this
      exact Or.inr ⟨c, hcN, hmem, hsz⟩
    · rw [hfind] at ha
      have hba : b = a := Option.some.inj ha
      subst hba
      refine Or.inr ⟨size_to_class asize, size_to_class_lt asize,
        List.mem_of_find?_eq_some hfind, ?_⟩
      have := List.find?_some hfind
      exact of_decide_eq_true this

theorem round_up16_facts (x : Nat) :
    round_up x dsize % dsize = 0 ∧ round_up x dsize ≤ U64 - dsize := by
  unfold round_up dsize U64
  have h1 : (x + (16 - 1)) % 2 ^ 64 < 2 ^ 64 :=
    Nat.mod_lt _ (by omega)
  have h2 : 16 * ((x + (16 - 1)) % 2 ^ 64 / 16) ≤
      (x + (16 - 1)) % 2 ^ 64 := by omega
  have h3 : (16 * ((x + (16 - 1)) % 2 ^ 64 / 16)) %
      2 ^ 64 = 16 * ((x + (16 - 1)) % 2 ^ 64 / 16) :=
    Nat.mod_eq_of_lt (by omega)
  rw [h3]
  constructor
  · omega
  · omega

theorem malloc_asize_facts (n : Nat) :
    mb_block_size ≤ malloc_asize n ∧ malloc_asize n % dsize = 0 ∧
      malloc_asize n ≤ U64 - dsize := by
  unfold malloc_asize
  by_cases h8 : n ≤ mb_dsize
  · rw [if_pos h8]
    refine ⟨Nat.le_refl _, by decide, by decide⟩
  · rw [if_neg h8]
    have hr := round_up16_facts ((n + wsize) % U64)
    refine ⟨?_, ?_, ?_⟩
    · refine le_trans ?_ (Nat.le_max_right _ _)
      decide
    · rcases max_choice (round_up ((n + wsize) % U64) dsize)
        min_block_size with hm | hm
      · have hm' : (round_up ((n + wsize) % U64) dsize).max min_block_size =
            round_up ((n + wsize) % U64) dsize := hm
        rw [hm']
        exact hr.1
      · have hm' : (round_up ((n + wsize) % U64) dsize).max min_block_size =
            min_block_size := hm
        rw [hm']
        decide
    · rcases max_choice (round_up ((n + wsize) % U64) dsize)
        min_block_size with hm | hm
      · have hm' : (round_up ((n + wsize) % U64) dsize).max min_block_size =
            round_up ((n + wsize) % U64) dsize := hm
        rw [hm']
        exact hr.2
      · have hm' : (round_up ((n + wsize) % U64) dsize).max min_block_size =
            min_block_size := hm
        rw [hm']
        decide

theorem round_up_exact (x : Nat) (hmod : x % dsize = 0)
    (hlt : x + 15 < U64) : round_up x dsize = x := by
  unfold round_up dsize U64 at *
  omega

theorem addr_of_mod8 (h : List Block) (hbo : BlocksOk h) :
    ∀ i, i < h.length → addr_of h i % dsize = wsize := by
  intro i
  induction i with
  | zero =>
    intro _
    rw [addr_of_zero]
    decide
  | succ j ih =>
    intro hj
    rw [addr_of_succ h j (by omega)]
    have hjsz := (blocksOk_iff_index h).mp hbo j (by omega)
    have hih := ih (by omega)
    unfold dsize wsize at *
    omega

theorem extend_some_budget (s : AState) (e a : Nat)
    (hr : (extend_heap s e).2 = some a) :
    round_up e dsize ≤ s.budget := by
  by_contra hcon
  have hx : extend_heap s e = (s, none) := by
    unfold extend_heap
    rw [if_pos (by omega)]
  rw [hx] at hr
  exact Option.noConfusion hr

end MM

namespace MM

theorem malloc_spec (s : AState) (n : Nat) (hw : WF s) :
    WF (malloc s n).1 ∧
    (malloc s n).1.prologue = s.prologue ∧
    (∃ d, ((malloc s n).1.heap.map Block.size).sum =
        (s.heap.map Block.size).sum + d ∧
      (malloc s n).1.budget = s.budget - d ∧ d ≤ s.budget ∧
      (d = 0 ∨ chunksize ≤ d)) ∧
    (∀ p, (malloc s n).2 = some p → p % dsize = 0 ∧
      (∃ i, idx_at (malloc s n).1.heap (p - wsize) = some i ∧
        i + 1 < (malloc s n).1.heap.length ∧
        (blockD (malloc s n).1.heap i).alloc = true ∧
        malloc_asize n ≤ (blockD (malloc s n).1.heap i).size) ∧
      (∀ t, t + 1 < s.heap.length → (blockD s.heap t).alloc = true →
        addr_of s.heap t ≠ p - wsize)) ∧
    (∀ t, t + 1 < s.heap.length → (blockD s.heap t).alloc = true →
      ∃ t', idx_at (malloc s n).1.heap (addr_of s.heap t) = some t' ∧
        t' + 1 < (malloc s n).1.heap.length ∧
        (blockD (malloc s n).1.heap t').size = (blockD s.heap t).size ∧
        (blockD (malloc s n).1.heap t').alloc = true ∧
        (blockD (malloc s n).1.heap t').data = (blockD s.heap t).data) := by
  obtain ⟨hco, hepi, hbo, hfo, hwl⟩ := hw
  have hAF := malloc_asize_facts n
  have hposS : ∀ b ∈ s.heap.dropLast, 0 < b.size := pos_of_blocksOk hbo
  have htriv : malloc s n = (s, none) →
      (WF (malloc s n).1 ∧
      (malloc s n).1.prologue = s.prologue ∧
      (∃ d, ((malloc s n).1.heap.map Block.size).sum =
          (s.heap.map Block.size).sum + d ∧
        (malloc s n).1.budget = s.budget - d ∧ d ≤ s.budget ∧
        (d = 0 ∨ chunksize ≤ d)) ∧
      (∀ p, (malloc s n).2 = some p → p % dsize = 0 ∧
        (∃ i, idx_at (malloc s n).1.heap (p - wsize) = some i ∧
          i + 1 < (malloc s n).1.heap.length ∧
          (blockD (malloc s n).1.heap i).alloc = true ∧
          malloc_asize n ≤ (blockD (malloc s n).1.heap i).size) ∧
        (∀ t, t + 1 < s.heap.length → (blockD s.heap t).alloc = true →
          addr_of s.heap t ≠ p - wsize)) ∧
      (∀ t, t + 1 < s.heap.length → (blockD s.heap t).alloc = true →
        ∃ t', idx_at (malloc s n).1.heap (addr_of s.heap t) = some t' ∧
          t' + 1 < (malloc s n).1.heap.length ∧
          (blockD (malloc s n).1.heap t').size = (blockD s.heap t).size ∧
          (blockD (malloc s n).1.heap t').alloc = true ∧
          (blockD (malloc s n).1.heap t').data = (blockD s.heap t).data)) := by
    intro hmeq
    rw [hmeq]
    refine ⟨⟨hco, hepi, hbo, hfo, hwl⟩, rfl, ⟨0, by simp, by simp,
      Nat.zero_le _, Or.inl rfl⟩, ?_, ?_⟩
    · intro p hp
      exact absurd hp (by simp)
    · intro t ht hta
      exact ⟨t, idx_at_addr_pos s.heap hposS t (by omega), ht, rfl, hta, rfl⟩
  by_cases hn0 : n = 0
  · exact htriv (by rw [hn0]; exact malloc_zero s)
  cases hff : find_fit s (malloc_asize n) with
  | some a =>
    have hfacts := find_fit_facts s (malloc_asize n) a hff
    have hmem : a ∈ all_entries s := by
      rcases hfacts with ⟨h1, _⟩ | ⟨c, _, h1, _⟩
      · exact mem_all_entries_of_mini h1
      · exact mem_all_entries_of_class h1
    have hef := listsWF_entry_facts hwl hmem
    have hresa : idx_at s.heap a = some (entry_idx s a) :=
      entry_idx_resolves s a (Nat.lt_of_succ_lt hef.1)
    have haddra : addr_of s.heap (entry_idx s a) = a := idx_at_some_addr hresa
    have hsize_at : size_at s a = (blockD s.heap (entry_idx s a)).size := by
      unfold size_at
      rw [hresa]
    have halign : a % dsize = wsize := by
      rw [← haddra]
      exact addr_of_mod8 s.heap hbo (entry_idx s a)
        (Nat.lt_of_succ_lt hef.1)
    by_cases hcond : malloc_asize n = mb_block_size ∧ mini_at s a = true
    · -- mini fast path
      have hsz16 : (blockD s.heap (entry_idx s a)).size = mb_block_size := by
        have h1 := hcond.2
        unfold mini_at at h1
        rw [hsize_at] at h1
        exact beq_iff_eq.mp h1
      have hmeq : malloc s n = ({ rem_from_mini_list s a with heap := s.heap.take (entry_idx s a) ++ { blockD s.heap (entry_idx s a) with size := mb_block_size, alloc := true } :: set_head_flags true true (s.heap.drop (entry_idx s a + 1)) }, some (a + wsize)) := by
        unfold malloc
        rw [if_neg hn0]
        dsimp only []
        rw [hff]
        dsimp only []
        rw [if_pos hcond, hresa]
        dsimp only []
        simp only [rem_from_mini_list_heap]
      have hfreshrem : a ∉ all_entries (rem_from_mini_list s a) :=
        not_mem_entries_rem_mini hwl hresa hsz16
      have hexcl : ∀ x ∈ all_entries (rem_from_mini_list s a), ∀ t,
          idx_at s.heap x = some t →
          t < entry_idx s a ∨ entry_idx s a + 1 ≤ t := by
        intro x hx t ht
        by_contra hcon
        push_neg at hcon
        have hti : t = entry_idx s a := by omega
        subst hti
        have hxa : a = x := by
          rw [← haddra]
          exact idx_at_some_addr ht
        subst hxa
        exact hfreshrem hx
      have hs' : ({ rem_from_mini_list s a with heap := s.heap.take (entry_idx s a) ++ { blockD s.heap (entry_idx s a) with size := mb_block_size, alloc := true } :: set_head_flags true true (s.heap.drop (entry_idx s a + 1)) } : AState) = { rem_from_mini_list s a with heap := splice s.heap (entry_idx s a) [{ blockD s.heap (entry_idx s a) with size := mb_block_size, alloc := true }] (entry_idx s a + 1) true true } := by
        unfold splice
        simp only [List.append_assoc, List.singleton_append]
      obtain ⟨o1, o2, o3, o4, o5, o6, o7, o8, o9, o10, o11⟩ :=
        spliceN_invariants s (rem_from_mini_list s a) (entry_idx s a)
          (entry_idx s a + 1) [{ blockD s.heap (entry_idx s a) with size := mb_block_size, alloc := true }] true true
          (by omega) hef.1
          (coherent_take s.heap _ hco)
          (coherent_drop s.heap _ hco)
          (by
            intro x hx y hy
            have hy' := mem_head?_cons hy
            subst hy'
            by_cases hi0 : entry_idx s a = 0
            · rw [hi0] at hx
              simp at hx
            · rw [getLast?_take_blockD s.heap (entry_idx s a) (by omega)
                (by omega)] at hx
              have hx' : x = blockD s.heap (entry_idx s a - 1) := by
                have := hx
                simp at this
                exact this.symm
              subst hx'
              have hp := coherent_pair s.heap (entry_idx s a - 1) hco (by omega)
              have e : entry_idx s a - 1 + 1 = entry_idx s a := by omega
              rw [e] at hp
              exact hp)
          (List.chain'_singleton _) (by simp)
          (by
            intro y hy
            have hy' := mem_getLast?_singleton hy
            subst hy'
            refine ⟨rfl, ?_⟩
            constructor
            · intro _
              rfl
            · intro _
              rfl)
          hbo hepi hfo
          (by
            intro hk0 y hy
            have hy' := mem_head?_cons hy
            subst hy'
            show (blockD s.heap (entry_idx s a)).prev_alloc = true
            rw [hk0]
            exact hfo (by intro hz; rw [hz] at hef; simp at hef))
          (by
            intro b hb
            have hb' := List.mem_singleton.mp hb
            rw [hb']
            refine ⟨Nat.le_refl _, ?_⟩
            show mb_block_size % dsize = 0
            decide)
          (by
            have e1 := sum_size_take_succ s.heap (entry_idx s a) (by omega)
            simp only [List.map_cons, List.map_nil, List.sum_cons,
              List.sum_nil, Nat.add_zero]
            show ((s.heap.take (entry_idx s a)).map Block.size).sum + mb_block_size = ((s.heap.take (entry_idx s a + 1)).map Block.size).sum
            rw [← hsz16]
            omega)
          hwl rfl (all_entries_rem_mini s a)
          (by
            intro c x hx
            rw [getClass_rem_mini] at hx
            exact hx)
          (by
            intro x hx
            rw [rem_from_mini_list_mini] at hx
            exact (List.erase_subset _ _) hx)
          hexcl _ hs'
      have h9f := o9 0 (by simp)
      simp only [Nat.add_zero] at h9f
      have h10f := o10 0 (by simp)
      simp only [Nat.add_zero] at h10f
      have h10f' : addr_of ({ rem_from_mini_list s a with heap := s.heap.take (entry_idx s a) ++ { blockD s.heap (entry_idx s a) with size := mb_block_size, alloc := true } :: set_head_flags true true (s.heap.drop (entry_idx s a + 1)) } : AState).heap (entry_idx s a) =
          addr_of s.heap (entry_idx s a) := by
        rw [h10f]
        rfl
      have hlen' : ({ rem_from_mini_list s a with heap := s.heap.take (entry_idx s a) ++ { blockD s.heap (entry_idx s a) with size := mb_block_size, alloc := true } :: set_head_flags true true (s.heap.drop (entry_idx s a + 1)) } : AState).heap.length = s.heap.length := by
        rw [o8]
        simp
        omega
      rw [hmeq]
      dsimp only []
      refine ⟨⟨o1, o2, o3, o4, o5⟩, rfl, ⟨0, by rw [o7]; omega, by simp,
        Nat.zero_le _, Or.inl rfl⟩, ?_, ?_⟩
      · intro p hp
        have hpa : p = a + wsize := (Option.some.inj hp).symm
        subst hpa
        refine ⟨?_, ?_, ?_⟩
        rotate_right
        · intro t ht hta hteq
          have hpw : a + wsize - wsize = a := by
            unfold wsize
            omega
          rw [hpw] at hteq
          have h2 := idx_at_addr_pos s.heap hposS t (by omega)
          rw [hteq, hresa] at h2
          have hti : t = entry_idx s a := (Option.some.inj h2).symm
          subst hti
          rw [hef.2] at hta
          exact absurd hta (by decide)
        · unfold dsize wsize at halign ⊢
          omega
        · have hpw : a + wsize - wsize = a := by
            unfold wsize
            omega
          rw [hpw]
          refine ⟨entry_idx s a, ?_, ?_, ?_, ?_⟩
          · have h2 := idx_at_addr_pos _ (pos_of_blocksOk o3) (entry_idx s a)
              (by rw [hlen']; omega)
            rw [h10f', haddra] at h2
            exact h2
          · rw [hlen']
            exact hef.1
          · rw [h9f]
            rfl
          · rw [h9f]
            show malloc_asize n ≤ mb_block_size
            rw [hcond.1]
      · intro t ht hta
        have htne : t < entry_idx s a ∨ entry_idx s a + 1 ≤ t := by
          by_contra hcon
          push_neg at hcon
          have hti : t = entry_idx s a := by omega
          subst hti
          rw [hef.2] at hta
          exact absurd hta (by decide)
        obtain ⟨t', g1, g2, g3, g4, g5⟩ := o11 t ht htne
        exact ⟨t', g1, g2, g3, by rw [g4]; exact hta, g5⟩
    · -- regular split path
      rcases hfacts with ⟨hminimem, hle16⟩ | ⟨c, hcN, hmemc, hsizea⟩
      · exfalso
        have hmo := hwl.2.2.1 a hminimem
        have hsz : (blockD s.heap (entry_idx s a)).size = mb_block_size :=
          hmo.2.2
        have hma : mini_at s a = true := by
          unfold mini_at
          rw [hsize_at, hsz]
          simp
        have hasz16 : malloc_asize n = mb_block_size := by
          have h1 := hAF.1
          omega
        exact hcond ⟨hasz16, hma⟩
      · have hro := hwl.2.1 c hcN a hmemc
        have hsz16' : (blockD s.heap (entry_idx s a)).size ≠ mb_block_size :=
          hro.2.2.1
        have hfreshrem : a ∉ all_entries (rem_from_free_list s a) :=
          not_mem_entries_rem_free hwl hresa hsz16'
        have hmeq : malloc s n = (split_block (rem_from_free_list s a) (entry_idx s a) (malloc_asize n), some (a + wsize)) := by
          unfold malloc
          rw [if_neg hn0]
          dsimp only []
          rw [hff]
          dsimp only []
          rw [if_neg hcond, hresa]
        obtain ⟨p1, p2, p3, p4, p5, p6, p7, p8, p9, p10⟩ :=
          split_spec (rem_from_free_list s a) (entry_idx s a) (malloc_asize n)
            (by rw [rem_from_free_list_heap]; exact hco)
            (by rw [rem_from_free_list_heap]; exact hepi)
            (by rw [rem_from_free_list_heap]; exact hbo)
            (by rw [rem_from_free_list_heap]; exact hfo)
            (listsWF_rem_free s a hwl)
            (by rw [rem_from_free_list_heap]; exact hef.1)
            (by rw [rem_from_free_list_heap]; exact hef.2)
            hAF.1 hAF.2.1
            (by rw [rem_from_free_list_heap, ← hsize_at]; exact hsizea)
            (by rw [rem_from_free_list_heap, haddra]; exact hfreshrem)
        rw [hmeq]
        dsimp only []
        refine ⟨p1, ?_, ⟨0, ?_, ?_, Nat.zero_le _, Or.inl rfl⟩, ?_, ?_⟩
        · rw [p4, rem_from_free_list_prologue]
        · rw [p2, rem_from_free_list_heap]
          omega
        · rw [p3, rem_from_free_list_budget]
          omega
        · intro p hp
          have hpa : p = a + wsize := (Option.some.inj hp).symm
          subst hpa
          refine ⟨?_, ?_, ?_⟩
          rotate_right
          · intro t ht hta hteq
            have hpw : a + wsize - wsize = a := by
              unfold wsize
              omega
            rw [hpw] at hteq
            have h2 := idx_at_addr_pos s.heap hposS t (by omega)
            rw [hteq, hresa] at h2
            have hti : t = entry_idx s a := (Option.some.inj h2).symm
            subst hti
            rw [hef.2] at hta
            exact absurd hta (by decide)
          · unfold dsize wsize at halign ⊢
            omega
          · have hpw : a + wsize - wsize = a := by
              unfold wsize
              omega
            rw [hpw]
            refine ⟨entry_idx s a, ?_, p9, p5, p6⟩
            have h2 := idx_at_addr_pos _ (pos_of_blocksOk p1.2.2.1)
              (entry_idx s a) (by omega)
            rw [p8, rem_from_free_list_heap, haddra] at h2
            exact h2
        · intro t ht hta
          obtain ⟨t', g1, g2, g3, g4, g5⟩ := p10 t
            (by rw [rem_from_free_list_heap]; exact ht)
            (by rw [rem_from_free_list_heap]; exact hta)
          rw [rem_from_free_list_heap] at g1 g3 g5
          exact ⟨t', g1, g2, g3, g4, g5⟩
  | none =>
    have hemod : Nat.max (malloc_asize n) chunksize % dsize = 0 := by
      rcases max_choice (malloc_asize n) chunksize with hm | hm
      · have hm' : Nat.max (malloc_asize n) chunksize = malloc_asize n := hm
        rw [hm']
        exact hAF.2.1
      · have hm' : Nat.max (malloc_asize n) chunksize = chunksize := hm
        rw [hm']
        decide
    have hele : Nat.max (malloc_asize n) chunksize ≤ U64 - dsize := by
      rcases max_choice (malloc_asize n) chunksize with hm | hm
      · have hm' : Nat.max (malloc_asize n) chunksize = malloc_asize n := hm
        rw [hm']
        exact hAF.2.2
      · have hm' : Nat.max (malloc_asize n) chunksize = chunksize := hm
        rw [hm']
        decide
    have heru : round_up (Nat.max (malloc_asize n) chunksize) dsize =
        Nat.max (malloc_asize n) chunksize :=
      round_up_exact _ hemod (by unfold U64 at hele ⊢; unfold dsize at hele; omega)
    have hminle : min_block_size ≤
        round_up (Nat.max (malloc_asize n) chunksize) dsize := by
      rw [heru]
      exact le_trans (by decide) (Nat.le_max_right _ _)
    cases hr2 : (extend_heap s (Nat.max (malloc_asize n) chunksize)).2 with
    | none =>
      refine htriv ?_
      have hpe : extend_heap s (Nat.max (malloc_asize n) chunksize) =
          ((extend_heap s (Nat.max (malloc_asize n) chunksize)).1,
            (extend_heap s (Nat.max (malloc_asize n) chunksize)).2) := rfl
      rw [hr2] at hpe
      have hfr := extend_heap_none_frame hpe
      rw [hfr] at hpe
      unfold malloc
      rw [if_neg hn0]
      dsimp only []
      rw [hff]
      dsimp only []
      rw [hpe]
    | some a =>
      have hbud' : round_up (Nat.max (malloc_asize n) chunksize) dsize ≤
          s.budget := extend_some_budget s _ a hr2
      obtain ⟨x1, x2, x3, x4, x5, x6⟩ :=
        extend_spec s (Nat.max (malloc_asize n) chunksize)
          ⟨hco, hepi, hbo, hfo, hwl⟩ hminle (by rw [heru]; exact hemod) hbud'
      obtain ⟨a', j, hsome, hresa', hjlen, hjalloc, hjsize, hjaddr⟩ := x5
      rw [hr2] at hsome
      have haa := Option.some.inj hsome
      subst haa
      obtain ⟨hcoE, hepiE, hboE, hfoE, hwlE⟩ := x1
      have hjsize' : Nat.max (malloc_asize n) chunksize ≤
          (blockD (extend_heap s (Nat.max (malloc_asize n) chunksize)).1.heap j).size := by
        rw [heru] at hjsize
        exact hjsize
      have hsz16E : (blockD (extend_heap s (Nat.max (malloc_asize n) chunksize)).1.heap j).size ≠ mb_block_size := by
        intro hx
        rw [hx] at hjsize'
        have h1 : chunksize ≤ Nat.max (malloc_asize n) chunksize :=
          Nat.le_max_right _ _
        unfold chunksize mb_block_size at *
        omega
      have hfreshE : a ∉ all_entries (rem_from_free_list (extend_heap s (Nat.max (malloc_asize n) chunksize)).1 a) :=
        not_mem_entries_rem_free hwlE hresa' hsz16E
      have hpe : extend_heap s (Nat.max (malloc_asize n) chunksize) =
          ((extend_heap s (Nat.max (malloc_asize n) chunksize)).1,
            (extend_heap s (Nat.max (malloc_asize n) chunksize)).2) := rfl
      rw [hr2] at hpe
      have hmeq : malloc s n = (split_block (rem_from_free_list (extend_heap s (Nat.max (malloc_asize n) chunksize)).1 a) j (malloc_asize n), some (a + wsize)) := by
        unfold malloc
        rw [if_neg hn0]
        dsimp only []
        rw [hff]
        dsimp only []
        rw [hpe]
        dsimp only []
        rw [hresa']
      obtain ⟨p1, p2, p3, p4, p5, p6, p7, p8, p9, p10⟩ :=
        split_spec (rem_from_free_list (extend_heap s (Nat.max (malloc_asize n) chunksize)).1 a) j (malloc_asize n)
          (by rw [rem_from_free_list_heap]; exact hcoE)
          (by rw [rem_from_free_list_heap]; exact hepiE)
          (by rw [rem_from_free_list_heap]; exact hboE)
          (by rw [rem_from_free_list_heap]; exact hfoE)
          (listsWF_rem_free (extend_heap s (Nat.max (malloc_asize n) chunksize)).1 a hwlE)
          (by rw [rem_from_free_list_heap]; exact hjlen)
          (by rw [rem_from_free_list_heap]; exact hjalloc)
          hAF.1 hAF.2.1
          (by
            rw [rem_from_free_list_heap]
            exact le_trans (Nat.le_max_left _ _) hjsize')
          (by rw [rem_from_free_list_heap, hjaddr]; exact hfreshE)
      have halignE : a % dsize = wsize := by
        rw [← hjaddr]
        exact addr_of_mod8 _ hboE j (Nat.lt_of_succ_lt hjlen)
      rw [hmeq]
      dsimp only []
      refine ⟨p1, ?_, ⟨Nat.max (malloc_asize n) chunksize, ?_, ?_, ?_,
        Or.inr (Nat.le_max_right _ _)⟩, ?_, ?_⟩
      · rw [p4, rem_from_free_list_prologue]
        exact x4
      · rw [p2, rem_from_free_list_heap, x2, heru]
      · rw [p3, rem_from_free_list_budget, x3, heru]
      · rw [← heru]
        exact hbud'
      · intro p hp
        have hpa : p = a + wsize := (Option.some.inj hp).symm
        subst hpa
        refine ⟨?_, ?_, ?_⟩
        rotate_right
        · intro t ht hta hteq
          have hpw : a + wsize - wsize = a := by
            unfold wsize
            omega
          rw [hpw] at hteq
          obtain ⟨t1, f1, f2, f3, f4, f5⟩ := x6 t ht hta
          rw [hteq, hresa'] at f1
          have ht1 := Option.some.inj f1
          subst ht1
          rw [hjalloc] at f4
          exact absurd f4 (by decide)
        · unfold dsize wsize at halignE ⊢
          omega
        · have hpw : a + wsize - wsize = a := by
            unfold wsize
            omega
          rw [hpw]
          refine ⟨j, ?_, p9, p5, p6⟩
          have h2 := idx_at_addr_pos _ (pos_of_blocksOk p1.2.2.1) j (by omega)
          rw [p8, rem_from_free_list_heap, hjaddr] at h2
          exact h2
      · intro t ht hta
        obtain ⟨t1, f1, f2, f3, f4, f5⟩ := x6 t ht hta
        have haddr1 : addr_of (extend_heap s (Nat.max (malloc_asize n) chunksize)).1.heap t1 = addr_of s.heap t :=
          idx_at_some_addr f1
        obtain ⟨t', g1, g2, g3, g4, g5⟩ := p10 t1
          (by rw [rem_from_free_list_heap]; exact f2)
          (by rw [rem_from_free_list_heap]; exact f4)
        rw [rem_from_free_list_heap] at g1 g3 g5
        rw [haddr1] at g1
        rw [f3] at g3
        rw [f5] at g5
        exact ⟨t', g1, g2, g3, g4, g5⟩

end MM

namespace MM

theorem coherent_of_pairs (h : List Block)
    (hp : ∀ i, i + 1 < h.length → flag_ok (blockD h i) (blockD h (i + 1))) :
    Coherent h := by
  rw [Coherent, List.chain'_iff_get]
  intro i hi
  have := hp i (by omega)
  unfold blockD at this
  rw [List.getD_eq_getElem h default (by omega : i < h.length),
    List.getD_eq_getElem h default (by omega : i + 1 < h.length)] at this
  simpa [List.get_eq_getElem] using this

theorem set_data_facts (s : AState) (i : Nat) (d : List Nat)
    (hw : WF s) (hi : i < s.heap.length)
    (s' : AState)
    (hs' : s' = { s with heap := s.heap.set i { blockD s.heap i with data := d } }) :
    WF s' ∧
    (s'.heap.map Block.size).sum = (s.heap.map Block.size).sum ∧
    s'.budget = s.budget ∧
    s'.prologue = s.prologue ∧
    s'.heap.length = s.heap.length ∧
    (∀ a, idx_at s'.heap a = idx_at s.heap a) ∧
    (∀ j, addr_of s'.heap j = addr_of s.heap j) ∧
    blockD s'.heap i = { blockD s.heap i with data := d } ∧
    (∀ t, t ≠ i → blockD s'.heap t = blockD s.heap t) := by
  obtain ⟨hco, hepi, hbo, hfo, hwl⟩ := hw
  subst hs'
  simp only [upd_heap_heap, upd_heap_classes, upd_heap_mini, upd_heap_budget,
    upd_heap_prologue]
  have hlen : (s.heap.set i { blockD s.heap i with data := d }).length =
      s.heap.length := by simp
  have hblki : blockD (s.heap.set i { blockD s.heap i with data := d }) i =
      { blockD s.heap i with data := d } :=
    blockD_set_self s.heap i _ (by omega)
  have hblkt : ∀ t, t ≠ i →
      blockD (s.heap.set i { blockD s.heap i with data := d }) t =
        blockD s.heap t := fun t ht => blockD_set_ne s.heap i _ t ht
  have haddr : ∀ j, addr_of (s.heap.set i { blockD s.heap i with data := d }) j =
      addr_of s.heap j := fun j =>
    addr_of_set_same s.heap i { blockD s.heap i with data := d } (by omega) rfl j
  have hidx : ∀ a, idx_at (s.heap.set i { blockD s.heap i with data := d }) a =
      idx_at s.heap a := fun a =>
    idx_at_set_same_size s.heap i { blockD s.heap i with data := d } rfl a
  have hmap : (s.heap.set i { blockD s.heap i with data := d }).map Block.size =
      s.heap.map Block.size := map_size_set_same s.heap i _ (by omega) rfl
  have hflags : ∀ t, (blockD (s.heap.set i { blockD s.heap i with data := d }) t).size = (blockD s.heap t).size ∧
      (blockD (s.heap.set i { blockD s.heap i with data := d }) t).alloc = (blockD s.heap t).alloc ∧
      (blockD (s.heap.set i { blockD s.heap i with data := d }) t).prev_alloc = (blockD s.heap t).prev_alloc ∧
      (blockD (s.heap.set i { blockD s.heap i with data := d }) t).prev_mini = (blockD s.heap t).prev_mini := by
    intro t
    by_cases ht : t = i
    · subst ht
      rw [hblki]
      simp
    · rw [hblkt t ht]
      simp
  refine ⟨⟨?_, ?_, ?_, ?_, ?_⟩, by rw [hmap], by trivial, by trivial, hlen,
    hidx, haddr, hblki, hblkt⟩
  · refine coherent_of_pairs _ ?_
    intro j hj
    rw [hlen] at hj
    have hp := coherent_pair s.heap j hco hj
    obtain ⟨e1, e2, e3, e4⟩ := hflags j
    obtain ⟨f1, f2, f3, f4⟩ := hflags (j + 1)
    exact ⟨by rw [f3, e2]; exact hp.1, by rw [f4, e1]; exact hp.2⟩
  · obtain ⟨hne, hsz, hal⟩ := hepi
    refine ⟨?_, ?_, ?_⟩
    · intro hx
      rw [← List.length_eq_zero] at hx
      rw [hlen] at hx
      rw [List.length_eq_zero] at hx
      exact hne hx
    · rw [hlen, (hflags (s.heap.length - 1)).1]
      exact hsz
    · rw [hlen, (hflags (s.heap.length - 1)).2.1]
      exact hal
  · rw [blocksOk_iff_index]
    intro j hj
    rw [hlen] at hj
    rw [(hflags j).1]
    exact (blocksOk_iff_index s.heap).mp hbo j hj
  · intro hx
    rw [(hflags 0).2.2.1]
    refine hfo ?_
    intro hy
    rw [← List.length_eq_zero] at hy
    rw [← hlen] at hy
    rw [List.length_eq_zero] at hy
    exact hx hy
  · obtain ⟨hwlen, hwreg, hwmini, hwnd⟩ := hwl
    refine ⟨hwlen, ?_, ?_, hwnd⟩
    · intro c hc a ha
      have hro := hwreg c hc a ha
      have hei : entry_idx { s with heap := s.heap.set i { blockD s.heap i with data := d } } a = entry_idx s a := by
        unfold entry_idx
        simp only [upd_heap_heap]
        rw [hidx a, hlen]
      refine ⟨?_, ?_, ?_, ?_⟩
      · rw [hei]
        simp only [upd_heap_heap]
        rw [hlen]
        exact hro.1
      · rw [hei]
        simp only [upd_heap_heap]
        rw [(hflags _).2.1]
        exact hro.2.1
      · rw [hei]
        simp only [upd_heap_heap]
        rw [(hflags _).1]
        exact hro.2.2.1
      · rw [hei]
        simp only [upd_heap_heap]
        rw [(hflags _).1]
        exact hro.2.2.2
    · intro a ha
      have hro := hwmini a ha
      have hei : entry_idx { s with heap := s.heap.set i { blockD s.heap i with data := d } } a = entry_idx s a := by
        unfold entry_idx
        simp only [upd_heap_heap]
        rw [hidx a, hlen]
      refine ⟨?_, ?_, ?_⟩
      · rw [hei]
        simp only [upd_heap_heap]
        rw [hlen]
        exact hro.1
      · rw [hei]
        simp only [upd_heap_heap]
        rw [(hflags _).2.1]
        exact hro.2.1
      · rw [hei]
        simp only [upd_heap_heap]
        rw [(hflags _).1]
        exact hro.2.2

end MM

namespace MM

theorem wf_initState : WF initState := by decide

end MM

namespace MM

theorem srcBytes_getD (l rest : List Nat) (k m : Nat) (hm : m < k) :
    ((l.take k ++ List.replicate (k - l.length) 0) ++ rest).getD m 0 =
      l.getD m 0 := by
  have hfl : (l.take k ++ List.replicate (k - l.length) 0).length = k := by
    simp only [List.length_append, List.length_take, List.length_replicate]
    omega
  rw [List.getD_append _ _ _ _ (by rw [hfl]; exact hm)]
  by_cases hml : m < l.length
  · rw [List.getD_append _ _ _ _
      (by simp only [List.length_take]; omega)]
    rw [List.getD_eq_getElem?_getD, List.getD_eq_getElem?_getD,
      List.getElem?_take, if_pos hm]
  · push_neg at hml
    rw [List.getD_append_right _ _ _ _
      (by simp only [List.length_take]; omega)]
    rw [List.getD_eq_default _ _ hml]
    rcases Nat.lt_or_ge (m - (l.take k).length) (k - l.length) with hc | hc
    · rw [List.getD_eq_getElem?_getD, List.getElem?_replicate, if_pos hc]
      rfl
    · rw [List.getD_eq_default _ _ (by simpa using hc)]

end MM

namespace MM

theorem realloc_spec (s : AState) (p n : Nat) (hw : WF s)
    (i0 : Nat)
    (hres : idx_at s.heap (p - wsize) = some i0)
    (hilen : i0 + 1 < s.heap.length)
    (halloc : (blockD s.heap i0).alloc = true)
    (hp0 : p ≠ 0) (hn0 : n ≠ 0) :
    WF (realloc s p n).1 ∧
    ((realloc s p n).2 = none → (realloc s p n).1 = s) ∧
    (∀ np, (realloc s p n).2 = some np →
      np % dsize = 0 ∧
      ∃ j, idx_at (realloc s p n).1.heap (np - wsize) = some j ∧
        j + 1 < (realloc s p n).1.heap.length ∧
        (blockD (realloc s p n).1.heap j).alloc = true ∧
        (∀ m, m < Nat.min n ((blockD s.heap i0).size - wsize) →
          (blockD (realloc s p n).1.heap j).data.getD m 0 =
            (blockD s.heap i0).data.getD m 0) ∧
        (∀ i', idx_at (realloc s p n).1.heap (p - wsize) = some i' →
          (blockD (realloc s p n).1.heap i').alloc = false)) := by
  obtain ⟨m1, m2, m3, m4, m5⟩ := malloc_spec s n hw
  have haddr0 : addr_of s.heap i0 = p - wsize := idx_at_some_addr hres
  cases hr : (malloc s n).2 with
  | none =>
    have hre : realloc s p n = ((malloc s n).1, none) := by
      unfold realloc
      rw [if_neg hn0, if_neg hp0]
      dsimp only []
      rw [hr]
    have hpe : malloc s n = ((malloc s n).1, (malloc s n).2) := rfl
    rw [hr] at hpe
    have hms := malloc_none_frame hpe
    rw [hre]
    dsimp only []
    refine ⟨by rw [hms]; exact hw, fun _ => hms, ?_⟩
    intro np hnp
    exact Option.noConfusion hnp
  | some np =>
    obtain ⟨halignp, ⟨inp, hrnp, hlnp, hanp, hsznp⟩, hfreshp⟩ := m4 np hr
    obtain ⟨i1, g1, g2, g3, g4, g5⟩ := m5 i0 hilen halloc
    rw [haddr0] at g1
    have hnep' : p - wsize ≠ np - wsize := by
      rw [← haddr0]
      exact hfreshp i0 hilen halloc
    have hi1inp : i1 ≠ inp := by
      intro he
      apply hnep'
      have e1 := idx_at_some_addr g1
      have e2 := idx_at_some_addr hrnp
      rw [← e1, ← e2, he]
    have hcs : (match idx_at (malloc s n).1.heap (p - wsize) with
        | some i => get_payload_size (blockD (malloc s n).1.heap i)
        | none => 0) = (blockD s.heap i0).size - wsize := by
      rw [g1]
      dsimp only []
      unfold get_payload_size
      rw [g4]
      simp only [Bool.not_true]
      rw [if_neg (by decide)]
      rw [g3]
    have hre : realloc s p n = (free (mem_memcpy (malloc s n).1 np p
        (Nat.min n ((blockD s.heap i0).size - wsize))) p, some np) := by
      unfold realloc
      rw [if_neg hn0, if_neg hp0]
      dsimp only []
      rw [hr]
      dsimp only []
      rw [hcs]
    have hmc : mem_memcpy (malloc s n).1 np p
        (Nat.min n ((blockD s.heap i0).size - wsize)) =
        { (malloc s n).1 with heap := (malloc s n).1.heap.set inp { blockD (malloc s n).1.heap inp with data := ((data_at (malloc s n).1 p).take (Nat.min n ((blockD s.heap i0).size - wsize)) ++ List.replicate (Nat.min n ((blockD s.heap i0).size - wsize) - (data_at (malloc s n).1 p).length) 0) ++ (blockD (malloc s n).1.heap inp).data.drop (Nat.min n ((blockD s.heap i0).size - wsize)) } } := by
      unfold mem_memcpy
      rw [hrnp]
    obtain ⟨w1, w2, w3, w4, w5, w6, w7, w8, w9⟩ :=
      set_data_facts (malloc s n).1 inp _ m1 (by omega) _ hmc
    have hda : data_at (malloc s n).1 p = (blockD s.heap i0).data := by
      unfold data_at
      rw [g1]
      exact g5
    have hres2 : idx_at (mem_memcpy (malloc s n).1 np p
        (Nat.min n ((blockD s.heap i0).size - wsize))).heap (p - wsize) =
        some i1 := by
      rw [w6]
      exact g1
    have halloc2 : (blockD (mem_memcpy (malloc s n).1 np p
        (Nat.min n ((blockD s.heap i0).size - wsize))).heap i1).alloc =
        true := by
      rw [w9 i1 hi1inp]
      exact g4
    have hlen2 : i1 + 1 < (mem_memcpy (malloc s n).1 np p
        (Nat.min n ((blockD s.heap i0).size - wsize))).heap.length := by
      rw [w5]
      exact g2
    obtain ⟨fw, fsum, fbud, fpro, fframe, ffreed⟩ :=
      free_spec (mem_memcpy (malloc s n).1 np p
        (Nat.min n ((blockD s.heap i0).size - wsize))) p w1
        (Or.inr (Or.inr ⟨i1, hres2, hlen2, halloc2⟩))
    have ha2 : (blockD (mem_memcpy (malloc s n).1 np p
        (Nat.min n ((blockD s.heap i0).size - wsize))).heap inp).alloc =
        true := by
      rw [w8]
      exact hanp
    have haddrnp2 : addr_of (mem_memcpy (malloc s n).1 np p
        (Nat.min n ((blockD s.heap i0).size - wsize))).heap inp =
        np - wsize := by
      rw [w7]
      exact idx_at_some_addr hrnp
    rw [hre]
    dsimp only []
    refine ⟨fw, ?_, ?_⟩
    · intro hnone
      exact Option.noConfusion hnone
    · intro np' hnp'
      have hnpe := Option.some.inj hnp'
      subst hnpe
      refine ⟨halignp, ?_⟩
      obtain ⟨j, q1, q2, q3, q4, q5⟩ := fframe inp (by rw [w5]; exact hlnp) ha2
        (by rw [haddrnp2]; exact fun h => hnep' h.symm)
      rw [haddrnp2] at q1
      refine ⟨j, q1, q2, q4, ?_, ffreed⟩
      intro m hm
      rw [q5, w8]
      dsimp only []
      rw [hda]
      exact srcBytes_getD (blockD s.heap i0).data _ _ m hm
  
end MM

namespace MM

theorem realloc_wf (s : AState) (p n : Nat) (hw : WF s)
    (hv : p = 0 ∨ ∃ i, idx_at s.heap (p - wsize) = some i ∧
      i + 1 < s.heap.length ∧ (blockD s.heap i).alloc = true) :
    WF (realloc s p n).1 := by
  by_cases hn0 : n = 0
  · have hre : realloc s p n = (free s p, none) := by
      unfold realloc
      rw [if_pos hn0]
    rw [hre]
    refine (free_spec s p hw ?_).1
    rcases hv with h | h
    · exact Or.inl h
    · exact Or.inr (Or.inr h)
  · by_cases hp0 : p = 0
    · have hre : realloc s p n = malloc s n := by
        unfold realloc
        rw [if_neg hn0, if_pos hp0]
      rw [hre]
      exact (malloc_spec s n hw).1
    · rcases hv with h | ⟨i, h1, h2, h3⟩
      · exact absurd h hp0
      · exact (realloc_spec s p n hw i h1 h2 h3 hp0 hn0).1

theorem calloc_wf (s : AState) (e z : Nat) (hw : WF s) :
    WF (calloc s e z).1 := by
  unfold calloc
  dsimp only []
  by_cases he : e = 0
  · rw [if_pos he]
    exact hw
  · rw [if_neg he]
    by_cases hdiv : (e * z) % U64 / e = z
    · rw [if_neg (not_not_intro hdiv)]
      obtain ⟨m1, m2, m3, m4, m5⟩ := malloc_spec s ((e * z) % U64) hw
      cases hr : (malloc s ((e * z) % U64)).2 with
      | none =>
        exact m1
      | some bp =>
        obtain ⟨halignp, ⟨ib, hrb, hlb, hab, hszb⟩, hfreshb⟩ := m4 bp hr
        have hms : mem_memset (malloc s ((e * z) % U64)).1 bp 0 ((e * z) % U64) = { (malloc s ((e * z) % U64)).1 with heap := (malloc s ((e * z) % U64)).1.heap.set ib { blockD (malloc s ((e * z) % U64)).1.heap ib with data := List.replicate (Nat.min ((e * z) % U64) (blockD (malloc s ((e * z) % U64)).1.heap ib).data.length) 0 ++ (blockD (malloc s ((e * z) % U64)).1.heap ib).data.drop ((e * z) % U64) } } := by
          unfold mem_memset
          rw [hrb]
        exact (set_data_facts _ ib _ m1 (by omega) _ hms).1
    · rw [if_pos hdiv]
      exact hw

end MM

namespace MM

/-- C5: the four neighbour cases of `coalesce_block` on a newly freed block:
no merge when both neighbours are allocated (only the next block's flags are
rewritten), and in each merge case the result block's size is the sum of
the merged blocks' sizes, each absorbed neighbour's address leaves the free
lists, and the flags of the block after the merged result are cleared. -/
theorem C5_coalesce_four_cases (s : AState) (i : Nat)
    (hlen : i + 1 < s.heap.length)
    (halloc : (blockD s.heap i).alloc = false)
    (hbo : BlocksOk s.heap) (hepi : EpilogueOk s.heap) (hwl : ListsWF s)
    (haB : addr_of s.heap i ∉ all_entries s) :
    (((blockD s.heap i).prev_alloc = true ∨ i = 0) →
      (s.heap.length ≤ i + 1 ∨ (blockD s.heap (i + 1)).alloc = true) →
      (coalesce_block s i).2 = i ∧
      blockD (coalesce_block s i).1.heap i = blockD s.heap i ∧
      (blockD (coalesce_block s i).1.heap (i + 1)).prev_alloc = false ∧
      ((blockD (coalesce_block s i).1.heap (i + 1)).prev_mini = true ↔
        (blockD s.heap i).size = mb_block_size)) ∧
    (((blockD s.heap i).prev_alloc = true ∨ i = 0) →
      (blockD s.heap (i + 1)).alloc = false →
      (coalesce_block s i).2 = i ∧
      (blockD (coalesce_block s i).1.heap i).size =
        (blockD s.heap i).size + (blockD s.heap (i + 1)).size ∧
      addr_of s.heap (i + 1) ∉ all_entries (coalesce_block s i).1 ∧
      (blockD (coalesce_block s i).1.heap (i + 1)).prev_alloc = false ∧
      (blockD (coalesce_block s i).1.heap (i + 1)).prev_mini = false) ∧
    ((blockD s.heap i).prev_alloc = false → i ≠ 0 →
      (s.heap.length ≤ i + 1 ∨ (blockD s.heap (i + 1)).alloc = true) →
      (coalesce_block s i).2 = i - 1 ∧
      (blockD (coalesce_block s i).1.heap (i - 1)).size =
        (blockD s.heap i).size + (blockD s.heap (i - 1)).size ∧
      addr_of s.heap (i - 1) ∉ all_entries (coalesce_block s i).1 ∧
      (blockD (coalesce_block s i).1.heap i).prev_alloc = false ∧
      (blockD (coalesce_block s i).1.heap i).prev_mini = false) ∧
    ((blockD s.heap i).prev_alloc = false → i ≠ 0 →
      (blockD s.heap (i + 1)).alloc = false →
      (coalesce_block s i).2 = i - 1 ∧
      (blockD (coalesce_block s i).1.heap (i - 1)).size =
        (blockD s.heap i).size + (blockD s.heap (i - 1)).size +
          (blockD s.heap (i + 1)).size ∧
      addr_of s.heap (i - 1) ∉ all_entries (coalesce_block s i).1 ∧
      addr_of s.heap (i + 1) ∉ all_entries (coalesce_block s i).1 ∧
      (blockD (coalesce_block s i).1.heap i).prev_alloc = false ∧
      (blockD (coalesce_block s i).1.heap i).prev_mini = false) := by
  refine ⟨?_, ?_, ?_, ?_⟩
  · -- case AA
    intro hprev hnext
    rw [coalesce_block_AA s i hprev hnext]
    dsimp only [upd_heap_heap]
    have hsp : s.heap.take (i + 1) ++
        set_head_flags false (get_mini (blockD s.heap i)) (s.heap.drop (i + 1)) =
        splice s.heap (i + 1) [] (i + 1) false (get_mini (blockD s.heap i)) := by
      unfold splice
      rw [List.append_nil]
    rw [hsp]
    have hL := splice_blockD_left s.heap (i + 1) [] (i + 1) false
      (get_mini (blockD s.heap i)) i (by omega) (by omega)
    have hM := splice_blockD_at_m s.heap (i + 1) [] (i + 1) false
      (get_mini (blockD s.heap i)) (by omega) (by omega)
    simp only [List.length_nil, Nat.add_zero] at hM
    refine ⟨rfl, hL, ?_, ?_⟩
    · rw [hM]
    · rw [hM]
      show get_mini (blockD s.heap i) = true ↔ _
      exact get_mini_iff _
  · -- case AF
    intro hprev hn2
    have hi2 : i + 2 < s.heap.length := by
      obtain ⟨hne, hszE, halE⟩ := hepi
      by_contra hcon
      push_neg at hcon
      have he : i + 1 = s.heap.length - 1 := by omega
      rw [← he] at halE
      rw [halE] at hn2
      exact Bool.noConfusion hn2
    rw [coalesce_block_AF s i hprev hlen hn2]
    dsimp only [upd_heap_heap]
    have hsp : s.heap.take i ++ { blockD s.heap i with size := (blockD s.heap i).size + (blockD s.heap (i + 1)).size, alloc := false, data := (blockD s.heap i).data ++ header_bytes (blockD s.heap (i + 1)) ++ (blockD s.heap (i + 1)).data } :: set_head_flags false false (s.heap.drop (i + 2)) = splice s.heap i [{ blockD s.heap i with size := (blockD s.heap i).size + (blockD s.heap (i + 1)).size, alloc := false, data := (blockD s.heap i).data ++ header_bytes (blockD s.heap (i + 1)) ++ (blockD s.heap (i + 1)).data }] (i + 2) false false := by
      unfold splice
      simp only [List.append_assoc, List.singleton_append]
    rw [hsp]
    have hM := splice_blockD_mid s.heap i [{ blockD s.heap i with size := (blockD s.heap i).size + (blockD s.heap (i + 1)).size, alloc := false, data := (blockD s.heap i).data ++ header_bytes (blockD s.heap (i + 1)) ++ (blockD s.heap (i + 1)).data }] (i + 2) false false 0 (by simp) (by omega)
    simp only [Nat.add_zero] at hM
    have hA := splice_blockD_at_m s.heap i [{ blockD s.heap i with size := (blockD s.heap i).size + (blockD s.heap (i + 1)).size, alloc := false, data := (blockD s.heap i).data ++ header_bytes (blockD s.heap (i + 1)) ++ (blockD s.heap (i + 1)).data }] (i + 2) false false (by omega) (by omega)
    simp only [List.length_cons, List.length_nil] at hA
    obtain ⟨r1, r2, r3, r4, r5, r6, r7, r8, r9⟩ :=
      rem_block_facts s (i + 1) hwl hbo (by omega) _ rfl
    refine ⟨rfl, ?_, ?_, ?_, ?_⟩
    · rw [hM]
      rfl
    · unfold all_entries at r9 ⊢
      simp only [upd_heap_classes, upd_heap_mini]
      exact r9
    · rw [hA]
    · rw [hA]
  · -- case FA
    intro hp1 hp2 hnext
    rw [coalesce_block_FA s i hp1 hp2 hnext]
    dsimp only [upd_heap_heap]
    have hsp : s.heap.take (i - 1) ++ { blockD s.heap (i - 1) with size := (blockD s.heap i).size + (blockD s.heap (i - 1)).size, alloc := false, data := (blockD s.heap (i - 1)).data ++ header_bytes (blockD s.heap i) ++ (blockD s.heap i).data } :: set_head_flags false false (s.heap.drop (i + 1)) = splice s.heap (i - 1) [{ blockD s.heap (i - 1) with size := (blockD s.heap i).size + (blockD s.heap (i - 1)).size, alloc := false, data := (blockD s.heap (i - 1)).data ++ header_bytes (blockD s.heap i) ++ (blockD s.heap i).data }] (i + 1) false false := by
      unfold splice
      simp only [List.append_assoc, List.singleton_append]
    rw [hsp]
    have hM := splice_blockD_mid s.heap (i - 1) [{ blockD s.heap (i - 1) with size := (blockD s.heap i).size + (blockD s.heap (i - 1)).size, alloc := false, data := (blockD s.heap (i - 1)).data ++ header_bytes (blockD s.heap i) ++ (blockD s.heap i).data }] (i + 1) false false 0 (by simp) (by omega)
    simp only [Nat.add_zero] at hM
    have hA := splice_blockD_at_m s.heap (i - 1) [{ blockD s.heap (i - 1) with size := (blockD s.heap i).size + (blockD s.heap (i - 1)).size, alloc := false, data := (blockD s.heap (i - 1)).data ++ header_bytes (blockD s.heap i) ++ (blockD s.heap i).data }] (i + 1) false false (by omega) (by omega)
    simp only [List.length_cons, List.length_nil] at hA
    have he1 : i - 1 + 1 = i := by omega
    rw [he1] at hA
    obtain ⟨r1, r2, r3, r4, r5, r6, r7, r8, r9⟩ :=
      rem_block_facts s (i - 1) hwl hbo (by omega) _ rfl
    refine ⟨rfl, ?_, ?_, ?_, ?_⟩
    · rw [hM]
      rfl
    · unfold all_entries at r9 ⊢
      simp only [upd_heap_classes, upd_heap_mini]
      exact r9
    · rw [hA]
    · rw [hA]
  · -- case FF
    intro hp1 hp2 hn2
    have hi2 : i + 2 < s.heap.length := by
      obtain ⟨hne, hszE, halE⟩ := hepi
      by_contra hcon
      push_neg at hcon
      have he : i + 1 = s.heap.length - 1 := by omega
      rw [← he] at halE
      rw [halE] at hn2
      exact Bool.noConfusion hn2
    rw [coalesce_block_FF s i hp1 hp2 hlen hn2]
    dsimp only [upd_heap_heap]
    have hsp : s.heap.take (i - 1) ++ { blockD s.heap (i - 1) with size := (blockD s.heap i).size + (blockD s.heap (i - 1)).size + (blockD s.heap (i + 1)).size, alloc := false, data := (blockD s.heap (i - 1)).data ++ header_bytes (blockD s.heap i) ++ (blockD s.heap i).data ++ header_bytes (blockD s.heap (i + 1)) ++ (blockD s.heap (i + 1)).data } :: set_head_flags false false (s.heap.drop (i + 2)) = splice s.heap (i - 1) [{ blockD s.heap (i - 1) with size := (blockD s.heap i).size + (blockD s.heap (i - 1)).size + (blockD s.heap (i + 1)).size, alloc := false, data := (blockD s.heap (i - 1)).data ++ header_bytes (blockD s.heap i) ++ (blockD s.heap i).data ++ header_bytes (blockD s.heap (i + 1)) ++ (blockD s.heap (i + 1)).data }] (i + 2) false false := by
      unfold splice
      simp only [List.append_assoc, List.singleton_append]
    rw [hsp]
    have hM := splice_blockD_mid s.heap (i - 1) [{ blockD s.heap (i - 1) with size := (blockD s.heap i).size + (blockD s.heap (i - 1)).size + (blockD s.heap (i + 1)).size, alloc := false, data := (blockD s.heap (i - 1)).data ++ header_bytes (blockD s.heap i) ++ (blockD s.heap i).data ++ header_bytes (blockD s.heap (i + 1)) ++ (blockD s.heap (i + 1)).data }] (i + 2) false false 0 (by simp) (by omega)
    simp only [Nat.add_zero] at hM
    have hA := splice_blockD_at_m s.heap (i - 1) [{ blockD s.heap (i - 1) with size := (blockD s.heap i).size + (blockD s.heap (i - 1)).size + (blockD s.heap (i + 1)).size, alloc := false, data := (blockD s.heap (i - 1)).data ++ header_bytes (blockD s.heap i) ++ (blockD s.heap i).data ++ header_bytes (blockD s.heap (i + 1)) ++ (blockD s.heap (i + 1)).data }] (i + 2) false false (by omega) (by omega)
    simp only [List.length_cons, List.length_nil] at hA
    have he1 : i - 1 + 1 = i := by omega
    rw [he1] at hA
    obtain ⟨r1, r2, r3, r4, r5, r6, r7, r8, r9⟩ :=
      rem_block_facts s (i - 1) hwl hbo (by omega) _ rfl
    obtain ⟨t1, t2, t3, t4, t5, t6, t7, t8, t9⟩ :=
      rem_block_facts (if get_mini (blockD s.heap (i - 1)) then rem_from_mini_list s (addr_of s.heap (i - 1)) else rem_from_free_list s (addr_of s.heap (i - 1))) (i + 1) r8 (by rw [r1]; exact hbo) (by rw [r1]; omega) _ (by rw [r1])
    rw [r1] at t9
    refine ⟨rfl, ?_, ?_, ?_, ?_, ?_⟩
    · rw [hM]
      rfl
    · unfold all_entries at r9 ⊢
      simp only [upd_heap_classes, upd_heap_mini]
      intro hmem
      exact r9 (t5.subset hmem)
    · unfold all_entries at t9 ⊢
      simp only [upd_heap_classes, upd_heap_mini]
      exact t9
    · rw [hA]
    · rw [hA]

end MM

namespace MM

theorem C5_witness :
    (coalesce_block c5_state 0).2 = 0 ∧
    (blockD (coalesce_block c5_state 0).1.heap 0).size =
      (blockD c5_state.heap 0).size + (blockD c5_state.heap 1).size ∧
    addr_of c5_state.heap 1 ∉ all_entries (coalesce_block c5_state 0).1 ∧
    (blockD (coalesce_block c5_state 0).1.heap 1).prev_alloc = false ∧
    (blockD (coalesce_block c5_state 0).1.heap 1).prev_mini = false :=
  (C5_coalesce_four_cases c5_state 0 (by decide) (by decide) (by decide)
    (by decide) (by decide) (by decide)).2.1 (Or.inr rfl) (by decide)

end MM

namespace MM

/-- C3: flag coherence between public calls.  The initialised state is
well-formed; each public entry point (`malloc`, `free`, `realloc`, `calloc`
- for the pointer-consuming calls under their contract that the argument is
null, unresolvable, or a live allocated block) preserves well-formedness;
and well-formedness contains exactly the claimed property: for every
adjacent pair of blocks `(A, B = next A)`, `prev_alloc(B) = alloc(A)` and
`prev_mini(B) = (size(A) = 16)`. -/
theorem C3_flag_coherence :
    WF initState ∧
    (∀ s n, WF s → WF (malloc s n).1) ∧
    (∀ s p, WF s →
      (p = 0 ∨ idx_at s.heap (p - wsize) = none ∨
        ∃ i, idx_at s.heap (p - wsize) = some i ∧ i + 1 < s.heap.length ∧
          (blockD s.heap i).alloc = true) →
      WF (free s p)) ∧
    (∀ s p n, WF s →
      (p = 0 ∨ ∃ i, idx_at s.heap (p - wsize) = some i ∧
        i + 1 < s.heap.length ∧ (blockD s.heap i).alloc = true) →
      WF (realloc s p n).1) ∧
    (∀ s e z, WF s → WF (calloc s e z).1) ∧
    (∀ s, WF s → ∀ i, i + 1 < s.heap.length →
      (blockD s.heap (i + 1)).prev_alloc = (blockD s.heap i).alloc ∧
        ((blockD s.heap (i + 1)).prev_mini = true ↔
          (blockD s.heap i).size = mb_block_size)) := by
  refine ⟨by decide, ?_, ?_, ?_, ?_, ?_⟩
  · intro s n hw
    exact (malloc_spec s n hw).1
  · intro s p hw hv
    exact (free_spec s p hw hv).1
  · intro s p n hw hv
    exact realloc_wf s p n hw hv
  · intro s e z hw
    exact calloc_wf s e z hw
  · intro s hw i hi
    exact coherent_pair s.heap i hw.1 hi

/-- Witness for C3: the initialised state is well-formed, a concrete malloc
preserves well-formedness, and the flag-coherence property holds of the
initial pair of blocks. -/
theorem C3_witness :
    WF initState ∧ WF (malloc initState 24).1 ∧
    (blockD initState.heap 1).prev_alloc = (blockD initState.heap 0).alloc ∧
    ((blockD initState.heap 1).prev_mini = true ↔
      (blockD initState.heap 0).size = mb_block_size) :=
  ⟨C3_flag_coherence.1,
   C3_flag_coherence.2.1 initState 24 (by decide),
   (C3_flag_coherence.2.2.2.2.2 initState (by decide) 0 (by decide)).1,
   (C3_flag_coherence.2.2.2.2.2 initState (by decide) 0 (by decide)).2⟩

end MM

namespace MM

theorem malloc_asize_ge (n : Nat) (hov : n + 23 < U64) :
    n + wsize ≤ malloc_asize n := by
  unfold malloc_asize
  by_cases h8 : n ≤ mb_dsize
  · rw [if_pos h8]
    unfold mb_dsize at h8
    unfold wsize mb_block_size
    omega
  · rw [if_neg h8]
    refine le_trans ?_ (Nat.le_max_left _ _)
    unfold mb_dsize at h8
    unfold round_up
    unfold U64 at hov ⊢
    unfold wsize dsize
    have e1 : (n + 8) % 2 ^ 64 = n + 8 := Nat.mod_eq_of_lt (by omega)
    rw [e1]
    have e2 : (n + 8 + (16 - 1)) % 2 ^ 64 = n + 8 + 15 :=
      Nat.mod_eq_of_lt (by omega)
    rw [e2]
    have e3 : 16 * ((n + 8 + 15) / 16) % 2 ^ 64 = 16 * ((n + 8 + 15) / 16) :=
      Nat.mod_eq_of_lt (by omega)
    rw [e3]
    omega

/-- C1 (amended): for 1 ≤ n with no size_t overflow in the size
normalisation (n + 23 < 2^64), a successful `malloc(n)` on a well-formed
state returns a 16-aligned payload pointer into an allocated block whose
payload (block size minus the 8-byte header) is at least n bytes.  Without
the overflow bound the claim fails (see the counterexample: n = SIZE_MAX
yields a 32-byte block). -/
theorem C1_malloc_aligned_payload (s : AState) (n : Nat) (hw : WF s)
    (h1 : 1 ≤ n) (hov : n + 23 < U64) (p : Nat)
    (hp : (malloc s n).2 = some p) :
    p % dsize = 0 ∧
    ∃ i, idx_at (malloc s n).1.heap (p - wsize) = some i ∧
      i + 1 < (malloc s n).1.heap.length ∧
      (blockD (malloc s n).1.heap i).alloc = true ∧
      n ≤ (blockD (malloc s n).1.heap i).size - wsize := by
  obtain ⟨m1, m2, m3, m4, m5⟩ := malloc_spec s n hw
  obtain ⟨ha, ⟨i, r1, r2, r3, r4⟩, _⟩ := m4 p hp
  have hge := malloc_asize_ge n hov
  refine ⟨ha, i, r1, r2, r3, ?_⟩
  unfold wsize at hge ⊢
  omega

/-- Witness for C1 at the initialised heap and n = 24. -/
theorem C1_witness :
    (malloc initState 24).2 = some 16 ∧
    (16 % dsize = 0 ∧
      ∃ i, idx_at (malloc initState 24).1.heap (16 - wsize) = some i ∧
        i + 1 < (malloc initState 24).1.heap.length ∧
        (blockD (malloc initState 24).1.heap i).alloc = true ∧
        24 ≤ (blockD (malloc initState 24).1.heap i).size - wsize) :=
  ⟨by rfl, C1_malloc_aligned_payload initState 24 (by decide) (by decide)
    (by decide) 16 (by rfl)⟩

/-- C9 (amended): `extend_heap` itself only rounds the request up to a
multiple of 16 and asks the grow primitive for exactly that much - the
maximum with the 4096 chunk size is taken by its caller `malloc` - so a
direct extension grows the heap by exactly `round_up(size, 16)` bytes,
while every successful malloc-driven extension grows the heap by at least
4096 bytes (and a malloc that does not extend grows it by 0). -/
theorem C9_extend_growth (s : AState) (hw : WF s) :
    (∀ sz, min_block_size ≤ round_up sz dsize →
      round_up sz dsize % dsize = 0 → round_up sz dsize ≤ s.budget →
      heap_size_bytes (extend_heap s sz).1 =
        heap_size_bytes s + round_up sz dsize) ∧
    (∀ n, ∃ d, heap_size_bytes (malloc s n).1 = heap_size_bytes s + d ∧
      (d = 0 ∨ chunksize ≤ d)) := by
  constructor
  · intro sz h1 h2 h3
    obtain ⟨x1, x2, x3, x4, x5, x6⟩ := extend_spec s sz hw h1 h2 h3
    unfold heap_size_bytes
    omega
  · intro n
    obtain ⟨m1, m2, ⟨d, hd1, hd2, hd3, hd4⟩, m4, m5⟩ := malloc_spec s n hw
    refine ⟨d, ?_, hd4⟩
    unfold heap_size_bytes
    omega

/-- Witness for C9: extending the fresh heap by a 16-byte request grows it
by exactly 16 bytes (not 4096), and a concrete malloc changes the heap size
by 0 or at least a chunk. -/
theorem C9_witness :
    heap_size_bytes (extend_heap initState 48).1 =
      heap_size_bytes initState + round_up 48 dsize ∧
    (∃ d, heap_size_bytes (malloc initState 24).1 =
      heap_size_bytes initState + d ∧ (d = 0 ∨ chunksize ≤ d)) :=
  ⟨(C9_extend_growth initState (by decide)).1 48 (by decide) (by decide)
    (by decide),
   (C9_extend_growth initState (by decide)).2 24⟩

end MM

namespace MM

/-- C6: for non-null `p` referring to an allocated block and `n > 0`,
`realloc(p, n)` either returns null with the allocator state (hence the
original block) untouched, or returns a pointer to an allocated block whose
first `min(n, old payload size)` bytes equal the bytes of p's old payload -
the old payload size of the allocated source block being its block size
minus the 8-byte header - and frees p: afterwards `p` no longer resolves to
an allocated block. -/
theorem C6_realloc_preserves_bytes (s : AState) (p n : Nat) (hw : WF s)
    (i0 : Nat) (hres : idx_at s.heap (p - wsize) = some i0)
    (hilen : i0 + 1 < s.heap.length)
    (halloc : (blockD s.heap i0).alloc = true)
    (hp0 : p ≠ 0) (hn0 : n ≠ 0) :
    ((realloc s p n).2 = none → (realloc s p n).1 = s) ∧
    (∀ np, (realloc s p n).2 = some np →
      ∃ j, idx_at (realloc s p n).1.heap (np - wsize) = some j ∧
        j + 1 < (realloc s p n).1.heap.length ∧
        (blockD (realloc s p n).1.heap j).alloc = true ∧
        (∀ m, m < Nat.min n ((blockD s.heap i0).size - wsize) →
          (blockD (realloc s p n).1.heap j).data.getD m 0 =
            (blockD s.heap i0).data.getD m 0) ∧
        (∀ i', idx_at (realloc s p n).1.heap (p - wsize) = some i' →
          (blockD (realloc s p n).1.heap i').alloc = false)) := by
  obtain ⟨r1, r2, r3⟩ := realloc_spec s p n hw i0 hres hilen halloc hp0 hn0
  refine ⟨r2, ?_⟩
  intro np hnp
  obtain ⟨ha, j, q1, q2, q3, q4, q5⟩ := r3 np hnp
  exact ⟨j, q1, q2, q3, q4, q5⟩

/-- Witness for C6: grow the 24-byte allocation of the fresh heap to 40
bytes; realloc returns the payload pointer 48 and the conclusion holds. -/
theorem C6_witness :
    (realloc (malloc initState 24).1 16 40).2 = some 48 ∧
    (∃ j, idx_at (realloc (malloc initState 24).1 16 40).1.heap
        (48 - wsize) = some j ∧
      j + 1 < (realloc (malloc initState 24).1 16 40).1.heap.length ∧
      (blockD (realloc (malloc initState 24).1 16 40).1.heap j).alloc =
        true ∧
      (∀ m, m < Nat.min 40 ((blockD (malloc initState 24).1.heap 0).size -
          wsize) →
        (blockD (realloc (malloc initState 24).1 16 40).1.heap j).data.getD
            m 0 =
          (blockD (malloc initState 24).1.heap 0).data.getD m 0) ∧
      (∀ i', idx_at (realloc (malloc initState 24).1 16 40).1.heap
          (16 - wsize) = some i' →
        (blockD (realloc (malloc initState 24).1 16 40).1.heap i').alloc =
          false)) :=
  ⟨by rfl,
   (C6_realloc_preserves_bytes (malloc initState 24).1 16 40 (by decide) 0
     (by rfl) (by decide) (by rfl) (by decide) (by decide)).2 48 (by rfl)⟩

end MM
